import Mathlib

/-!
Verification of the pynastran-tools preprocessing core.

This file gives a shallow embedding, in Lean 4, of the parts of the
repository that the checked claims are about:

* `Renumber` — `MappingBuilder.build` and `Validator.validate_ranges`
  from `src/preprocessing/renumber_includes.py`;
* `IncludeParse` — `IncludeFileParser._parse_file` / `_classify_card`
  from `src/preprocessing/bdf_utils.py`;
* `Scale` — `MassScaleTool._compute_groups`,
  `_apply_scale_factors_inplace`, `_capture_originals`,
  `_restore_originals`, `_rewrite_file_with_scaled_cards` and
  `_write_scaled` from `src/preprocessing/mass_scale.py`;
* `Partition` — `partition_model`, `merge_parts` and `write_partition`
  from `src/preprocessing/partition_bdf.py`.

Python dictionaries are embedded as association lists in insertion
order; a dictionary write is a binding prepended to the front, and
lookup takes the first (most recent) binding.  Python sets are embedded
as `List` values together with `Nodup` hypotheses.  Python floats are
embedded as rationals (`ℚ`): the claims under check are about which
scalars are multiplied, captured, or restored, not about rounding.
-/

namespace BdfUtils

/-- The twelve entity families of `ENTITY_TYPES` in
`src/preprocessing/bdf_utils.py`. -/
inductive EType
  | nid | eid | pid | mid | cid
  | spcId | mpcId | loadId | contactId
  | setId | methodId | tableId
deriving DecidableEq, Repr, Fintype

/-- The `ENTITY_TYPES` list, in source order. -/
def ENTITY_TYPES : List EType :=
  [.nid, .eid, .pid, .mid, .cid, .spcId, .mpcId, .loadId, .contactId,
   .setId, .methodId, .tableId]

end BdfUtils

namespace Renumber

open BdfUtils

/-- One file of the `MappingBuilder` input: the file's entry in the
parser's `file_ids` map (`ids`) paired with its entry in the
user-supplied `ranges` map (`range`).  `fid` stands for the file path
(paths are distinct dictionary keys, so a `Nat` tag suffices). -/
structure FileData where
  fid : Nat
  ids : EType → List Int
  range : EType → Option (Int × Int)

/-- The inner loop of `MappingBuilder.build`:
`for i, old_id in enumerate(sorted_ids): self.maps[etype][old_id] = start_id + i`. -/
def bucketAssign (start : Int) : List Int → List (Int × Int)
  | [] => []
  | o :: rest => (o, start) :: bucketAssign (start + 1) rest

/-- The bucket contributed by one file for one entity type: empty when
the file owns no ids of that type (`if not ids: continue`) or no range
is given (`if range_info is None: continue`), otherwise the sorted ids
paired with consecutive new ids from the range's start. -/
def fileBucket (t : EType) (fd : FileData) : List (Int × Int) :=
  if fd.ids t = [] then []
  else
    match fd.range t with
    | none => []
    | some (s, _e) =>
        bucketAssign s ((fd.ids t).insertionSort (· ≤ ·))

/-- `MappingBuilder.build` restricted to one entity type: the loop
`for filepath, ids_by_type in self.file_ids.items()` writing
`self.maps[etype][old_id] = start_id + i`.  Later dictionary writes
shadow earlier ones, so each file's bucket is prepended to the front of
the accumulated association list. -/
def buildFamily (files : List FileData) (t : EType) : List (Int × Int) :=
  files.foldl (fun m fd => fileBucket t fd ++ m) []

/-- `MappingBuilder.build` proper: one map per entity type. -/
def build (files : List FileData) : EType → List (Int × Int) :=
  fun t => buildFamily files t

/-- Dictionary lookup in the built map (first, i.e. most recent,
binding wins). -/
def mapLookup (m : List (Int × Int)) (k : Int) : Option Int :=
  List.lookup k m

/-- The claim's validity condition on one bucket's range: start ≥ 1,
end ≥ start, and capacity `end - start + 1` at least the bucket's id
count. -/
def rangeOk (count : Nat) (o : Option (Int × Int)) : Prop :=
  match o with
  | some (s, e) => 1 ≤ s ∧ s ≤ e ∧ (count : Int) ≤ e - s + 1
  | none => False

instance (count : Nat) (o : Option (Int × Int)) : Decidable (rangeOk count o) :=
  match o with
  | some (s, e) =>
      inferInstanceAs (Decidable (1 ≤ s ∧ s ≤ e ∧ (count : Int) ≤ e - s + 1))
  | none => isFalse (fun h => h)

/-- Two ranges of the same family are disjoint intervals. -/
def rangesDisj (ra rb : Option (Int × Int)) : Prop :=
  match ra, rb with
  | some (sa, ea), some (sb, eb) => ea < sb ∨ eb < sa
  | _, _ => True

instance (ra rb : Option (Int × Int)) : Decidable (rangesDisj ra rb) :=
  match ra, rb with
  | some (sa, ea), some (sb, eb) => inferInstanceAs (Decidable (_ ∨ _))
  | some _, none => isTrue trivial
  | none, some _ => isTrue trivial
  | none, none => isTrue trivial

/-- Each file's id lists represent Python sets: no duplicates. -/
def idsAreSets (files : List FileData) (t : EType) : Prop :=
  ∀ fd ∈ files, (fd.ids t).Nodup

instance (files : List FileData) (t : EType) : Decidable (idsAreSets files t) :=
  inferInstanceAs (Decidable (∀ fd ∈ files, (fd.ids t).Nodup))

/-- The claim's "valid range assignment" for one family: every bucket
that owns ids has a range satisfying `rangeOk`, and the ranges of the
family are pairwise disjoint across files. -/
def validRangeAssignment (files : List FileData) (t : EType) : Prop :=
  (∀ fd ∈ files, fd.ids t ≠ [] → rangeOk (fd.ids t).length (fd.range t)) ∧
  files.Pairwise (fun a b =>
    a.ids t ≠ [] → b.ids t ≠ [] → rangesDisj (a.range t) (b.range t))

instance (files : List FileData) (t : EType) :
    Decidable (validRangeAssignment files t) :=
  inferInstanceAs (Decidable (_ ∧ _))

/-- The claim's conclusion, stated over the code's map: within each
bucket, the i-th entry of the ascending sort of the bucket's ids is
mapped to `start + i`. -/
def bucketMappedConsecutively (files : List FileData) (t : EType) : Prop :=
  ∀ fd ∈ files, ∀ s e, fd.ids t ≠ [] → fd.range t = some (s, e) →
    ∀ i : Nat,
      ∀ h : i < ((fd.ids t).insertionSort (· ≤ ·)).length,
        mapLookup (buildFamily files t)
          (((fd.ids t).insertionSort (· ≤ ·)).get ⟨i, h⟩)
          = some (s + i)

/-- Distinct old ids are never sent to the same new id. -/
def mapInjective (files : List FileData) (t : EType) : Prop :=
  ∀ o1 o2 n, mapLookup (buildFamily files t) o1 = some n →
    mapLookup (buildFamily files t) o2 = some n → o1 = o2

-- ── helper lemmas on association-list lookup ──

theorem lookup_cons (k : Int) (a : Int × Int) (l : List (Int × Int)) :
    List.lookup k (a :: l) = if k = a.1 then some a.2 else List.lookup k l := by
  rcases a with ⟨x, y⟩
  rw [List.lookup]
  by_cases h : k = x
  · have hb : (k == x) = true := by simp [h]
    rw [hb, if_pos h]
  · have hb : (k == x) = false := by simp [h]
    rw [hb, if_neg h]

theorem lookup_append_of_some {l1 l2 : List (Int × Int)} {k n : Int}
    (h : List.lookup k l1 = some n) :
    List.lookup k (l1 ++ l2) = some n := by
  induction l1 with
  | nil => simp [List.lookup] at h
  | cons a l ih =>
      rw [List.cons_append, lookup_cons]
      rw [lookup_cons] at h
      by_cases hk : k = a.1
      · simpa [hk] using h
      · rw [if_neg hk] at h ⊢
        exact ih h

theorem lookup_append_of_none {l1 l2 : List (Int × Int)} {k : Int}
    (h : List.lookup k l1 = none) :
    List.lookup k (l1 ++ l2) = List.lookup k l2 := by
  induction l1 with
  | nil => simp
  | cons a l ih =>
      rw [List.cons_append, lookup_cons]
      rw [lookup_cons] at h
      by_cases hk : k = a.1
      · simp [hk] at h
      · rw [if_neg hk] at h ⊢
        exact ih h

theorem lookup_append_cases {l1 l2 : List (Int × Int)} {k n : Int}
    (h : List.lookup k (l1 ++ l2) = some n) :
    List.lookup k l1 = some n ∨
      (List.lookup k l1 = none ∧ List.lookup k l2 = some n) := by
  cases hl : List.lookup k l1 with
  | some m =>
      have hmn : some m = some n :=
        (show List.lookup k (l1 ++ l2) = some m from
          lookup_append_of_some hl).symm.trans h
      exact Or.inl hmn
  | none =>
      right
      exact ⟨rfl, by rwa [lookup_append_of_none hl] at h⟩

-- ── helper lemmas on bucketAssign ──

theorem bucketAssign_lookup_get {l : List Int} (hnd : l.Nodup) (s : Int) :
    ∀ i : Nat, ∀ h : i < l.length,
      List.lookup (l.get ⟨i, h⟩) (bucketAssign s l) = some (s + i) := by
  induction l generalizing s with
  | nil => intro i h; simp at h
  | cons a l ih =>
      intro i h
      rcases List.nodup_cons.mp hnd with ⟨ha, hl⟩
      cases i with
      | zero => simp [bucketAssign, lookup_cons]
      | succ j =>
          have hj : j < l.length := Nat.lt_of_succ_lt_succ h
          have hne : l.get ⟨j, hj⟩ ≠ a := by
            intro hEq; exact ha (hEq ▸ List.get_mem l j hj)
          rw [show (a :: l).get ⟨j + 1, h⟩ = l.get ⟨j, hj⟩ from rfl]
          rw [bucketAssign, lookup_cons, if_neg hne]
          rw [ih hl (s + 1) j hj]
          congr 1
          push_cast
          ring

theorem bucketAssign_lookup_some {l : List Int} {s k n : Int}
    (h : List.lookup k (bucketAssign s l) = some n) :
    ∃ i : Nat, ∃ hi : i < l.length, l.get ⟨i, hi⟩ = k ∧ n = s + i := by
  induction l generalizing s with
  | nil => simp [bucketAssign, List.lookup] at h
  | cons a l ih =>
      rw [bucketAssign, lookup_cons] at h
      by_cases hk : k = a
      · refine ⟨0, Nat.succ_pos _, ?_, ?_⟩
        · simp [hk]
        · rw [if_pos hk] at h
          simp at h
          omega
      · rw [if_neg hk] at h
        obtain ⟨i, hi, hgi, hn⟩ := ih h
        refine ⟨i + 1, Nat.succ_lt_succ hi, hgi, ?_⟩
        rw [hn]; push_cast; ring

theorem bucketAssign_lookup_none {l : List Int} {k : Int} :
    k ∉ l → ∀ s : Int, List.lookup k (bucketAssign s l) = none := by
  induction l with
  | nil => intro _ s; simp [bucketAssign, List.lookup]
  | cons a l ih =>
      intro hk s
      rw [bucketAssign, lookup_cons]
      have hka : k ≠ a := fun h => hk (h ▸ List.mem_cons_self a l)
      rw [if_neg hka]
      exact ih (fun h => hk (List.mem_cons_of_mem a h)) (s + 1)

-- ── structure of buildFamily ──

theorem buildFamily_acc (files : List FileData) (t : EType)
    (m : List (Int × Int)) :
    files.foldl (fun m fd => fileBucket t fd ++ m) m
      = buildFamily files t ++ m := by
  induction files generalizing m with
  | nil => simp [buildFamily]
  | cons fd rest ih =>
      rw [List.foldl_cons, ih (fileBucket t fd ++ m)]
      have hr : buildFamily (fd :: rest) t
          = buildFamily rest t ++ (fileBucket t fd ++ []) := by
        rw [buildFamily, List.foldl_cons, ih (fileBucket t fd ++ [])]
      rw [hr]
      simp

theorem buildFamily_cons (fd : FileData) (rest : List FileData) (t : EType) :
    buildFamily (fd :: rest) t = buildFamily rest t ++ fileBucket t fd := by
  rw [buildFamily, List.foldl_cons, buildFamily_acc]
  simp

/-- When a nonempty bucket has a range, its contribution is the sorted
ids assigned consecutively from the range's start. -/
theorem fileBucket_eq {fd : FileData} {t : EType} {s e : Int}
    (hr : fd.range t = some (s, e)) (hids : fd.ids t ≠ []) :
    fileBucket t fd
      = bucketAssign s ((fd.ids t).insertionSort (· ≤ ·)) := by
  unfold fileBucket
  rw [if_neg hids, hr]

theorem fileBucket_empty_of_no_ids {fd : FileData} {t : EType}
    (hids : fd.ids t = []) : fileBucket t fd = [] := by
  unfold fileBucket
  rw [if_pos hids]

theorem fileBucket_empty_of_no_range {fd : FileData} {t : EType}
    (hr : fd.range t = none) : fileBucket t fd = [] := by
  unfold fileBucket
  by_cases hids : fd.ids t = []
  · rw [if_pos hids]
  · rw [if_neg hids, hr]

/-- The keys of a file's bucket are exactly the ids it owns (when a
range exists). -/
theorem fileBucket_key_mem {fd : FileData} {t : EType} {k n : Int}
    (h : List.lookup k (fileBucket t fd) = some n) : k ∈ fd.ids t := by
  by_cases hids : fd.ids t = []
  · rw [fileBucket_empty_of_no_ids hids] at h; simp [List.lookup] at h
  · rcases hr : fd.range t with _ | ⟨s, e⟩
    · rw [fileBucket_empty_of_no_range hr] at h; simp [List.lookup] at h
    · rw [fileBucket_eq hr hids] at h
      obtain ⟨i, hi, hgi, _⟩ := bucketAssign_lookup_some h
      have hmem : k ∈ (fd.ids t).insertionSort (· ≤ ·) :=
        hgi ▸ List.get_mem _ i hi
      exact (List.perm_insertionSort (· ≤ ·) (fd.ids t)).mem_iff.mp hmem

theorem buildFamily_lookup_none {files : List FileData} {t : EType} {k : Int}
    (h : ∀ fd ∈ files, k ∉ fd.ids t) :
    List.lookup k (buildFamily files t) = none := by
  induction files with
  | nil => simp [buildFamily]
  | cons fd rest ih =>
      rw [buildFamily_cons]
      have h1 : List.lookup k (buildFamily rest t) = none :=
        ih (fun g hg => h g (List.mem_cons_of_mem fd hg))
      rw [lookup_append_of_none h1]
      cases hb : List.lookup k (fileBucket t fd) with
      | none => rfl
      | some n =>
          exact absurd (fileBucket_key_mem hb)
            (h fd (List.mem_cons_self fd rest))

/-- A successful lookup comes from some file's bucket, at a definite
index of that bucket's sorted ids. -/
theorem buildFamily_lookup_source {files : List FileData} {t : EType}
    {k n : Int} (h : List.lookup k (buildFamily files t) = some n) :
    ∃ fd ∈ files, ∃ s e, fd.range t = some (s, e) ∧ fd.ids t ≠ [] ∧
      ∃ i : Nat,
        ∃ hi : i < ((fd.ids t).insertionSort (· ≤ ·)).length,
          ((fd.ids t).insertionSort (· ≤ ·)).get ⟨i, hi⟩ = k ∧
          n = s + i := by
  induction files with
  | nil => simp [buildFamily, List.lookup] at h
  | cons fd rest ih =>
      rw [buildFamily_cons] at h
      rcases lookup_append_cases h with h1 | ⟨_, h2⟩
      · obtain ⟨g, hg, rest'⟩ := ih h1
        exact ⟨g, List.mem_cons_of_mem fd hg, rest'⟩
      · refine ⟨fd, List.mem_cons_self fd rest, ?_⟩
        by_cases hids : fd.ids t = []
        · rw [fileBucket_empty_of_no_ids hids] at h2
          simp [List.lookup] at h2
        · rcases hr : fd.range t with _ | ⟨s, e⟩
          · rw [fileBucket_empty_of_no_range hr] at h2
            simp [List.lookup] at h2
          · rw [fileBucket_eq hr hids] at h2
            obtain ⟨i, hi, hgi, hn⟩ := bucketAssign_lookup_some h2
            exact ⟨s, e, rfl, hids, i, hi, hgi, hn⟩

theorem rangeOk_elim {c : Nat} {o : Option (Int × Int)} (h : rangeOk c o) :
    ∃ s e, o = some (s, e) ∧ 1 ≤ s ∧ s ≤ e ∧ (c : Int) ≤ e - s + 1 :=
  match o with
  | some (s, e) => ⟨s, e, rfl, h⟩
  | none => absurd h (fun h => h)

/-- The new id assigned from a bucket lies inside the bucket's range,
given the capacity condition. -/
theorem bucket_value_bounds {fd : FileData} {t : EType} {s e n : Int}
    {i : Nat}
    (hok : rangeOk (fd.ids t).length (fd.range t))
    (hr : fd.range t = some (s, e))
    (hi : i < ((fd.ids t).insertionSort (· ≤ ·)).length)
    (hn : n = s + i) : s ≤ n ∧ n ≤ e := by
  obtain ⟨s', e', hr', h1, h2, h3⟩ := rangeOk_elim hok
  have hse := Option.some.inj (hr.symm.trans hr')
  have hs : s = s' := congrArg Prod.fst hse
  have he : e = e' := congrArg Prod.snd hse
  subst hs; subst he
  have hlen : ((fd.ids t).insertionSort (· ≤ ·)).length = (fd.ids t).length :=
    (List.perm_insertionSort (· ≤ ·) (fd.ids t)).length_eq
  rw [hlen] at hi
  subst hn
  constructor
  · have : (0 : Int) ≤ (i : Int) := Int.natCast_nonneg i
    omega
  · have hii : (i : Int) < ((fd.ids t).length : Int) := by exact_mod_cast hi
    omega

/-- Within each bucket the i-th smallest old id maps to `start + i`,
provided the same-family buckets of distinct files are disjoint. -/
theorem build_bucket_property (files : List FileData) (t : EType)
    (hsets : idsAreSets files t)
    (hdisj : files.Pairwise (fun a b => ∀ k, k ∈ a.ids t → k ∉ b.ids t)) :
    bucketMappedConsecutively files t := by
  induction files with
  | nil => intro fd hfd; simp at hfd
  | cons f rest ih =>
      intro fd hfd s e hne hr i hi
      unfold mapLookup
      rw [buildFamily_cons]
      rcases List.mem_cons.mp hfd with rfl | hfd'
      · have hkmem : ((fd.ids t).insertionSort (· ≤ ·)).get ⟨i, hi⟩ ∈ fd.ids t :=
          (List.perm_insertionSort (· ≤ ·) (fd.ids t)).mem_iff.mp
            (List.get_mem _ i hi)
        have hnone :
            List.lookup (((fd.ids t).insertionSort (· ≤ ·)).get ⟨i, hi⟩)
              (buildFamily rest t) = none := by
          apply buildFamily_lookup_none
          intro g hg
          exact (List.pairwise_cons.mp hdisj).1 g hg _ hkmem
        rw [lookup_append_of_none hnone, fileBucket_eq hr hne]
        have hnd : ((fd.ids t).insertionSort (· ≤ ·)).Nodup :=
          ((List.perm_insertionSort (· ≤ ·) (fd.ids t)).nodup_iff).mpr
            (hsets fd hfd)
        exact bucketAssign_lookup_get hnd s i hi
      · have hsome := ih (fun g hg => hsets g (List.mem_cons_of_mem f hg))
          (List.pairwise_cons.mp hdisj).2 fd hfd' s e hne hr i hi
        exact lookup_append_of_some hsome

/-- The built map never sends two old ids to one new id, given valid
(disjoint, adequate-capacity) ranges. -/
theorem build_injective (files : List FileData) (t : EType)
    (hvalid : validRangeAssignment files t) :
    mapInjective files t := by
  intro o1 o2 n h1 h2
  unfold mapLookup at h1 h2
  obtain ⟨fd1, hfd1, s1, e1, hr1, hne1, i1, hi1, hg1, hn1⟩ :=
    buildFamily_lookup_source h1
  obtain ⟨fd2, hfd2, s2, e2, hr2, hne2, i2, hi2, hg2, hn2⟩ :=
    buildFamily_lookup_source h2
  by_cases hfe : fd1 = fd2
  · subst hfe
    have hse := Option.some.inj (hr1.symm.trans hr2)
    have hs : s1 = s2 := congrArg Prod.fst hse
    subst hs
    have hii : i1 = i2 := by omega
    subst hii
    rw [← hg1, ← hg2]
  · have hsym : Symmetric (fun a b : FileData =>
        a.ids t ≠ [] → b.ids t ≠ [] → rangesDisj (a.range t) (b.range t)) := by
      intro a b hab hb ha
      have h := hab ha hb
      unfold rangesDisj at h ⊢
      rcases hra : a.range t with _ | ⟨sa, ea⟩ <;>
        rcases hrb : b.range t with _ | ⟨sb, eb⟩ <;> simp_all
      exact h.symm
    have hd := hvalid.2.forall hsym hfd1 hfd2 hfe hne1 hne2
    rw [hr1, hr2] at hd
    have hb1 := bucket_value_bounds (hvalid.1 fd1 hfd1 hne1) hr1 hi1 hn1
    have hb2 := bucket_value_bounds (hvalid.1 fd2 hfd2 hne2) hr2 hi2 hn2
    unfold rangesDisj at hd
    rcases hd with hlt | hlt <;> omega

/-- C1, amended: assuming additionally that the buckets of one family
are pairwise disjoint across files (each old id owned by one file), a
valid range assignment makes `MappingBuilder.build` send the i-th
smallest old id of each bucket to `start + i`; every owned old id is
mapped, and the family map is injective. -/
theorem claim_C1_build_mapping (files : List FileData) (t : EType)
    (hsets : idsAreSets files t)
    (hvalid : validRangeAssignment files t)
    (hdisj : files.Pairwise (fun a b => ∀ k, k ∈ a.ids t → k ∉ b.ids t)) :
    bucketMappedConsecutively files t ∧
    (∀ fd ∈ files, ∀ o ∈ fd.ids t,
      ∃ n, mapLookup (buildFamily files t) o = some n) ∧
    mapInjective files t := by
  have hbucket := build_bucket_property files t hsets hdisj
  refine ⟨hbucket, ?_, build_injective files t hvalid⟩
  intro fd hfd o ho
  have hne : fd.ids t ≠ [] := by
    intro h; rw [h] at ho; simp at ho
  obtain ⟨s, e, hr, -, -, -⟩ := rangeOk_elim (hvalid.1 fd hfd hne)
  have hmem : o ∈ (fd.ids t).insertionSort (· ≤ ·) :=
    (List.perm_insertionSort (· ≤ ·) (fd.ids t)).mem_iff.mpr ho
  obtain ⟨⟨i, hi⟩, hget⟩ := List.mem_iff_get.mp hmem
  exact ⟨s + i, hget ▸ hbucket fd hfd s e hne hr i hi⟩

/-- First file of the C1 counterexample: owns node id 5, range
`[10, 10]`. -/
def exFileA : FileData where
  fid := 1
  ids := fun t => match t with | .nid => [5] | _ => []
  range := fun t => match t with | .nid => some (10, 10) | _ => none

/-- Second file of the C1 counterexample: also owns node id 5, range
`[20, 20]`. -/
def exFileB : FileData where
  fid := 2
  ids := fun t => match t with | .nid => [5] | _ => []
  range := fun t => match t with | .nid => some (20, 20) | _ => none

/-- C1 counterexample: with the claim's validity conditions all
satisfied (each bucket has start ≥ 1, end ≥ start, enough capacity, and
same-family ranges disjoint across files), the bucket-consecutive
property fails when one old id is owned by two files: the second
file's dictionary write shadows the first, so old id 5 of the first
bucket maps to 20, not to its bucket start 10. -/
theorem claim_C1_counterexample :
    idsAreSets [exFileA, exFileB] .nid ∧
    validRangeAssignment [exFileA, exFileB] .nid ∧
    ¬ bucketMappedConsecutively [exFileA, exFileB] .nid := by
  refine ⟨by decide, by decide, ?_⟩
  intro h
  have h5 := h exFileA (List.mem_cons_self _ _) 10 10 (by decide) rfl 0
    (by decide)
  exact absurd h5 (by decide)

/-- Third file for the C1 witness: owns node ids 7 and 3, range
`[100, 110]`. -/
def exFileC : FileData where
  fid := 3
  ids := fun t => match t with | .nid => [7, 3] | _ => []
  range := fun t => match t with | .nid => some (100, 110) | _ => none

/-- Fourth file for the C1 witness: owns node id 9, range `[200, 205]`. -/
def exFileD : FileData where
  fid := 4
  ids := fun t => match t with | .nid => [9] | _ => []
  range := fun t => match t with | .nid => some (200, 205) | _ => none

/-- C1 witness: the amended theorem applied to a concrete two-file
assignment with disjoint buckets. -/
theorem claim_C1_witness :
    bucketMappedConsecutively [exFileC, exFileD] .nid ∧
    (∀ fd ∈ [exFileC, exFileD], ∀ o ∈ fd.ids .nid,
      ∃ n, mapLookup (buildFamily [exFileC, exFileD] .nid) o = some n) ∧
    mapInjective [exFileC, exFileD] .nid :=
  claim_C1_build_mapping [exFileC, exFileD] .nid (by decide) (by decide)
    (by decide)

-- ── Validator.validate_ranges ──

/-- Structured stand-ins for the error strings that
`Validator.validate_ranges` accumulates; one constructor per `append`
site in the source.  The claims under check count and locate errors,
so the formatted message text is abstracted to its payload. -/
inductive VError
  | noRange (fid : Nat) (t : EType)
  | startLt1 (fid : Nat) (t : EType)
  | endLtStart (fid : Nat) (t : EType)
  | capacity (fid : Nat) (t : EType)
  | overlap (t : EType) (f1 f2 : Nat)
  | cidZero (fid : Nat)
deriving DecidableEq, Repr

/-- The errors the per-file body of the family loop appends: nothing
for a non-owning file; "no range specified" when the range is missing;
otherwise the start/end/capacity checks in source order (`end < start`
short-circuits the capacity check with `continue`). -/
def fileRangeErrs (t : EType) (fd : FileData) : List VError :=
  if fd.ids t = [] then []
  else
    match fd.range t with
    | none => [VError.noRange fd.fid t]
    | some (s, e) =>
        (if s < 1 then [VError.startLt1 fd.fid t] else []) ++
        (if e < s then [VError.endLtStart fd.fid t]
         else if e - s + 1 < ((fd.ids t).length : Int) then
           [VError.capacity fd.fid t]
         else [])

/-- The `etype_ranges.append((start_id, end_id, fname))` of the same
loop body: an owning file with a range contributes its `(start, end,
file)` triple unless `end < start` hit `continue`. -/
def fileRangeEntry (t : EType) (fd : FileData) : List (Int × Int × Nat) :=
  if fd.ids t = [] then []
  else
    match fd.range t with
    | none => []
    | some (s, e) => if e < s then [] else [(s, e, fd.fid)]

/-- Python tuple comparison used by `etype_ranges.sort()`:
lexicographic on `(start, end, fname)`. -/
def rangeLe (a b : Int × Int × Nat) : Prop :=
  a.1 < b.1 ∨ (a.1 = b.1 ∧
    (a.2.1 < b.2.1 ∨ (a.2.1 = b.2.1 ∧ a.2.2 ≤ b.2.2)))

instance : DecidableRel rangeLe := fun a b =>
  inferInstanceAs (Decidable (_ ∨ _))

instance : IsTotal (Int × Int × Nat) rangeLe :=
  ⟨by intro a b; unfold rangeLe; omega⟩

instance : IsTrans (Int × Int × Nat) rangeLe :=
  ⟨by intro a b c hab hbc; unfold rangeLe at hab hbc ⊢; omega⟩

/-- The adjacent-pair overlap scan
`for i in range(len(etype_ranges) - 1): ... if s2 <= e1: errors.append(...)`. -/
def adjacentOverlaps (t : EType) : List (Int × Int × Nat) → List VError
  | (s1, e1, f1) :: (s2, e2, f2) :: rest =>
      (if s2 ≤ e1 then [VError.overlap t f1 f2] else [])
        ++ adjacentOverlaps t ((s2, e2, f2) :: rest)
  | _ => []

/-- One family's contribution to the error list: the per-file checks in
file order, then the overlap scan over the sorted surviving ranges. -/
def familyErrors (files : List FileData) (t : EType) : List VError :=
  files.flatMap (fileRangeErrs t) ++
    adjacentOverlaps t
      ((files.flatMap (fileRangeEntry t)).insertionSort rangeLe)

/-- The final CID-0 loop: an error for every file whose cid bucket
contains 0 and has a range not starting at 0
(`if range_info and range_info[0] != 0`). -/
def cidZeroErr (fd : FileData) : List VError :=
  if 0 ∈ fd.ids .cid then
    match fd.range .cid with
    | some (s, _e) => if s ≠ 0 then [VError.cidZero fd.fid] else []
    | none => []
  else []

/-- Whether a family is validated: spc/mpc/load ids are skipped when
`include_set_ids` is off. -/
def famChecked (includeSetIds : Bool) (t : EType) : Prop :=
  includeSetIds = false → ¬(t = .spcId ∨ t = .mpcId ∨ t = .loadId)

instance (b : Bool) (t : EType) : Decidable (famChecked b t) :=
  inferInstanceAs (Decidable (_ → _))

/-- `Validator.validate_ranges`: family loop over `ENTITY_TYPES`
(skipping set-id families when the toggle is off), then the CID-0
loop. -/
def validate_ranges (files : List FileData) (includeSetIds : Bool) :
    List VError :=
  (ENTITY_TYPES.flatMap (fun t =>
    if famChecked includeSetIds t then familyErrors files t else []))
    ++ files.flatMap cidZeroErr

-- ── the claim's error conditions ──

/-- The claim's per-bucket failure condition: the bucket owns ids and
its range has start < 1, end < start, or too little capacity. -/
def bucketBad (fd : FileData) (t : EType) : Prop :=
  fd.ids t ≠ [] ∧
    match fd.range t with
    | some (s, e) => s < 1 ∨ e < s ∨ e - s + 1 < ((fd.ids t).length : Int)
    | none => False

instance (fd : FileData) (t : EType) : Decidable (bucketBad fd t) :=
  match h : fd.range t with
  | some (s, e) => by
      unfold bucketBad
      rw [h]
      exact inferInstanceAs (Decidable (_ ∧ _))
  | none => by
      unfold bucketBad
      rw [h]
      exact inferInstanceAs (Decidable (_ ∧ False))

/-- The claim's no-overlap condition for one family: the ranges of any
two distinct owning files are disjoint intervals. -/
def familyRangesDisjoint (files : List FileData) (t : EType) : Prop :=
  files.Pairwise (fun a b =>
    a.ids t ≠ [] → b.ids t ≠ [] → rangesDisj (a.range t) (b.range t))

instance (files : List FileData) (t : EType) :
    Decidable (familyRangesDisjoint files t) :=
  inferInstanceAs (Decidable (List.Pairwise _ _))

/-- The claim's cid-0 condition: some file's cid bucket contains 0 and
a range that would remap it (start ≠ 0). -/
def cidZeroRemapped (files : List FileData) : Prop :=
  ∃ fd ∈ files, 0 ∈ fd.ids .cid ∧
    match fd.range .cid with
    | some (s, _e) => s ≠ 0
    | none => False

instance (fd : FileData) :
    Decidable (0 ∈ fd.ids .cid ∧
      match fd.range .cid with
      | some (s, _e) => s ≠ 0
      | none => False) :=
  match h : fd.range .cid with
  | some (s, e) => inferInstanceAs (Decidable (_ ∧ s ≠ 0))
  | none => inferInstanceAs (Decidable (_ ∧ False))

instance (files : List FileData) : Decidable (cidZeroRemapped files) :=
  inferInstanceAs (Decidable (∃ fd ∈ files, _))

-- ── characterizing the validator's output ──

theorem fileRangeErrs_eq_some {t : EType} {fd : FileData} {s e : Int}
    (hids : ¬ fd.ids t = []) (hr : fd.range t = some (s, e)) :
    fileRangeErrs t fd =
      (if s < 1 then [VError.startLt1 fd.fid t] else []) ++
      (if e < s then [VError.endLtStart fd.fid t]
       else if e - s + 1 < ((fd.ids t).length : Int) then
         [VError.capacity fd.fid t]
       else []) := by
  unfold fileRangeErrs
  rw [if_neg hids, hr]

theorem bucketBad_iff_some {t : EType} {fd : FileData} {s e : Int}
    (hr : fd.range t = some (s, e)) :
    bucketBad fd t ↔ fd.ids t ≠ [] ∧
      (s < 1 ∨ e < s ∨ e - s + 1 < ((fd.ids t).length : Int)) := by
  unfold bucketBad
  rw [hr]

theorem fileRangeErrs_nil_iff {t : EType} {fd : FileData}
    (hpres : fd.ids t ≠ [] → fd.range t ≠ none) :
    fileRangeErrs t fd = [] ↔ ¬ bucketBad fd t := by
  by_cases hids : fd.ids t = []
  · constructor
    · intro _ hb; exact hb.1 hids
    · intro _; unfold fileRangeErrs; rw [if_pos hids]
  · rcases hr : fd.range t with _ | ⟨s, e⟩
    · exact absurd hr (hpres hids)
    · rw [fileRangeErrs_eq_some hids hr, bucketBad_iff_some hr]
      constructor
      · intro h
        rcases List.append_eq_nil.mp h with ⟨h1, h2⟩
        intro hb
        rcases hb.2 with hs | hes | hcap
        · rw [if_pos hs] at h1; exact List.cons_ne_nil _ _ h1
        · rw [if_pos hes] at h2; exact List.cons_ne_nil _ _ h2
        · by_cases hes : e < s
          · rw [if_pos hes] at h2; exact List.cons_ne_nil _ _ h2
          · rw [if_neg hes, if_pos hcap] at h2
            exact List.cons_ne_nil _ _ h2
      · intro h
        have hne : ¬ (s < 1 ∨ e < s ∨ e - s + 1 < ((fd.ids t).length : Int)) :=
          fun hb => h ⟨hids, hb⟩
        push_neg at hne
        rw [if_neg (not_lt.mpr hne.1), if_neg (not_lt.mpr hne.2.1),
          if_neg (not_lt.mpr hne.2.2)]
        rfl

theorem cidZeroErr_eq_some {fd : FileData} {s e : Int}
    (h0 : 0 ∈ fd.ids .cid) (hr : fd.range .cid = some (s, e)) :
    cidZeroErr fd = if s ≠ 0 then [VError.cidZero fd.fid] else [] := by
  unfold cidZeroErr
  rw [if_pos h0, hr]

theorem cidZeroErr_nil_iff (fd : FileData) :
    cidZeroErr fd = [] ↔
      ¬ (0 ∈ fd.ids .cid ∧
        match fd.range .cid with
        | some (s, _e) => s ≠ 0
        | none => False) := by
  by_cases h0 : 0 ∈ fd.ids .cid
  · rcases hr : fd.range .cid with _ | ⟨s, e⟩
    · unfold cidZeroErr
      rw [if_pos h0, hr]
      simp [h0, hr]
    · rw [cidZeroErr_eq_some h0 hr]
      by_cases hs : s ≠ 0
      · rw [if_pos hs]
        simp [h0, hr, hs]
      · rw [if_neg hs]
        simp [h0, hr, hs]
  · unfold cidZeroErr
    rw [if_neg h0]
    simp [h0]

/-- Interval disjointness of two `(start, end, file)` entries; the
symmetric counterpart of the adjacent scan's check. -/
def entryDisj (a b : Int × Int × Nat) : Prop :=
  a.2.1 < b.1 ∨ b.2.1 < a.1

theorem entryDisj_symm : ∀ {a b : Int × Int × Nat},
    entryDisj a b → entryDisj b a := by
  intro a b h
  unfold entryDisj at h ⊢
  omega

theorem rangeLe_fst {a b : Int × Int × Nat} (h : rangeLe a b) :
    a.1 ≤ b.1 := by
  unfold rangeLe at h; omega

theorem adjacentOverlaps_nil_iff (t : EType) :
    ∀ l : List (Int × Int × Nat),
      adjacentOverlaps t l = [] ↔ l.Chain' (fun a b => a.2.1 < b.1)
  | [] => by simp [adjacentOverlaps]
  | [x] => by
      rcases x with ⟨s, e, f⟩
      simp [adjacentOverlaps]
  | ⟨s1, e1, f1⟩ :: ⟨s2, e2, f2⟩ :: rest => by
      rw [adjacentOverlaps, List.chain'_cons]
      rw [← adjacentOverlaps_nil_iff t (⟨s2, e2, f2⟩ :: rest)]
      by_cases h : s2 ≤ e1
      · rw [if_pos h]
        constructor
        · intro hn; exact absurd hn (by simp)
        · intro ⟨hlt, _⟩
          have hlt' : e1 < s2 := hlt
          omega
      · rw [if_neg h]
        constructor
        · intro hn
          exact ⟨show e1 < s2 by omega, by simpa using hn⟩
        · intro ⟨_, hn⟩; simpa using hn

theorem chain_to_pairwise {l : List (Int × Int × Nat)}
    (hs : List.Sorted rangeLe l)
    (hc : List.Chain' (fun a b => a.2.1 < b.1) l) :
    List.Pairwise (fun a b => a.2.1 < b.1) l := by
  induction l with
  | nil => exact List.Pairwise.nil
  | cons x xs ih =>
      rcases List.sorted_cons.mp hs with ⟨hx, hs'⟩
      refine List.pairwise_cons.mpr ⟨?_, ih hs' hc.tail⟩
      intro z hz
      cases xs with
      | nil => simp at hz
      | cons y ys =>
          have hxy : x.2.1 < y.1 := (List.chain'_cons.mp hc).1
          rcases List.mem_cons.mp hz with rfl | hz'
          · exact hxy
          · have hyz : rangeLe y z :=
              (List.sorted_cons.mp hs').1 z hz'
            have := rangeLe_fst hyz
            omega

theorem pairwise_to_chain {l : List (Int × Int × Nat)}
    (hs : List.Sorted rangeLe l)
    (hw : ∀ x ∈ l, x.1 ≤ x.2.1)
    (hp : List.Pairwise entryDisj l) :
    List.Chain' (fun a b => a.2.1 < b.1) l := by
  induction l with
  | nil => simp
  | cons x xs ih =>
      rcases List.sorted_cons.mp hs with ⟨hx, hs'⟩
      rcases List.pairwise_cons.mp hp with ⟨hxd, hp'⟩
      cases xs with
      | nil => simp
      | cons y ys =>
          rw [List.chain'_cons]
          constructor
          · have hd : entryDisj x y := hxd y (List.mem_cons_self _ _)
            have hle : rangeLe x y := hx y (List.mem_cons_self _ _)
            have h1 := rangeLe_fst hle
            have h2 := hw x (List.mem_cons_self _ _)
            have h3 := hw y (List.mem_cons_of_mem x (List.mem_cons_self _ _))
            unfold entryDisj at hd
            omega
          · exact ih hs' (fun z hz => hw z (List.mem_cons_of_mem x hz)) hp'

theorem fileRangeEntry_eq_some {t : EType} {fd : FileData} {s e : Int}
    (hids : ¬ fd.ids t = []) (hr : fd.range t = some (s, e)) :
    fileRangeEntry t fd = if e < s then [] else [(s, e, fd.fid)] := by
  unfold fileRangeEntry
  rw [if_neg hids, hr]

theorem fileRangeEntry_eq_none {t : EType} {fd : FileData}
    (hids : ¬ fd.ids t = []) (hr : fd.range t = none) :
    fileRangeEntry t fd = [] := by
  unfold fileRangeEntry
  rw [if_neg hids, hr]

theorem fileRangeEntry_nil_of_not_owning {t : EType} {fd : FileData}
    (hids : fd.ids t = []) : fileRangeEntry t fd = [] := by
  unfold fileRangeEntry
  rw [if_pos hids]

theorem fileRangeEntry_wellformed {t : EType} {fd : FileData} :
    ∀ x ∈ fileRangeEntry t fd, x.1 ≤ x.2.1 := by
  intro x hx
  by_cases hids : fd.ids t = []
  · rw [fileRangeEntry_nil_of_not_owning hids] at hx; simp at hx
  · rcases hr : fd.range t with _ | ⟨s, e⟩
    · rw [fileRangeEntry_eq_none hids hr] at hx; simp at hx
    · rw [fileRangeEntry_eq_some hids hr] at hx
      by_cases hes : e < s
      · rw [if_pos hes] at hx; simp at hx
      · rw [if_neg hes] at hx
        rcases List.mem_singleton.mp hx with rfl
        simpa using not_lt.mp hes

/-- With the range present and the bucket not bad, an owning file
contributes exactly its `(start, end, file)` triple. -/
theorem fileRangeEntry_eq_of_ok {t : EType} {fd : FileData} {s e : Int}
    (hids : fd.ids t ≠ []) (hr : fd.range t = some (s, e))
    (hes : ¬ e < s) :
    fileRangeEntry t fd = [(s, e, fd.fid)] := by
  rw [fileRangeEntry_eq_some hids hr, if_neg hes]

/-- Under range presence and no per-bucket failures, the entry-level
pairwise disjointness over the flattened entries is the file-level
condition of the claim. -/
theorem entries_pairwise_iff_file_pairwise {files : List FileData}
    {t : EType}
    (hpres : ∀ fd ∈ files, fd.ids t ≠ [] → fd.range t ≠ none)
    (hnb : ∀ fd ∈ files, ¬ bucketBad fd t) :
    List.Pairwise entryDisj (files.flatMap (fileRangeEntry t)) ↔
      familyRangesDisjoint files t := by
  rw [List.pairwise_bind]
  constructor
  · intro ⟨_, hfiles⟩
    refine hfiles.imp_of_mem ?_
    intro a b ha hb hrel hia hib
    rcases hra : a.range t with _ | ⟨sa, ea⟩
    · exact absurd hra (hpres a ha hia)
    · rcases hrb : b.range t with _ | ⟨sb, eb⟩
      · exact absurd hrb (hpres b hb hib)
      · have hba : ¬ ea < sa := by
          have := hnb a ha
          unfold bucketBad at this
          rw [hra] at this
          intro hlt
          exact this ⟨hia, Or.inr (Or.inl hlt)⟩
        have hbb : ¬ eb < sb := by
          have := hnb b hb
          unfold bucketBad at this
          rw [hrb] at this
          intro hlt
          exact this ⟨hib, Or.inr (Or.inl hlt)⟩
        have hra' := fileRangeEntry_eq_of_ok hia hra hba
        have hrb' := fileRangeEntry_eq_of_ok hib hrb hbb
        have := hrel (sa, ea, a.fid) (by rw [hra']; exact List.mem_singleton.mpr rfl)
          (sb, eb, b.fid) (by rw [hrb']; exact List.mem_singleton.mpr rfl)
        exact this
  · intro hfd
    constructor
    · intro fd hfd'
      by_cases hids : fd.ids t = []
      · rw [fileRangeEntry_nil_of_not_owning hids]
        exact List.Pairwise.nil
      · rcases hr : fd.range t with _ | ⟨s, e⟩
        · exact absurd hr (hpres fd hfd' hids)
        · have hes : ¬ e < s := by
            have := hnb fd hfd'
            unfold bucketBad at this
            rw [hr] at this
            intro hlt
            exact this ⟨hids, Or.inr (Or.inl hlt)⟩
          rw [fileRangeEntry_eq_of_ok hids hr hes]
          exact List.pairwise_singleton _ _
    · refine hfd.imp_of_mem ?_
      intro a b ha hb hrel x hx y hy
      by_cases hia : a.ids t = []
      · rw [fileRangeEntry_nil_of_not_owning hia] at hx; simp at hx
      · by_cases hib : b.ids t = []
        · rw [fileRangeEntry_nil_of_not_owning hib] at hy; simp at hy
        · rcases hra : a.range t with _ | ⟨sa, ea⟩
          · exact absurd hra (hpres a ha hia)
          · rcases hrb : b.range t with _ | ⟨sb, eb⟩
            · exact absurd hrb (hpres b hb hib)
            · have hba : ¬ ea < sa := by
                have := hnb a ha
                unfold bucketBad at this
                rw [hra] at this
                intro hlt
                exact this ⟨hia, Or.inr (Or.inl hlt)⟩
              have hbb : ¬ eb < sb := by
                have := hnb b hb
                unfold bucketBad at this
                rw [hrb] at this
                intro hlt
                exact this ⟨hib, Or.inr (Or.inl hlt)⟩
              rw [fileRangeEntry_eq_of_ok hia hra hba] at hx
              rw [fileRangeEntry_eq_of_ok hib hrb hbb] at hy
              rcases List.mem_singleton.mp hx with rfl
              rcases List.mem_singleton.mp hy with rfl
              have := hrel hia hib
              unfold rangesDisj at this
              rw [hra, hrb] at this
              unfold entryDisj
              exact this

theorem familyErrors_nil_iff {files : List FileData} {t : EType}
    (hpres : ∀ fd ∈ files, fd.ids t ≠ [] → fd.range t ≠ none) :
    familyErrors files t = [] ↔
      (∀ fd ∈ files, ¬ bucketBad fd t) ∧ familyRangesDisjoint files t := by
  unfold familyErrors
  rw [List.append_eq_nil, List.bind_eq_nil]
  have hperm := List.perm_insertionSort rangeLe (files.flatMap (fileRangeEntry t))
  have hsorted := List.sorted_insertionSort rangeLe (files.flatMap (fileRangeEntry t))
  constructor
  · intro ⟨h1, h2⟩
    have hnb : ∀ fd ∈ files, ¬ bucketBad fd t := fun fd hfd =>
      (fileRangeErrs_nil_iff (hpres fd hfd)).mp (h1 fd hfd)
    refine ⟨hnb, ?_⟩
    have hchain := (adjacentOverlaps_nil_iff t _).mp h2
    have hpair := chain_to_pairwise hsorted hchain
    have hpair' : List.Pairwise entryDisj
        ((files.flatMap (fileRangeEntry t)).insertionSort rangeLe) :=
      hpair.imp (fun h => Or.inl h)
    have hpnat := (hperm.pairwise_iff entryDisj_symm).mp hpair'
    exact (entries_pairwise_iff_file_pairwise hpres hnb).mp hpnat
  · intro ⟨hnb, hdisj⟩
    constructor
    · intro fd hfd
      exact (fileRangeErrs_nil_iff (hpres fd hfd)).mpr (hnb fd hfd)
    · have hpnat := (entries_pairwise_iff_file_pairwise hpres hnb).mpr hdisj
      have hpair := (hperm.pairwise_iff entryDisj_symm).mpr hpnat
      have hw : ∀ x ∈ (files.flatMap (fileRangeEntry t)).insertionSort rangeLe,
          x.1 ≤ x.2.1 := by
        intro x hx
        have hx' := hperm.mem_iff.mp hx
        obtain ⟨fd, _, hxe⟩ := List.mem_bind.mp hx'
        exact fileRangeEntry_wellformed x hxe
      exact (adjacentOverlaps_nil_iff t _).mpr
        (pairwise_to_chain hsorted hw hpair)

theorem etype_mem (t : EType) : t ∈ ENTITY_TYPES := by
  cases t <;> simp [ENTITY_TYPES]

/-- C7, amended: assuming additionally that every bucket owning ids of
a validated family has a range specified (otherwise the validator also
errors with "no range specified"), `Validator.validate_ranges` returns
no errors exactly when no validated family has a bucket with start < 1,
end < start, or insufficient capacity, no two files' ranges of one
family overlap, and coord id 0 would not be remapped. -/
theorem claim_C7_validate_ranges (files : List FileData) (inc : Bool)
    (hpres : ∀ t : EType, famChecked inc t →
      ∀ fd ∈ files, fd.ids t ≠ [] → fd.range t ≠ none) :
    validate_ranges files inc = [] ↔
      ((∀ t : EType, famChecked inc t →
        (∀ fd ∈ files, ¬ bucketBad fd t) ∧ familyRangesDisjoint files t) ∧
       ¬ cidZeroRemapped files) := by
  unfold validate_ranges
  rw [List.append_eq_nil, List.bind_eq_nil, List.bind_eq_nil]
  constructor
  · intro ⟨h1, h2⟩
    constructor
    · intro t ht
      have hfe := h1 t (etype_mem t)
      rw [if_pos ht] at hfe
      exact (familyErrors_nil_iff (hpres t ht)).mp hfe
    · intro ⟨fd, hfd, hcond⟩
      exact (cidZeroErr_nil_iff fd).mp (h2 fd hfd) hcond
  · intro ⟨hfam, hcid⟩
    constructor
    · intro t _
      by_cases ht : famChecked inc t
      · rw [if_pos ht]
        exact (familyErrors_nil_iff (hpres t ht)).mpr (hfam t ht)
      · rw [if_neg ht]
    · intro fd hfd
      exact (cidZeroErr_nil_iff fd).mpr (fun hc => hcid ⟨fd, hfd, hc⟩)

/-- C7 counterexample input: a file owning one node id but with no
range specified for any family. -/
def exFileE : FileData where
  fid := 5
  ids := fun t => match t with | .nid => [1] | _ => []
  range := fun _ => none

/-- C7 counterexample: none of the claim's listed error conditions
holds (no range is malformed, no ranges overlap, cid 0 is not
remapped), yet `validate_ranges` is non-empty: the missing range for an
owning bucket produces a "no range specified" error the claim does not
account for. -/
theorem claim_C7_counterexample :
    (∀ t : EType, (∀ fd ∈ [exFileE], ¬ bucketBad fd t) ∧
      familyRangesDisjoint [exFileE] t) ∧
    ¬ cidZeroRemapped [exFileE] ∧
    validate_ranges [exFileE] true ≠ [] := by decide

/-- C7 witness input: one file owning two node ids with an adequate
range. -/
def exFileF : FileData where
  fid := 6
  ids := fun t => match t with | .nid => [1, 2] | _ => []
  range := fun t => match t with | .nid => some (1, 10) | _ => none

/-- C7 witness: the amended biconditional applied to a concrete
assignment, in the accepting direction. -/
theorem claim_C7_witness : validate_ranges [exFileF] true = [] :=
  (claim_C7_validate_ranges [exFileF] true (by decide)).mpr (by decide)

end Renumber

namespace BdfUtils

-- ── Python string primitives used by `IncludeFileParser` ──
-- (re-implemented over `List Char` so that concrete runs reduce in the
-- kernel; the core `String` routines use byte positions that do not)

/-- `p` begins the character list `l`. -/
def charsBeginWith : List Char → List Char → Bool
  | [], _ => true
  | _ :: _, [] => false
  | a :: p, b :: l => a == b && charsBeginWith p l

/-- `sub` occurs somewhere in `s` (Python `sub in s`). -/
def charsContain : List Char → List Char → Bool
  | [], sub => charsBeginWith sub []
  | a :: rest, sub => charsBeginWith sub (a :: rest) || charsContain rest sub

/-- Python `s.startswith(p)`. -/
def pyStarts (s p : String) : Bool := charsBeginWith p.toList s.toList

/-- Python `p in s`. -/
def pyIn (s p : String) : Bool := charsContain s.toList p.toList

/-- Python slicing `s[a:b]`. -/
def pySlice (s : String) (a b : Nat) : String :=
  String.mk ((s.toList.drop a).take (b - a))

/-- Python `s.rstrip('*')`. -/
def pyRstripStar (s : String) : String :=
  String.mk ((s.toList.reverse.dropWhile (· == '*')).reverse)

/-- Python `s.endswith('*')`. -/
def pyEndsStar (s : String) : Bool :=
  match s.toList.reverse with
  | c :: _ => c == '*'
  | [] => false

/-- Python `s.strip()`: whitespace removed at both ends. -/
def pyStrip (s : String) : String :=
  String.mk
    (((s.toList.dropWhile Char.isWhitespace).reverse.dropWhile
      Char.isWhitespace).reverse)

/-- ASCII upper-casing of one character. -/
def upChar (c : Char) : Char :=
  if 'a' ≤ c && c ≤ 'z' then Char.ofNat (c.toNat - 32) else c

/-- Python `s.upper()`. -/
def pyUpper (s : String) : String := String.mk (s.toList.map upChar)

/-- Python `s.split(',')`. -/
def splitCommaAux : List Char → List Char → List (List Char)
  | [], acc => [acc.reverse]
  | c :: rest, acc =>
      if c == ',' then acc.reverse :: splitCommaAux rest []
      else splitCommaAux rest (c :: acc)

def pySplitComma (s : String) : List String :=
  (splitCommaAux s.toList []).map String.mk

/-- Digit-string value; `none` when empty or a non-digit occurs. -/
def digitsVal : List Char → Option Nat
  | [] => none
  | [c] => if c.isDigit then some (c.toNat - '0'.toNat) else none
  | c :: rest =>
      if c.isDigit then
        (digitsVal rest).map (fun n => (c.toNat - '0'.toNat) * 10 ^ rest.length + n)
      else none

/-- Python `int(s)`: optional surrounding whitespace, optional sign,
decimal digits.  (Python also accepts `_` digit separators; those never
occur in BDF id fields and are not modelled.) -/
def pyInt (s : String) : Option Int :=
  match (pyStrip s).toList with
  | '+' :: rest => (digitsVal rest).map (fun n => (n : Int))
  | '-' :: rest => (digitsVal rest).map (fun n => -(n : Int))
  | cs => (digitsVal cs).map (fun n => (n : Int))

-- ── CARD_ENTITY_MAP ──

/-- `CARD_ENTITY_MAP` of `src/preprocessing/bdf_utils.py`: card name to
entity family. -/
def CARD_ENTITY_MAP (name : String) : Option EType :=
  match name with
  | "GRID" | "SPOINT" => some .nid
  | "CQUAD4" | "CTRIA3" | "CHEXA" | "CPENTA" | "CTETRA" | "CBAR"
  | "CBEAM" | "CROD" | "CONROD" | "CBUSH" | "CELAS1" | "CELAS2"
  | "CELAS3" | "CELAS4" | "CDAMP1" | "CDAMP2" | "CDAMP3" | "CDAMP4"
  | "CGAP" | "CQUAD8" | "CTRIA6" | "CQUADR" | "CTRIAR" | "CSHEAR"
  | "PLOTEL" | "CWELD" | "CFAST" | "CVISC" | "CHBDYG" | "CHBDYE"
  | "RBE2" | "RBE3" | "RBAR" | "CONM1" | "CONM2"
  | "CMASS1" | "CMASS2" | "CMASS3" | "CMASS4" => some .eid
  | "PSHELL" | "PCOMP" | "PCOMPG" | "PSOLID" | "PBAR" | "PBARL"
  | "PBEAM" | "PBEAML" | "PROD" | "PBUSH" | "PBUSHT" | "PELAS"
  | "PDAMP" | "PGAP" | "PWELD" | "PFAST" | "PVISC" | "PSHEAR"
  | "PLSOLID" | "PCOMPLS" => some .pid
  | "MAT1" | "MAT2" | "MAT8" | "MAT9" | "MAT10" => some .mid
  | "CORD2R" | "CORD2C" | "CORD2S" | "CORD1R" | "CORD1C"
  | "CORD1S" => some .cid
  | "SPC" | "SPC1" | "SPCADD" => some .spcId
  | "MPC" | "MPCADD" => some .mpcId
  | "FORCE" | "MOMENT" | "PLOAD4" | "GRAV" | "LOAD" | "TEMP" | "TEMPD"
  | "RFORCE" | "RLOAD1" | "RLOAD2" | "TLOAD1" | "TLOAD2" | "DAREA"
  | "DLOAD" | "PLOAD" | "PLOAD2" => some .loadId
  | "BSURF" | "BSURFS" | "BCTSET" | "BCTADD" | "BCONP" | "BCBODY"
  | "BCTPARA" | "BCTPARM" | "BLSEG" | "BFRIC" => some .contactId
  | "SET1" | "SET3" => some .setId
  | "EIGRL" | "EIGR" => some .methodId
  | "TABLED1" | "TABLEM1" => some .tableId
  | _ => none

-- ── card-name and id extraction ──

/-- `IncludeFileParser._extract_card_name`: the first comma field, or
the first 8 columns, stripped, upper-cased, with trailing `*` removed. -/
def extractCardName (stripped : String) : String :=
  let nm :=
    if pyIn stripped "," then
      pyUpper (pyStrip ((pySplitComma stripped).headD ""))
    else
      pyUpper (pyStrip (pySlice stripped 0 8))
  pyRstripStar nm

/-- The id-field extraction inside `_classify_card`: field 2 of a
free-field line, else columns 8–24 for large-field names (trailing
`*`), else columns 8–16; parsed with Python `int()`. -/
def cardIdOf (line : String) : Option Int :=
  let first := pyStrip line
  if pyIn first "," then
    pyInt (pyStrip (((pySplitComma first).drop 1).headD ""))
  else
    let nm := pyUpper (pyStrip (pySlice first 0 8))
    if pyEndsStar nm then pyInt (pyStrip (pySlice first 8 24))
    else pyInt (pyStrip (pySlice first 8 16))

/-- The card-name extraction inside `_classify_card` (before the
trailing-`*` strip). -/
def classifyName (line : String) : String :=
  if pyIn (pyStrip line) "," then
    pyUpper (pyStrip ((pySplitComma (pyStrip line)).headD ""))
  else
    pyUpper (pyStrip (pySlice (pyStrip line) 0 8))

/-- The classification outcome of `_classify_card`: the entity type and
primary id recorded in `file_ids`, or `none` when the card is skipped
(comment, continuation, unregistered name, unparsable or non-positive
id). -/
def classifyResult (line : String) : Option (EType × Int) :=
  if pyStrip line = "" || pyStarts (pyStrip line) "$" then none
  else if pyStarts (classifyName line) "+"
      || pyStarts (classifyName line) "*" then none
  else
    match CARD_ENTITY_MAP (pyRstripStar (classifyName line)) with
    | none => none
    | some t =>
        match cardIdOf line with
        | some k => if 0 < k then some (t, k) else none
        | none => none

/-- `self.file_ids[filepath][entity_type].add(card_id)`: set insertion
into the per-file catalog. -/
def addIdTo (ids : EType → List Int) (t : EType) (k : Int) :
    EType → List Int :=
  fun u => if u = t then (if k ∈ ids t then ids t else ids t ++ [k])
           else ids u

/-- `IncludeFileParser._classify_card` acting on the per-file catalog. -/
def classifyCard (ids : EType → List Int) (line : String) :
    EType → List Int :=
  match classifyResult line with
  | some (t, k) => addIdTo ids t k
  | none => ids

-- ── the per-file parse loop ──

/-- The include-line test `_INCLUDE_RE.match(stripped)`: the stripped
line starts with `INCLUDE` (case-insensitive) followed by whitespace
and a non-empty remainder (guaranteed non-empty by stripping). -/
def includeMatch (stripped : String) : Bool :=
  pyStarts (pyUpper stripped) "INCLUDE" &&
    (match stripped.toList.drop 7 with
     | c :: _ => c.isWhitespace
     | [] => false)

/-- Loop state of `IncludeFileParser._parse_file` for one file.
The recursive descent into an included child affects only the child's
own maps, so the include branch here just resets the passthrough flag. -/
structure ParseState where
  fileIds : EType → List Int
  passthrough : List String
  inBulk : Bool
  pastExec : Bool
  inPassthroughCard : Bool
  stopped : Bool

/-- One iteration of the `while i < len(lines)` loop of `_parse_file`;
`stripped` and `upper` of the source are written out as
`pyStrip line` and `pyUpper (pyStrip line)`, and `card_name` as
`extractCardName (pyStrip line)`.  `stopped` models the `break` on
`ENDDATA`. -/
def processLine (st : ParseState) (line : String) : ParseState :=
  if st.stopped then st
  else if !st.pastExec && pyStarts (pyUpper (pyStrip line)) "CEND" then
    { st with pastExec := true }
  else if !st.inBulk && pyStarts (pyUpper (pyStrip line)) "BEGIN"
      && pyIn (pyUpper (pyStrip line)) "BULK" then
    { st with inBulk := true }
  else if st.inBulk && pyStarts (pyUpper (pyStrip line)) "ENDDATA" then
    { st with stopped := true }
  else if includeMatch (pyStrip line) then
    { st with inPassthroughCard := false }
  else if st.inBulk && !(pyStrip line == "")
      && !pyStarts (pyStrip line) "$" then
    if !(extractCardName (pyStrip line) == "")
        && (pyStarts (extractCardName (pyStrip line)) "+"
            || pyStarts (extractCardName (pyStrip line)) "*") then
      if st.inPassthroughCard then
        { st with passthrough := st.passthrough ++ [line] }
      else st
    else if !(extractCardName (pyStrip line) == "")
        && (CARD_ENTITY_MAP (extractCardName (pyStrip line))).isSome then
      { st with inPassthroughCard := false,
                fileIds := classifyCard st.fileIds line }
    else if !(extractCardName (pyStrip line) == "") then
      { st with inPassthroughCard := true,
                passthrough := st.passthrough ++ [line] }
    else st
  else st

/-- Initial state: include files start in bulk-data mode. -/
def initState (isMain : Bool) : ParseState where
  fileIds := fun _ => []
  passthrough := []
  inBulk := !isMain
  pastExec := !isMain
  inPassthroughCard := false
  stopped := false

/-- `_parse_file` over one file's lines. -/
def parseLines (lines : List String) (isMain : Bool) : ParseState :=
  lines.foldl processLine (initState isMain)

-- ── C10: ids recorded in file_ids are strictly positive ──

theorem classifyResult_char {line : String} {t : EType} {k : Int}
    (h : classifyResult line = some (t, k)) :
    cardIdOf line = some k ∧ 0 < k := by
  unfold classifyResult at h
  split at h
  · exact absurd h (by simp)
  · split at h
    · exact absurd h (by simp)
    · split at h
      · exact absurd h (by simp)
      · split at h
        · split at h
          · rename_i k' hid hpos
            rw [Option.some.injEq] at h
            have hk : k' = k := congrArg Prod.snd h
            subst hk
            exact ⟨hid, hpos⟩
          · exact absurd h (by simp)
        · exact absurd h (by simp)

theorem classifyCard_eq_some {ids : EType → List Int} {line : String}
    {t : EType} {k : Int} (h : classifyResult line = some (t, k)) :
    classifyCard ids line = addIdTo ids t k := by
  unfold classifyCard
  rw [h]

theorem classifyCard_eq_none {ids : EType → List Int} {line : String}
    (h : classifyResult line = none) : classifyCard ids line = ids := by
  unfold classifyCard
  rw [h]

theorem classifyCard_keeps_pos {ids : EType → List Int} {line : String}
    (hpos : ∀ t : EType, ∀ n ∈ ids t, 0 < n) :
    ∀ t : EType, ∀ n ∈ classifyCard ids line t, 0 < n := by
  intro t n hn
  cases hres : classifyResult line with
  | none => rw [classifyCard_eq_none hres] at hn; exact hpos t n hn
  | some tk =>
      rcases tk with ⟨t', k⟩
      rw [classifyCard_eq_some hres] at hn
      have hk : 0 < k := (classifyResult_char hres).2
      unfold addIdTo at hn
      by_cases ht : t = t'
      · rw [if_pos ht] at hn
        by_cases hmem : k ∈ ids t'
        · rw [if_pos hmem] at hn; exact hpos t' n hn
        · rw [if_neg hmem] at hn
          rcases List.mem_append.mp hn with h1 | h2
          · exact hpos t' n h1
          · rw [List.mem_singleton.mp h2]; exact hk
      · rw [if_neg ht] at hn; exact hpos t n hn

theorem processLine_keeps_pos {st : ParseState} {line : String}
    (hpos : ∀ t : EType, ∀ n ∈ st.fileIds t, 0 < n) :
    ∀ t : EType, ∀ n ∈ (processLine st line).fileIds t, 0 < n := by
  intro t n hn
  unfold processLine at hn
  split at hn
  · exact hpos t n hn
  · split at hn
    · exact hpos t n hn
    · split at hn
      · exact hpos t n hn
      · split at hn
        · exact hpos t n hn
        · split at hn
          · exact hpos t n hn
          · split at hn
            · split at hn
              · split at hn
                · exact hpos t n hn
                · exact hpos t n hn
              · split at hn
                · exact classifyCard_keeps_pos hpos t n hn
                · split at hn
                  · exact hpos t n hn
                  · exact hpos t n hn
            · exact hpos t n hn

instance (line : String) :
    Decidable (match cardIdOf line with | some k => k ≤ 0 | none => True) :=
  match cardIdOf line with
  | some k => inferInstanceAs (Decidable (k ≤ 0))
  | none => inferInstanceAs (Decidable True)

/-- C10: the ownership catalog only ever contains strictly positive
primary ids, and a bulk line whose id field is blank, non-integer,
zero, or negative adds nothing to the catalog. -/
theorem claim_C10_catalog_positive :
    (∀ lines : List String, ∀ isMain : Bool, ∀ t : EType, ∀ n : Int,
      n ∈ (parseLines lines isMain).fileIds t → 0 < n) ∧
    (∀ ids : EType → List Int, ∀ line : String,
      (match cardIdOf line with | some k => k ≤ 0 | none => True) →
      classifyCard ids line = ids) := by
  constructor
  · intro lines isMain
    suffices h : ∀ st : ParseState,
        (∀ t : EType, ∀ n ∈ st.fileIds t, 0 < n) →
        ∀ t : EType, ∀ n ∈ (lines.foldl processLine st).fileIds t, 0 < n by
      intro t n hn
      exact h (initState isMain) (by intro t' n' hn'; simp [initState] at hn')
        t n hn
    induction lines with
    | nil => intro st hst; exact hst
    | cons l rest ih =>
        intro st hst
        exact ih (processLine st l) (processLine_keeps_pos hst)
  · intro ids line hbad
    unfold classifyCard
    cases hres : classifyResult line with
    | none => rfl
    | some tk =>
        rcases tk with ⟨t, k⟩
        obtain ⟨hid, hpos⟩ := classifyResult_char hres
        rw [hid] at hbad
        omega

/-- C10 witness: a concrete parse records id 10 for the RBE2 line, and
the theorem yields its positivity; a zero-id GRID line changes
nothing. -/
theorem claim_C10_witness :
    (10 : Int) ∈ (parseLines ["RBE2    10", " 5"] false).fileIds .eid ∧
    (0 : Int) < 10 ∧
    classifyCard (fun _ => []) "GRID    0" = (fun _ => []) :=
  ⟨by decide,
   claim_C10_catalog_positive.1 ["RBE2    10", " 5"] false .eid 10 (by decide),
   claim_C10_catalog_positive.2 (fun _ => []) "GRID    0" (by decide)⟩

-- ── C8: passthrough handling of unknown cards and continuations ──

/-- C8, amended: on a bulk-data line of an include file (no section
marker, no INCLUDE), the parser never fails: a line whose extracted
card name is non-empty, does not begin with `+` or `*`, and is not in
the card registry is appended verbatim to the passthrough list and
raises the passthrough flag; a line whose name begins with `+` or `*`
is appended exactly when the passthrough flag is set (set by a
preceding passthrough primary, cleared by a recognized primary), and
the flag is left unchanged; a recognized card records nothing in
passthrough and clears the flag.  (Amended from the original claim:
only `+`/`*`-initial lines are treated as continuations — a blank-field
implicit continuation of a recognized card is classified as an unknown
primary line and recorded as passthrough.) -/
theorem claim_C8_passthrough (st : ParseState) (line : String)
    (hstop : st.stopped = false)
    (hpe : st.pastExec = true)
    (hib : st.inBulk = true)
    (hinc : includeMatch (pyStrip line) = false)
    (hend : pyStarts (pyUpper (pyStrip line)) "ENDDATA" = false)
    (hne : (pyStrip line == "") = false)
    (hcom : pyStarts (pyStrip line) "$" = false) :
    (((extractCardName (pyStrip line) == "") = false →
      (pyStarts (extractCardName (pyStrip line)) "+"
        || pyStarts (extractCardName (pyStrip line)) "*") = false →
      CARD_ENTITY_MAP (extractCardName (pyStrip line)) = none →
      (processLine st line).passthrough = st.passthrough ++ [line] ∧
      (processLine st line).inPassthroughCard = true) ∧
    ((extractCardName (pyStrip line) == "") = false →
      (pyStarts (extractCardName (pyStrip line)) "+"
        || pyStarts (extractCardName (pyStrip line)) "*") = true →
      (processLine st line).passthrough
          = (if st.inPassthroughCard then st.passthrough ++ [line]
             else st.passthrough) ∧
      (processLine st line).inPassthroughCard = st.inPassthroughCard) ∧
    ((extractCardName (pyStrip line) == "") = false →
      (CARD_ENTITY_MAP (extractCardName (pyStrip line))).isSome = true →
      (pyStarts (extractCardName (pyStrip line)) "+"
        || pyStarts (extractCardName (pyStrip line)) "*") = false →
      (processLine st line).passthrough = st.passthrough ∧
      (processLine st line).inPassthroughCard = false)) := by
  refine ⟨?_, ?_, ?_⟩
  · intro hnm hpm hmap
    have hmap' : (CARD_ENTITY_MAP (extractCardName (pyStrip line))).isSome
        = false := by rw [hmap]; rfl
    unfold processLine
    rw [hstop, hpe, hib, hinc, hend, hne, hcom, hnm, hpm, hmap']
    simp
  · intro hnm hpm
    unfold processLine
    rw [hstop, hpe, hib, hinc, hend, hne, hcom, hnm, hpm]
    by_cases hf : st.inPassthroughCard = true
    · rw [hf]; simp
    · have hf' : st.inPassthroughCard = false := by
        cases h : st.inPassthroughCard
        · rfl
        · exact absurd h hf
      rw [hf']; simp [hf']
  · intro hnm hmap hpm
    unfold processLine
    rw [hstop, hpe, hib, hinc, hend, hne, hcom, hnm, hpm, hmap]
    simp

/-- C8 counterexample: `"        5"` is a blank-field (implicit)
continuation of the recognized `RBE2` card before it, yet the parser
records it in the passthrough list — the original claim said
continuation lines following a recognized card are never recorded. -/
theorem claim_C8_counterexample :
    (CARD_ENTITY_MAP (extractCardName (pyStrip "RBE2    10"))).isSome
        = true ∧
    (pyStarts (extractCardName (pyStrip "        5")) "+"
      || pyStarts (extractCardName (pyStrip "        5")) "*") = false ∧
    (parseLines ["RBE2    10", "        5"] false).passthrough
        = ["        5"] := by decide

/-- C8 witness: the amended step theorem applied to the initial
include-file state and an unregistered card line. -/
theorem claim_C8_witness :
    (processLine (initState false) "FOOCARD 7").passthrough
        = (initState false).passthrough ++ ["FOOCARD 7"] ∧
    (processLine (initState false) "FOOCARD 7").inPassthroughCard
        = true :=
  (claim_C8_passthrough (initState false) "FOOCARD 7" (by decide)
    (by decide) (by decide) (by decide) (by decide) (by decide)
    (by decide)).1 (by decide) (by decide) (by decide)

end BdfUtils

namespace Scale

/-- A material as the scale engine sees it: its pyNastran `type` string
and its optional density attribute `rho`.  Floats are embedded as
rationals. -/
structure SMat where
  type : String
  rho : Option ℚ
deriving DecidableEq, Repr

/-- A property: its `type` and optional non-structural mass `nsm`. -/
structure SProp where
  type : String
  nsm : Option ℚ
deriving DecidableEq, Repr

/-- A structural element: its `type` and optional `nsm` (used for
CONROD). -/
structure SElem where
  type : String
  nsm : Option ℚ
deriving DecidableEq, Repr

/-- A mass element of `model.masses`: CONM2 carries a mandatory mass
and optional inertia list `I`; CONM1 an optional `mass_matrix`; the
CMASS variants an optional `mass` attribute. -/
inductive SMass
  | conm2 (mass : ℚ) (I : Option (List ℚ))
  | conm1 (mm : Option (List (List ℚ)))
  | cmass1 (mass : Option ℚ)
  | cmass2 (mass : Option ℚ)
  | cmass3 (mass : Option ℚ)
  | cmass4 (mass : Option ℚ)
deriving DecidableEq, Repr

/-- The model collections touched by the scale engine, as association
lists keyed by primary id (Python dict keys are unique: `Nodup`
hypotheses). -/
structure SModel where
  materials : List (Nat × SMat)
  properties : List (Nat × SProp)
  elements : List (Nat × SElem)
  masses : List (Nat × SMass)
deriving DecidableEq, Repr

/-- `_RHO_MAT_TYPES`. -/
def RHO_MAT_TYPES : List String := ["MAT1", "MAT8", "MAT9"]

/-- `_NSM_PROP_TYPES`. -/
def NSM_PROP_TYPES : List String :=
  ["PSHELL", "PCOMP", "PCOMPG", "PBAR", "PBARL", "PBEAM", "PBEAML", "PROD"]

/-- The ownership maps built by `_build_ifile_lookup` from the include
parser's catalog, with the `.get(id, 0)` default folded in: an id not
recorded for any file belongs to file index 0. -/
structure Ownership where
  eidTo : Nat → Nat
  midTo : Nat → Nat
  pidTo : Nat → Nat

/-- One row of `_compute_groups`' output that the scaling code uses:
the id sets of scalable entities owned by one include file. -/
structure GroupInfo where
  ifile : Nat
  material_ids : List Nat
  property_ids : List Nat
  mass_elem_ids : List Nat
  conrod_ids : List Nat

/-- `rho is not None and rho != 0.0` (also used for `nsm`). -/
def optNonzero : Option ℚ → Bool
  | some r => r != 0
  | none => false

/-- The group of include file `i` per `_compute_groups`: materials of a
density-declaring kind with non-zero density, properties of an
NSM-declaring kind with non-zero NSM, every mass element, and every
CONROD — each owned by file `i`. -/
def groupFor (m : SModel) (own : Ownership) (i : Nat) : GroupInfo where
  ifile := i
  material_ids :=
    (m.materials.filter (fun p =>
      RHO_MAT_TYPES.contains p.2.type && optNonzero p.2.rho
        && (own.midTo p.1 == i))).map Prod.fst
  property_ids :=
    (m.properties.filter (fun p =>
      NSM_PROP_TYPES.contains p.2.type && optNonzero p.2.nsm
        && (own.pidTo p.1 == i))).map Prod.fst
  mass_elem_ids :=
    (m.masses.filter (fun p => own.eidTo p.1 == i)).map Prod.fst
  conrod_ids :=
    (m.elements.filter (fun p =>
      (p.2.type == "CONROD") && (own.eidTo p.1 == i))).map Prod.fst

/-- `_compute_groups`: one group per include file index.  (Ownership
values are below the file count by construction of
`_build_ifile_lookup`; theorems carry that as a hypothesis.) -/
def computeGroups (m : SModel) (own : Ownership) (nfiles : Nat) :
    List GroupInfo :=
  (List.range nfiles).map (groupFor m own)

-- ── _apply_scale_factors_inplace ──

/-- `if rho is not None and rho != 0.0: mat.rho = rho * scale`. -/
def scaleMat (s : ℚ) (mat : SMat) : SMat :=
  match mat.rho with
  | some r => if r ≠ 0 then { mat with rho := some (r * s) } else mat
  | none => mat

/-- `if nsm is not None and nsm != 0.0: prop.nsm = nsm * scale`. -/
def scaleProp (s : ℚ) (prop : SProp) : SProp :=
  match prop.nsm with
  | some r => if r ≠ 0 then { prop with nsm := some (r * s) } else prop
  | none => prop

/-- `if nsm is not None and nsm != 0.0: elem.nsm = nsm * scale`
(CONROD). -/
def scaleElem (s : ℚ) (e : SElem) : SElem :=
  match e.nsm with
  | some r => if r ≠ 0 then { e with nsm := some (r * s) } else e
  | none => e

/-- The mass-element branch of `_apply_scale_factors_inplace`: CONM2
scales mass and inertia, CONM1 the mass matrix, CMASS1/CMASS2 the mass
attribute; CMASS3 and CMASS4 fall through the `elif` chain
unchanged. -/
def scaleMass (s : ℚ) : SMass → SMass
  | .conm2 mass I => .conm2 (mass * s) (I.map (List.map (· * s)))
  | .conm1 mm => .conm1 (mm.map (List.map (List.map (· * s))))
  | .cmass1 mass => .cmass1 (mass.map (· * s))
  | .cmass2 mass => .cmass2 (mass.map (· * s))
  | .cmass3 mass => .cmass3 mass
  | .cmass4 mass => .cmass4 mass

/-- One group's pass of `_apply_scale_factors_inplace`: skipped when
the group's factor is 1.0, otherwise the group's materials,
properties, conrods and mass elements are updated in place. -/
def applyGroup (m : SModel) (s : ℚ) (g : GroupInfo) : SModel :=
  if s = 1 then m
  else
    { materials := m.materials.map (fun p =>
        if p.1 ∈ g.material_ids then (p.1, scaleMat s p.2) else p)
      properties := m.properties.map (fun p =>
        if p.1 ∈ g.property_ids then (p.1, scaleProp s p.2) else p)
      elements := m.elements.map (fun p =>
        if p.1 ∈ g.conrod_ids then (p.1, scaleElem s p.2) else p)
      masses := m.masses.map (fun p =>
        if p.1 ∈ g.mass_elem_ids then (p.1, scaleMass s p.2) else p) }

/-- `_apply_scale_factors_inplace` over all groups;
`scales i` is `scale_by_ifile.get(i, 1.0)`. -/
def applyScaleFactors (m : SModel) (groups : List GroupInfo)
    (scales : Nat → ℚ) : SModel :=
  groups.foldl (fun m g => applyGroup m (scales g.ifile) g) m

-- ── _capture_originals / _restore_originals ──

/-- The `originals` dictionary of `_capture_originals`, with its
`('mat', id)`-style tagged keys split into one list per tag. -/
structure Originals where
  matRho : List (Nat × Option ℚ)
  propNsm : List (Nat × Option ℚ)
  conrodNsm : List (Nat × Option ℚ)
  conm2Vals : List (Nat × (ℚ × Option (List ℚ)))
  conm1Vals : List (Nat × Option (List (List ℚ)))
  cmassVals : List (Nat × Option ℚ)

/-- `_capture_originals`. -/
def captureOriginals (m : SModel) : Originals where
  matRho :=
    (m.materials.filter (fun p => p.2.type ∈ RHO_MAT_TYPES)).map
      (fun p => (p.1, p.2.rho))
  propNsm :=
    (m.properties.filter (fun p => p.2.type ∈ NSM_PROP_TYPES)).map
      (fun p => (p.1, p.2.nsm))
  conrodNsm :=
    (m.elements.filter (fun p => p.2.type = "CONROD")).map
      (fun p => (p.1, p.2.nsm))
  conm2Vals :=
    m.masses.filterMap (fun p =>
      match p.2 with
      | .conm2 mass I => some (p.1, (mass, I))
      | _ => none)
  conm1Vals :=
    m.masses.filterMap (fun p =>
      match p.2 with
      | .conm1 mm => some (p.1, mm)
      | _ => none)
  cmassVals :=
    m.masses.filterMap (fun p =>
      match p.2 with
      | .cmass1 ms => some (p.1, ms)
      | .cmass2 ms => some (p.1, ms)
      | _ => none)

/-- `model.materials[card_id].rho = val`. -/
def setMatRho (mats : List (Nat × SMat)) (mid : Nat) (val : Option ℚ) :
    List (Nat × SMat) :=
  mats.map (fun p => if p.1 = mid then (p.1, { p.2 with rho := val }) else p)

def setPropNsm (props : List (Nat × SProp)) (pid : Nat) (val : Option ℚ) :
    List (Nat × SProp) :=
  props.map (fun p => if p.1 = pid then (p.1, { p.2 with nsm := val }) else p)

def setElemNsm (elems : List (Nat × SElem)) (eid : Nat) (val : Option ℚ) :
    List (Nat × SElem) :=
  elems.map (fun p => if p.1 = eid then (p.1, { p.2 with nsm := val }) else p)

/-- `model.masses[card_id].mass = mass_val` plus
`if I_copy is not None: model.masses[card_id].I = list(I_copy)`. -/
def setConm2 (ms : List (Nat × SMass)) (eid : Nat) (mass : ℚ)
    (Icopy : Option (List ℚ)) : List (Nat × SMass) :=
  ms.map (fun p =>
    if p.1 = eid then
      (p.1, match p.2 with
        | .conm2 _ I0 =>
            .conm2 mass (match Icopy with | some l => some l | none => I0)
        | other => other)
    else p)

/-- `if val is not None: model.masses[card_id].mass_matrix = deepcopy(val)`. -/
def setConm1 (ms : List (Nat × SMass)) (eid : Nat)
    (val : Option (List (List ℚ))) : List (Nat × SMass) :=
  match val with
  | none => ms
  | some mm =>
      ms.map (fun p =>
        if p.1 = eid then
          (p.1, match p.2 with
            | .conm1 _ => .conm1 (some mm)
            | other => other)
        else p)

/-- `model.masses[card_id].mass = val` for the CMASS1/CMASS2 entries. -/
def setCmass (ms : List (Nat × SMass)) (eid : Nat) (val : Option ℚ) :
    List (Nat × SMass) :=
  ms.map (fun p =>
    if p.1 = eid then
      (p.1, match p.2 with
        | .cmass1 _ => .cmass1 val
        | .cmass2 _ => .cmass2 val
        | other => other)
    else p)

/-- `_restore_originals`. -/
def restoreOriginals (o : Originals) (m : SModel) : SModel where
  materials := o.matRho.foldl (fun l kv => setMatRho l kv.1 kv.2) m.materials
  properties := o.propNsm.foldl (fun l kv => setPropNsm l kv.1 kv.2) m.properties
  elements := o.conrodNsm.foldl (fun l kv => setElemNsm l kv.1 kv.2) m.elements
  masses :=
    o.cmassVals.foldl (fun l kv => setCmass l kv.1 kv.2)
      (o.conm1Vals.foldl (fun l kv => setConm1 l kv.1 kv.2)
        (o.conm2Vals.foldl (fun l kv => setConm2 l kv.1 kv.2.1 kv.2.2)
          m.masses))

-- ── generic fold lemmas ──

theorem foldl_map_comm {γ α : Type} (gs : List γ) (f : γ → α → α)
    (l : List α) :
    gs.foldl (fun acc g => acc.map (f g)) l
      = l.map (fun a => gs.foldl (fun x g => f g x) a) := by
  induction gs generalizing l with
  | nil => simp
  | cons g gs ih =>
      rw [List.foldl_cons, ih, List.map_map]
      rfl

theorem foldl_entry_noop {γ α : Type} (l : List γ) (step : γ → α → α)
    (p : α) (h : ∀ g ∈ l, step g p = p) :
    List.foldl (fun x g => step g x) p l = p := by
  induction l with
  | nil => rfl
  | cons g gs ih =>
      rw [List.foldl_cons, h g (List.mem_cons_self _ _)]
      exact ih (fun g' hg' => h g' (List.mem_cons_of_mem _ hg'))

theorem foldl_entry_single {γ α : Type} (l1 l2 : List γ) (g0 : γ)
    (step : γ → α → α) (p : α)
    (h1 : ∀ g ∈ l1, step g p = p)
    (h2 : ∀ g ∈ l2, step g (step g0 p) = step g0 p) :
    List.foldl (fun x g => step g x) p (l1 ++ g0 :: l2) = step g0 p := by
  rw [List.foldl_append, foldl_entry_noop l1 step p h1, List.foldl_cons]
  exact foldl_entry_noop l2 step (step g0 p) h2

theorem nodupKeys_eq {β : Type} {l : List (Nat × β)} {k : Nat} {v1 v2 : β}
    (h : (l.map Prod.fst).Nodup) (h1 : (k, v1) ∈ l) (h2 : (k, v2) ∈ l) :
    v1 = v2 := by
  induction l with
  | nil => simp at h1
  | cons a t ih =>
      rw [List.map_cons, List.nodup_cons] at h
      rcases List.mem_cons.mp h1 with rfl | h1'
      · rcases List.mem_cons.mp h2 with h2h | h2'
        · exact (congrArg Prod.snd h2h).symm
        · exact absurd (List.mem_map_of_mem Prod.fst h2') (by simpa using h.1)
      · rcases List.mem_cons.mp h2 with rfl | h2'
        · exact absurd (List.mem_map_of_mem Prod.fst h1') (by simpa using h.1)
        · exact ih h.2 h1' h2'

theorem split_of_mem_nodupKeys {β : Type} {l : List (Nat × β)} {k : Nat}
    {v : β} (hnd : (l.map Prod.fst).Nodup) (hmem : (k, v) ∈ l) :
    ∃ l1 l2, l = l1 ++ (k, v) :: l2 ∧
      (∀ q ∈ l1, q.1 ≠ k) ∧ (∀ q ∈ l2, q.1 ≠ k) := by
  obtain ⟨l1, l2, rfl⟩ := List.append_of_mem hmem
  refine ⟨l1, l2, rfl, ?_, ?_⟩
  · intro q hq hqk
    have : k ∈ l1.map Prod.fst := hqk ▸ List.mem_map_of_mem Prod.fst hq
    rw [List.map_append, List.map_cons] at hnd
    exact (List.disjoint_of_nodup_append hnd) this (List.mem_cons_self _ _)
  · intro q hq hqk
    have hk : k ∈ l2.map Prod.fst := hqk ▸ List.mem_map_of_mem Prod.fst hq
    rw [List.map_append, List.map_cons] at hnd
    have := List.Nodup.of_append_right hnd
    rw [List.nodup_cons] at this
    exact this.1 hk

/-- Split of `List.range n` at a member, with distinctness. -/
theorem range_split {n i : Nat} (h : i < n) :
    ∃ r1 r2, List.range n = r1 ++ i :: r2 ∧
      (∀ j ∈ r1, j ≠ i) ∧ (∀ j ∈ r2, j ≠ i) := by
  obtain ⟨r1, r2, hr⟩ := List.append_of_mem (List.mem_range.mpr h)
  refine ⟨r1, r2, hr, ?_, ?_⟩
  · intro j hj hji
    have hnd := List.nodup_range n
    rw [hr, List.nodup_append] at hnd
    exact hnd.2.2 (hji ▸ hj) (List.mem_cons_self _ _)
  · intro j hj hji
    have hnd := List.nodup_range n
    rw [hr] at hnd
    have := List.Nodup.of_append_right hnd
    rw [List.nodup_cons] at this
    exact this.1 (hji ▸ hj)

-- ── membership in the computed groups ──

theorem mem_materialIds {m : SModel} {own : Ownership} {i : Nat}
    {mid : Nat} :
    mid ∈ (groupFor m own i).material_ids ↔
      ∃ mat, (mid, mat) ∈ m.materials ∧
        RHO_MAT_TYPES.contains mat.type = true ∧
        optNonzero mat.rho = true ∧ own.midTo mid = i := by
  show mid ∈ (m.materials.filter _).map Prod.fst ↔ _
  rw [List.mem_map]
  constructor
  · intro ⟨p, hp, hfst⟩
    rw [List.mem_filter] at hp
    rcases p with ⟨mid', mat⟩
    cases hfst
    refine ⟨mat, hp.1, ?_⟩
    have := hp.2
    simp only [Bool.and_eq_true, beq_iff_eq] at this
    exact ⟨this.1.1, this.1.2, this.2⟩
  · intro ⟨mat, hmem, hty, hnz, hown⟩
    refine ⟨(mid, mat), ?_, rfl⟩
    rw [List.mem_filter]
    refine ⟨hmem, ?_⟩
    simp only [Bool.and_eq_true, beq_iff_eq]
    exact ⟨⟨hty, hnz⟩, hown⟩

theorem mem_propertyIds {m : SModel} {own : Ownership} {i : Nat}
    {pid : Nat} :
    pid ∈ (groupFor m own i).property_ids ↔
      ∃ prop, (pid, prop) ∈ m.properties ∧
        NSM_PROP_TYPES.contains prop.type = true ∧
        optNonzero prop.nsm = true ∧ own.pidTo pid = i := by
  show pid ∈ (m.properties.filter _).map Prod.fst ↔ _
  rw [List.mem_map]
  constructor
  · intro ⟨p, hp, hfst⟩
    rw [List.mem_filter] at hp
    rcases p with ⟨pid', prop⟩
    cases hfst
    refine ⟨prop, hp.1, ?_⟩
    have := hp.2
    simp only [Bool.and_eq_true, beq_iff_eq] at this
    exact ⟨this.1.1, this.1.2, this.2⟩
  · intro ⟨prop, hmem, hty, hnz, hown⟩
    refine ⟨(pid, prop), ?_, rfl⟩
    rw [List.mem_filter]
    refine ⟨hmem, ?_⟩
    simp only [Bool.and_eq_true, beq_iff_eq]
    exact ⟨⟨hty, hnz⟩, hown⟩

theorem mem_conrodIds {m : SModel} {own : Ownership} {i : Nat}
    {eid : Nat} :
    eid ∈ (groupFor m own i).conrod_ids ↔
      ∃ e, (eid, e) ∈ m.elements ∧ e.type = "CONROD" ∧
        own.eidTo eid = i := by
  show eid ∈ (m.elements.filter _).map Prod.fst ↔ _
  rw [List.mem_map]
  constructor
  · intro ⟨p, hp, hfst⟩
    rw [List.mem_filter] at hp
    rcases p with ⟨eid', e⟩
    cases hfst
    refine ⟨e, hp.1, ?_⟩
    have := hp.2
    simp only [Bool.and_eq_true, beq_iff_eq] at this
    exact this
  · intro ⟨e, hmem, hty, hown⟩
    refine ⟨(eid, e), ?_, rfl⟩
    rw [List.mem_filter]
    refine ⟨hmem, ?_⟩
    simp only [Bool.and_eq_true, beq_iff_eq]
    exact ⟨hty, hown⟩

-- ── collection-wise characterization of apply and restore ──

def matApplyStep (s : ℚ) (g : GroupInfo) (p : Nat × SMat) : Nat × SMat :=
  if s = 1 then p
  else if p.1 ∈ g.material_ids then (p.1, scaleMat s p.2) else p

def propApplyStep (s : ℚ) (g : GroupInfo) (p : Nat × SProp) : Nat × SProp :=
  if s = 1 then p
  else if p.1 ∈ g.property_ids then (p.1, scaleProp s p.2) else p

def elemApplyStep (s : ℚ) (g : GroupInfo) (p : Nat × SElem) : Nat × SElem :=
  if s = 1 then p
  else if p.1 ∈ g.conrod_ids then (p.1, scaleElem s p.2) else p

def massApplyStep (s : ℚ) (g : GroupInfo) (p : Nat × SMass) : Nat × SMass :=
  if s = 1 then p
  else if p.1 ∈ g.mass_elem_ids then (p.1, scaleMass s p.2) else p

theorem applyGroup_materials (m : SModel) (s : ℚ) (g : GroupInfo) :
    (applyGroup m s g).materials = m.materials.map (matApplyStep s g) := by
  unfold applyGroup matApplyStep
  by_cases hs : s = 1
  · rw [if_pos hs]; simp [hs]
  · rw [if_neg hs]; simp [hs]

theorem applyGroup_properties (m : SModel) (s : ℚ) (g : GroupInfo) :
    (applyGroup m s g).properties = m.properties.map (propApplyStep s g) := by
  unfold applyGroup propApplyStep
  by_cases hs : s = 1
  · rw [if_pos hs]; simp [hs]
  · rw [if_neg hs]; simp [hs]

theorem applyGroup_elements (m : SModel) (s : ℚ) (g : GroupInfo) :
    (applyGroup m s g).elements = m.elements.map (elemApplyStep s g) := by
  unfold applyGroup elemApplyStep
  by_cases hs : s = 1
  · rw [if_pos hs]; simp [hs]
  · rw [if_neg hs]; simp [hs]

theorem applyGroup_masses (m : SModel) (s : ℚ) (g : GroupInfo) :
    (applyGroup m s g).masses = m.masses.map (massApplyStep s g) := by
  unfold applyGroup massApplyStep
  by_cases hs : s = 1
  · rw [if_pos hs]; simp [hs]
  · rw [if_neg hs]; simp [hs]

theorem applyScale_materials (m : SModel) (gs : List GroupInfo)
    (scales : Nat → ℚ) :
    (applyScaleFactors m gs scales).materials
      = m.materials.map (fun p =>
          gs.foldl (fun x g => matApplyStep (scales g.ifile) g x) p) := by
  rw [← foldl_map_comm gs (fun g => matApplyStep (scales g.ifile) g)]
  induction gs generalizing m with
  | nil => rfl
  | cons g gs ih =>
      show (applyScaleFactors (applyGroup m (scales g.ifile) g) gs
        scales).materials = _
      rw [ih, applyGroup_materials, List.foldl_cons]

theorem applyScale_properties (m : SModel) (gs : List GroupInfo)
    (scales : Nat → ℚ) :
    (applyScaleFactors m gs scales).properties
      = m.properties.map (fun p =>
          gs.foldl (fun x g => propApplyStep (scales g.ifile) g x) p) := by
  rw [← foldl_map_comm gs (fun g => propApplyStep (scales g.ifile) g)]
  induction gs generalizing m with
  | nil => rfl
  | cons g gs ih =>
      show (applyScaleFactors (applyGroup m (scales g.ifile) g) gs
        scales).properties = _
      rw [ih, applyGroup_properties, List.foldl_cons]

theorem applyScale_elements (m : SModel) (gs : List GroupInfo)
    (scales : Nat → ℚ) :
    (applyScaleFactors m gs scales).elements
      = m.elements.map (fun p =>
          gs.foldl (fun x g => elemApplyStep (scales g.ifile) g x) p) := by
  rw [← foldl_map_comm gs (fun g => elemApplyStep (scales g.ifile) g)]
  induction gs generalizing m with
  | nil => rfl
  | cons g gs ih =>
      show (applyScaleFactors (applyGroup m (scales g.ifile) g) gs
        scales).elements = _
      rw [ih, applyGroup_elements, List.foldl_cons]

theorem applyScale_masses (m : SModel) (gs : List GroupInfo)
    (scales : Nat → ℚ) :
    (applyScaleFactors m gs scales).masses
      = m.masses.map (fun p =>
          gs.foldl (fun x g => massApplyStep (scales g.ifile) g x) p) := by
  rw [← foldl_map_comm gs (fun g => massApplyStep (scales g.ifile) g)]
  induction gs generalizing m with
  | nil => rfl
  | cons g gs ih =>
      show (applyScaleFactors (applyGroup m (scales g.ifile) g) gs
        scales).masses = _
      rw [ih, applyGroup_masses, List.foldl_cons]

def rhoRestoreStep (kv : Nat × Option ℚ) (p : Nat × SMat) : Nat × SMat :=
  if p.1 = kv.1 then (p.1, { p.2 with rho := kv.2 }) else p

def nsmRestoreStep (kv : Nat × Option ℚ) (p : Nat × SProp) : Nat × SProp :=
  if p.1 = kv.1 then (p.1, { p.2 with nsm := kv.2 }) else p

def ensmRestoreStep (kv : Nat × Option ℚ) (p : Nat × SElem) : Nat × SElem :=
  if p.1 = kv.1 then (p.1, { p.2 with nsm := kv.2 }) else p

def conm2RestoreStep (kv : Nat × (ℚ × Option (List ℚ)))
    (p : Nat × SMass) : Nat × SMass :=
  if p.1 = kv.1 then
    (p.1, match p.2 with
      | .conm2 _ I0 =>
          .conm2 kv.2.1 (match kv.2.2 with | some l => some l | none => I0)
      | other => other)
  else p

def conm1RestoreStep (kv : Nat × Option (List (List ℚ)))
    (p : Nat × SMass) : Nat × SMass :=
  match kv.2 with
  | none => p
  | some mm =>
      if p.1 = kv.1 then
        (p.1, match p.2 with
          | .conm1 _ => .conm1 (some mm)
          | other => other)
      else p

def cmassRestoreStep (kv : Nat × Option ℚ) (p : Nat × SMass) :
    Nat × SMass :=
  if p.1 = kv.1 then
    (p.1, match p.2 with
      | .cmass1 _ => .cmass1 kv.2
      | .cmass2 _ => .cmass2 kv.2
      | other => other)
  else p

theorem setConm1_eq_map (ms : List (Nat × SMass)) (eid : Nat)
    (val : Option (List (List ℚ))) :
    setConm1 ms eid val = ms.map (fun p => conm1RestoreStep (eid, val) p) := by
  unfold setConm1 conm1RestoreStep
  cases val with
  | none => simp
  | some mm => rfl

theorem restore_materials (o : Originals) (m : SModel) :
    (restoreOriginals o m).materials
      = m.materials.map (fun p =>
          o.matRho.foldl (fun x kv => rhoRestoreStep kv x) p) := by
  show o.matRho.foldl (fun l kv => setMatRho l kv.1 kv.2) m.materials = _
  have : (fun (l : List (Nat × SMat)) (kv : Nat × Option ℚ) =>
      setMatRho l kv.1 kv.2)
      = fun l kv => l.map (rhoRestoreStep kv) := rfl
  rw [this, foldl_map_comm]

theorem restore_properties (o : Originals) (m : SModel) :
    (restoreOriginals o m).properties
      = m.properties.map (fun p =>
          o.propNsm.foldl (fun x kv => nsmRestoreStep kv x) p) := by
  show o.propNsm.foldl (fun l kv => setPropNsm l kv.1 kv.2) m.properties = _
  have : (fun (l : List (Nat × SProp)) (kv : Nat × Option ℚ) =>
      setPropNsm l kv.1 kv.2)
      = fun l kv => l.map (nsmRestoreStep kv) := rfl
  rw [this, foldl_map_comm]

theorem restore_elements (o : Originals) (m : SModel) :
    (restoreOriginals o m).elements
      = m.elements.map (fun p =>
          o.conrodNsm.foldl (fun x kv => ensmRestoreStep kv x) p) := by
  show o.conrodNsm.foldl (fun l kv => setElemNsm l kv.1 kv.2) m.elements = _
  have : (fun (l : List (Nat × SElem)) (kv : Nat × Option ℚ) =>
      setElemNsm l kv.1 kv.2)
      = fun l kv => l.map (ensmRestoreStep kv) := rfl
  rw [this, foldl_map_comm]

theorem restore_masses (o : Originals) (m : SModel) :
    (restoreOriginals o m).masses
      = m.masses.map (fun p =>
          o.cmassVals.foldl (fun x kv => cmassRestoreStep kv x)
            (o.conm1Vals.foldl (fun x kv => conm1RestoreStep kv x)
              (o.conm2Vals.foldl (fun x kv => conm2RestoreStep kv x) p))) := by
  show o.cmassVals.foldl (fun l kv => setCmass l kv.1 kv.2)
    (o.conm1Vals.foldl (fun l kv => setConm1 l kv.1 kv.2)
      (o.conm2Vals.foldl (fun l kv => setConm2 l kv.1 kv.2.1 kv.2.2)
        m.masses)) = _
  have h2 : (fun (l : List (Nat × SMass)) (kv : Nat × (ℚ × Option (List ℚ))) =>
      setConm2 l kv.1 kv.2.1 kv.2.2)
      = fun l kv => l.map (conm2RestoreStep kv) := rfl
  have h1 : (fun (l : List (Nat × SMass))
        (kv : Nat × Option (List (List ℚ))) => setConm1 l kv.1 kv.2)
      = fun l kv => l.map (conm1RestoreStep kv) := by
    funext l kv
    exact setConm1_eq_map l kv.1 kv.2
  have hc : (fun (l : List (Nat × SMass)) (kv : Nat × Option ℚ) =>
      setCmass l kv.1 kv.2)
      = fun l kv => l.map (cmassRestoreStep kv) := rfl
  rw [h2, h1, hc, foldl_map_comm, foldl_map_comm, foldl_map_comm,
    List.map_map, List.map_map]
  rfl

theorem mem_massElemIds {m : SModel} {own : Ownership} {i : Nat}
    {eid : Nat} :
    eid ∈ (groupFor m own i).mass_elem_ids ↔
      ∃ me, (eid, me) ∈ m.masses ∧ own.eidTo eid = i := by
  show eid ∈ (m.masses.filter _).map Prod.fst ↔ _
  rw [List.mem_map]
  constructor
  · intro ⟨p, hp, hfst⟩
    rw [List.mem_filter] at hp
    rcases p with ⟨eid', me⟩
    cases hfst
    exact ⟨me, hp.1, by simpa using hp.2⟩
  · intro ⟨me, hmem, hown⟩
    refine ⟨(eid, me), ?_, rfl⟩
    rw [List.mem_filter]
    exact ⟨hmem, by simpa using hown⟩

-- ── entry-level behaviour of the apply fold ──

/-- Generic shape of the four apply steps. -/
def gApplyStep {β : Type} (ids : GroupInfo → List Nat)
    (scaleF : ℚ → β → β) (s : ℚ) (g : GroupInfo) (p : Nat × β) :
    Nat × β :=
  if s = 1 then p
  else if p.1 ∈ ids g then (p.1, scaleF s p.2) else p

/-- Across the per-file groups, an entry is scaled at most once: by its
owning file's group, when that file index is in range, its factor is
not 1, and the entry satisfies the group condition. -/
theorem apply_entry_generic {β : Type} (n : Nat) (scales : Nat → ℚ)
    (G : Nat → GroupInfo) (hGifile : ∀ j, (G j).ifile = j)
    (ids : GroupInfo → List Nat) (scaleF : ℚ → β → β) (mid : Nat)
    (b0 : β) (i0 : Nat) (act : Prop) [Decidable act]
    (hmem : ∀ j, mid ∈ ids (G j) → j = i0 ∧ act)
    (hact : act → mid ∈ ids (G i0)) :
    ((List.range n).map G).foldl
        (fun x g => gApplyStep ids scaleF (scales g.ifile) g x) (mid, b0)
      = if i0 < n ∧ ¬ scales i0 = 1 ∧ act
        then (mid, scaleF (scales i0) b0) else (mid, b0) := by
  by_cases hcase : i0 < n ∧ ¬ scales i0 = 1 ∧ act
  · rw [if_pos hcase]
    obtain ⟨hi, hs, ha⟩ := hcase
    obtain ⟨r1, r2, hr, hr1, hr2⟩ := range_split hi
    rw [hr, List.map_append, List.map_cons]
    have key : gApplyStep ids scaleF (scales (G i0).ifile) (G i0)
        (mid, b0) = (mid, scaleF (scales i0) b0) := by
      unfold gApplyStep
      rw [hGifile i0, if_neg hs, if_pos (hact ha)]
    rw [← key]
    apply foldl_entry_single
    · intro g hg
      obtain ⟨j, hj, rfl⟩ := List.mem_map.mp hg
      unfold gApplyStep
      by_cases hs1 : scales (G j).ifile = 1
      · rw [if_pos hs1]
      · rw [if_neg hs1]
        have : (mid, b0).1 ∉ ids (G j) := by
          intro hin
          exact hr1 j hj (hmem j hin).1
        rw [if_neg this]
    · intro g hg
      obtain ⟨j, hj, rfl⟩ := List.mem_map.mp hg
      rw [key]
      unfold gApplyStep
      by_cases hs1 : scales (G j).ifile = 1
      · rw [if_pos hs1]
      · rw [if_neg hs1]
        have : (mid, scaleF (scales i0) b0).1 ∉ ids (G j) := by
          intro hin
          exact hr2 j hj (hmem j hin).1
        rw [if_neg this]
  · rw [if_neg hcase]
    apply foldl_entry_noop
    intro g hg
    obtain ⟨j, hj, rfl⟩ := List.mem_map.mp hg
    unfold gApplyStep
    by_cases hs1 : scales (G j).ifile = 1
    · rw [if_pos hs1]
    · rw [if_neg hs1]
      have : (mid, b0).1 ∉ ids (G j) := by
        intro hin
        obtain ⟨rfl, ha⟩ := hmem j hin
        rw [hGifile j] at hs1
        exact hcase ⟨List.mem_range.mp hj, hs1, ha⟩
      rw [if_neg this]

-- ── entry-level behaviour of a restore fold ──

/-- Generic shape of the materials/properties/elements restore steps. -/
def gRestoreStep {β : Type} (setF : β → Option ℚ → β)
    (kv : Nat × Option ℚ) (p : Nat × β) : Nat × β :=
  if p.1 = kv.1 then (p.1, setF p.2 kv.2) else p

/-- A restore fold over the captured attribute list touches an entry
exactly when its original value was captured, and then writes back the
original attribute. -/
theorem restore_entry_generic {β : Type} (coll : List (Nat × β))
    (hnd : (coll.map Prod.fst).Nodup) (typeOk : β → Bool)
    (attr : β → Option ℚ) (setF : β → Option ℚ → β) (mid : Nat)
    (b0 b1 : β) (hp : (mid, b0) ∈ coll) :
    ((coll.filter (fun p => typeOk p.2)).map
        (fun p => (p.1, attr p.2))).foldl
      (fun x kv => gRestoreStep setF kv x) (mid, b1)
      = if typeOk b0 then (mid, setF b1 (attr b0)) else (mid, b1) := by
  by_cases hok : typeOk b0 = true
  · rw [if_pos hok]
    have hmemf : (mid, b0) ∈ coll.filter (fun p => typeOk p.2) :=
      List.mem_filter.mpr ⟨hp, hok⟩
    have hndf : ((coll.filter (fun p => typeOk p.2)).map Prod.fst).Nodup :=
      hnd.sublist (List.Sublist.map Prod.fst (List.filter_sublist coll))
    obtain ⟨l1, l2, hsplit, h1, h2⟩ := split_of_mem_nodupKeys hndf hmemf
    rw [hsplit, List.map_append, List.map_cons]
    have key : gRestoreStep setF ((mid, b0).1, attr (mid, b0).2)
        (mid, b1) = (mid, setF b1 (attr b0)) := by
      unfold gRestoreStep
      rw [if_pos rfl]
    rw [← key]
    apply foldl_entry_single
    · intro kv hkv
      obtain ⟨q, hq, rfl⟩ := List.mem_map.mp hkv
      unfold gRestoreStep
      rw [if_neg]
      exact fun h => h1 q hq h.symm
    · intro kv hkv
      obtain ⟨q, hq, rfl⟩ := List.mem_map.mp hkv
      rw [key]
      unfold gRestoreStep
      rw [if_neg]
      exact fun h => h2 q hq h.symm
  · rw [if_neg hok]
    apply foldl_entry_noop
    intro kv hkv
    obtain ⟨q, hq, rfl⟩ := List.mem_map.mp hkv
    have hqf := List.mem_filter.mp hq
    unfold gRestoreStep
    rw [if_neg]
    intro h
    rcases q with ⟨k, b⟩
    have hk : k = mid := h.symm
    subst hk
    have := nodupKeys_eq hnd hqf.1 hp
    subst this
    exact hok hqf.2

-- ── the masses restore chain ──

theorem filterMap_keys_sublist {γ : Type} (l : List (Nat × SMass))
    (f : (Nat × SMass) → Option (Nat × γ))
    (hf : ∀ p q, f p = some q → q.1 = p.1) :
    ((l.filterMap f).map Prod.fst).Sublist (l.map Prod.fst) := by
  induction l with
  | nil => simp
  | cons p t ih =>
      rw [List.filterMap_cons]
      cases hfp : f p with
      | none =>
          rw [List.map_cons]
          exact ih.cons _
      | some q =>
          rw [List.map_cons, List.map_cons, hf p q hfp]
          exact ih.cons₂ _

theorem conm2Vals_key {m : SModel} {kv : Nat × (ℚ × Option (List ℚ))}
    (h : kv ∈ (captureOriginals m).conm2Vals) :
    ∃ p ∈ m.masses, p.1 = kv.1 ∧ p.2 = .conm2 kv.2.1 kv.2.2 := by
  obtain ⟨p, hp, hfp⟩ := List.mem_filterMap.mp h
  rcases p with ⟨k, me⟩
  cases me with
  | conm2 mass I =>
      simp only [Option.some.injEq] at hfp
      refine ⟨(k, .conm2 mass I), hp, ?_, ?_⟩
      · exact congrArg Prod.fst hfp
      · have h1 : mass = kv.2.1 := congrArg (Prod.fst ∘ Prod.snd) hfp
        have h2 : I = kv.2.2 := congrArg (Prod.snd ∘ Prod.snd) hfp
        rw [h1, h2]
  | conm1 mm => simp at hfp
  | cmass1 ms => simp at hfp
  | cmass2 ms => simp at hfp
  | cmass3 ms => simp at hfp
  | cmass4 ms => simp at hfp

theorem conm1Vals_key {m : SModel} {kv : Nat × Option (List (List ℚ))}
    (h : kv ∈ (captureOriginals m).conm1Vals) :
    ∃ p ∈ m.masses, p.1 = kv.1 ∧ p.2 = .conm1 kv.2 := by
  obtain ⟨p, hp, hfp⟩ := List.mem_filterMap.mp h
  rcases p with ⟨k, me⟩
  cases me with
  | conm1 mm =>
      simp only [Option.some.injEq] at hfp
      exact ⟨(k, .conm1 mm), hp, congrArg Prod.fst hfp,
        congrArg SMass.conm1 (congrArg Prod.snd hfp)⟩
  | conm2 mass I => simp at hfp
  | cmass1 ms => simp at hfp
  | cmass2 ms => simp at hfp
  | cmass3 ms => simp at hfp
  | cmass4 ms => simp at hfp

theorem cmassVals_key {m : SModel} {kv : Nat × Option ℚ}
    (h : kv ∈ (captureOriginals m).cmassVals) :
    ∃ p ∈ m.masses, p.1 = kv.1 ∧
      (p.2 = .cmass1 kv.2 ∨ p.2 = .cmass2 kv.2) := by
  obtain ⟨p, hp, hfp⟩ := List.mem_filterMap.mp h
  rcases p with ⟨k, me⟩
  cases me with
  | cmass1 ms =>
      simp only [Option.some.injEq] at hfp
      exact ⟨(k, .cmass1 ms), hp, congrArg Prod.fst hfp,
        Or.inl (congrArg SMass.cmass1 (congrArg Prod.snd hfp))⟩
  | cmass2 ms =>
      simp only [Option.some.injEq] at hfp
      exact ⟨(k, .cmass2 ms), hp, congrArg Prod.fst hfp,
        Or.inr (congrArg SMass.cmass2 (congrArg Prod.snd hfp))⟩
  | conm2 mass I => simp at hfp
  | conm1 mm => simp at hfp
  | cmass3 ms => simp at hfp
  | cmass4 ms => simp at hfp

theorem conm2Vals_keys_nodup {m : SModel}
    (hnd : (m.masses.map Prod.fst).Nodup) :
    (((captureOriginals m).conm2Vals).map Prod.fst).Nodup := by
  apply hnd.sublist
  apply filterMap_keys_sublist
  intro p q hq
  rcases p with ⟨k, me⟩
  cases me with
  | conm2 mass I => exact (congrArg Prod.fst (Option.some.inj hq)).symm
  | conm1 mm => exact absurd hq (by simp)
  | cmass1 ms => exact absurd hq (by simp)
  | cmass2 ms => exact absurd hq (by simp)
  | cmass3 ms => exact absurd hq (by simp)
  | cmass4 ms => exact absurd hq (by simp)

theorem conm1Vals_keys_nodup {m : SModel}
    (hnd : (m.masses.map Prod.fst).Nodup) :
    (((captureOriginals m).conm1Vals).map Prod.fst).Nodup := by
  apply hnd.sublist
  apply filterMap_keys_sublist
  intro p q hq
  rcases p with ⟨k, me⟩
  cases me with
  | conm2 mass I => exact absurd hq (by simp)
  | conm1 mm => exact (congrArg Prod.fst (Option.some.inj hq)).symm
  | cmass1 ms => exact absurd hq (by simp)
  | cmass2 ms => exact absurd hq (by simp)
  | cmass3 ms => exact absurd hq (by simp)
  | cmass4 ms => exact absurd hq (by simp)

theorem cmassVals_keys_nodup {m : SModel}
    (hnd : (m.masses.map Prod.fst).Nodup) :
    (((captureOriginals m).cmassVals).map Prod.fst).Nodup := by
  apply hnd.sublist
  apply filterMap_keys_sublist
  intro p q hq
  rcases p with ⟨k, me⟩
  cases me with
  | conm2 mass I => exact absurd hq (by simp)
  | conm1 mm => exact absurd hq (by simp)
  | cmass1 ms => exact (congrArg Prod.fst (Option.some.inj hq)).symm
  | cmass2 ms => exact (congrArg Prod.fst (Option.some.inj hq)).symm
  | cmass3 ms => exact absurd hq (by simp)
  | cmass4 ms => exact absurd hq (by simp)

/-- The three mass restore chains write back exactly the captured
values of one entry, whatever its kind. -/
theorem conm1RestoreStep_none (kv : Nat × Option (List (List ℚ)))
    (p : Nat × SMass) (hv : kv.2 = none) : conm1RestoreStep kv p = p := by
  unfold conm1RestoreStep
  rw [hv]

theorem conm1RestoreStep_some (kv : Nat × Option (List (List ℚ)))
    (p : Nat × SMass) (mm : List (List ℚ)) (hv : kv.2 = some mm) :
    conm1RestoreStep kv p
      = if p.1 = kv.1 then
          (p.1, match p.2 with
            | .conm1 _ => .conm1 (some mm)
            | other => other)
        else p := by
  unfold conm1RestoreStep
  rw [hv]

theorem mass_restore_entry (m : SModel)
    (hnd : (m.masses.map Prod.fst).Nodup)
    {eid : Nat} {me0 me1 : SMass} (hp : (eid, me0) ∈ m.masses)
    (hshape : me1 = me0 ∨ ∃ s, me1 = scaleMass s me0) :
    (captureOriginals m).cmassVals.foldl (fun x kv => cmassRestoreStep kv x)
      ((captureOriginals m).conm1Vals.foldl
        (fun x kv => conm1RestoreStep kv x)
        ((captureOriginals m).conm2Vals.foldl
          (fun x kv => conm2RestoreStep kv x) (eid, me1)))
      = (eid, me0) := by
  have hval2 : ∀ kv ∈ (captureOriginals m).conm2Vals, kv.1 = eid →
      me0 = .conm2 kv.2.1 kv.2.2 := by
    intro kv hkv hk
    obtain ⟨p, hpm, hk', hval⟩ := conm2Vals_key hkv
    rcases p with ⟨k, me⟩
    have hke : k = eid := hk'.trans hk
    subst hke
    have hme : me = me0 := nodupKeys_eq hnd hpm hp
    rw [← hme]
    exact hval
  have hval1 : ∀ kv ∈ (captureOriginals m).conm1Vals, kv.1 = eid →
      me0 = .conm1 kv.2 := by
    intro kv hkv hk
    obtain ⟨p, hpm, hk', hval⟩ := conm1Vals_key hkv
    rcases p with ⟨k, me⟩
    have hke : k = eid := hk'.trans hk
    subst hke
    have hme : me = me0 := nodupKeys_eq hnd hpm hp
    rw [← hme]
    exact hval
  have hvalc : ∀ kv ∈ (captureOriginals m).cmassVals, kv.1 = eid →
      me0 = .cmass1 kv.2 ∨ me0 = .cmass2 kv.2 := by
    intro kv hkv hk
    obtain ⟨p, hpm, hk', hval⟩ := cmassVals_key hkv
    rcases p with ⟨k, me⟩
    have hke : k = eid := hk'.trans hk
    subst hke
    have hme := nodupKeys_eq hnd hpm hp
    rcases hval with h | h
    · exact Or.inl (hme ▸ h)
    · exact Or.inr (hme ▸ h)
  have noop2 : ∀ q : Nat × SMass, q.1 = eid →
      (∀ kv ∈ (captureOriginals m).conm2Vals, kv.1 ≠ eid) →
      (captureOriginals m).conm2Vals.foldl
        (fun x kv => conm2RestoreStep kv x) q = q := by
    intro q hq hkeys
    apply foldl_entry_noop
    intro kv hkv
    unfold conm2RestoreStep
    rw [if_neg (fun h => hkeys kv hkv (h.symm.trans hq))]
  have noop1 : ∀ q : Nat × SMass, q.1 = eid →
      (∀ kv ∈ (captureOriginals m).conm1Vals, kv.1 ≠ eid) →
      (captureOriginals m).conm1Vals.foldl
        (fun x kv => conm1RestoreStep kv x) q = q := by
    intro q hq hkeys
    apply foldl_entry_noop
    intro kv hkv
    cases hv : kv.2 with
    | none => exact conm1RestoreStep_none kv _ hv
    | some mm =>
        rw [conm1RestoreStep_some kv _ mm hv]
        exact if_neg (fun h => hkeys kv hkv (h.symm.trans hq))
  have noopc : ∀ q : Nat × SMass, q.1 = eid →
      (∀ kv ∈ (captureOriginals m).cmassVals, kv.1 ≠ eid) →
      (captureOriginals m).cmassVals.foldl
        (fun x kv => cmassRestoreStep kv x) q = q := by
    intro q hq hkeys
    apply foldl_entry_noop
    intro kv hkv
    unfold cmassRestoreStep
    rw [if_neg (fun h => hkeys kv hkv (h.symm.trans hq))]
  cases me0 with
  | conm2 mass0 I0 =>
      have hmem2 : (eid, (mass0, I0)) ∈ (captureOriginals m).conm2Vals :=
        List.mem_filterMap.mpr ⟨(eid, .conm2 mass0 I0), hp, rfl⟩
      obtain ⟨l1, l2, hsp, h1, h2⟩ :=
        split_of_mem_nodupKeys (conm2Vals_keys_nodup hnd) hmem2
      have hstep : conm2RestoreStep (eid, (mass0, I0)) (eid, me1)
          = (eid, .conm2 mass0 I0) := by
        unfold conm2RestoreStep
        rw [if_pos rfl]
        rcases hshape with rfl | ⟨s, rfl⟩
        · cases I0 <;> rfl
        · cases I0 <;> rfl
      have hfold2 : (captureOriginals m).conm2Vals.foldl
          (fun x kv => conm2RestoreStep kv x) (eid, me1)
          = (eid, .conm2 mass0 I0) := by
        rw [hsp, ← hstep]
        apply foldl_entry_single
        · intro kv hkv
          unfold conm2RestoreStep
          rw [if_neg (fun h => h1 kv hkv h.symm)]
        · intro kv hkv
          rw [hstep]
          unfold conm2RestoreStep
          rw [if_neg (fun h => h2 kv hkv h.symm)]
      rw [hfold2]
      rw [noop1 (eid, .conm2 mass0 I0) rfl ?n1]
      case n1 =>
        intro kv hkv hk
        exact absurd (hval1 kv hkv hk) (by intro h; cases h)
      apply noopc (eid, .conm2 mass0 I0) rfl
      intro kv hkv hk
      rcases hvalc kv hkv hk with h | h <;> cases h
  | conm1 mm0 =>
      have hfold2 : (captureOriginals m).conm2Vals.foldl
          (fun x kv => conm2RestoreStep kv x) (eid, me1) = (eid, me1) := by
        apply noop2 (eid, me1) rfl
        intro kv hkv hk
        exact absurd (hval2 kv hkv hk) (by intro h; cases h)
      rw [hfold2]
      cases mm0 with
      | none =>
          have hme1 : me1 = .conm1 none := by
            rcases hshape with rfl | ⟨s, rfl⟩
            · rfl
            · rfl
          subst hme1
          have hfold1 : (captureOriginals m).conm1Vals.foldl
              (fun x kv => conm1RestoreStep kv x) (eid, SMass.conm1 none)
              = (eid, SMass.conm1 none) := by
            apply foldl_entry_noop
            intro kv hkv
            cases hv : kv.2 with
            | none => exact conm1RestoreStep_none kv _ hv
            | some mm =>
                have hk : kv.1 ≠ eid := by
                  intro hk
                  have hcontra := hval1 kv hkv hk
                  rw [hv] at hcontra
                  simp at hcontra
                rw [conm1RestoreStep_some kv _ mm hv]
                exact if_neg (fun h => hk h.symm)
          rw [hfold1]
          apply noopc (eid, .conm1 none) rfl
          intro kv hkv hk
          rcases hvalc kv hkv hk with h | h <;> cases h
      | some mml =>
          have hmem1 : (eid, some mml) ∈ (captureOriginals m).conm1Vals :=
            List.mem_filterMap.mpr ⟨(eid, .conm1 (some mml)), hp, rfl⟩
          obtain ⟨l1, l2, hsp, h1, h2⟩ :=
            split_of_mem_nodupKeys (conm1Vals_keys_nodup hnd) hmem1
          have hstep : conm1RestoreStep (eid, some mml) (eid, me1)
              = (eid, .conm1 (some mml)) := by
            rw [conm1RestoreStep_some (eid, some mml) (eid, me1) mml rfl]
            rw [if_pos rfl]
            rcases hshape with rfl | ⟨s, rfl⟩
            · rfl
            · rfl
          have hfold1 : (captureOriginals m).conm1Vals.foldl
              (fun x kv => conm1RestoreStep kv x) (eid, me1)
              = (eid, .conm1 (some mml)) := by
            rw [hsp, ← hstep]
            apply foldl_entry_single
            · intro kv hkv
              cases hv : kv.2 with
              | none => exact conm1RestoreStep_none kv _ hv
              | some mm =>
                  rw [conm1RestoreStep_some kv _ mm hv]
                  rw [if_neg (fun h => h1 kv hkv h.symm)]
            · intro kv hkv
              rw [hstep]
              cases hv : kv.2 with
              | none => exact conm1RestoreStep_none kv _ hv
              | some mm =>
                  rw [conm1RestoreStep_some kv _ mm hv]
                  rw [if_neg (fun h => h2 kv hkv h.symm)]
          rw [hfold1]
          apply noopc (eid, .conm1 (some mml)) rfl
          intro kv hkv hk
          rcases hvalc kv hkv hk with h | h <;> cases h
  | cmass1 ms0 =>
      have hfold2 : (captureOriginals m).conm2Vals.foldl
          (fun x kv => conm2RestoreStep kv x) (eid, me1) = (eid, me1) := by
        apply noop2 (eid, me1) rfl
        intro kv hkv hk
        exact absurd (hval2 kv hkv hk) (by intro h; cases h)
      rw [hfold2]
      rw [noop1 (eid, me1) rfl ?n3]
      case n3 =>
        intro kv hkv hk
        exact absurd (hval1 kv hkv hk) (by intro h; cases h)
      have hmemc : (eid, ms0) ∈ (captureOriginals m).cmassVals :=
        List.mem_filterMap.mpr ⟨(eid, .cmass1 ms0), hp, rfl⟩
      obtain ⟨l1, l2, hsp, h1, h2⟩ :=
        split_of_mem_nodupKeys (cmassVals_keys_nodup hnd) hmemc
      have hstep : cmassRestoreStep (eid, ms0) (eid, me1)
          = (eid, .cmass1 ms0) := by
        unfold cmassRestoreStep
        rw [if_pos rfl]
        rcases hshape with rfl | ⟨s, rfl⟩
        · rfl
        · rfl
      rw [hsp, ← hstep]
      apply foldl_entry_single
      · intro kv hkv
        unfold cmassRestoreStep
        rw [if_neg (fun h => h1 kv hkv h.symm)]
      · intro kv hkv
        rw [hstep]
        unfold cmassRestoreStep
        rw [if_neg (fun h => h2 kv hkv h.symm)]
  | cmass2 ms0 =>
      have hfold2 : (captureOriginals m).conm2Vals.foldl
          (fun x kv => conm2RestoreStep kv x) (eid, me1) = (eid, me1) := by
        apply noop2 (eid, me1) rfl
        intro kv hkv hk
        exact absurd (hval2 kv hkv hk) (by intro h; cases h)
      rw [hfold2]
      rw [noop1 (eid, me1) rfl ?n4]
      case n4 =>
        intro kv hkv hk
        exact absurd (hval1 kv hkv hk) (by intro h; cases h)
      have hmemc : (eid, ms0) ∈ (captureOriginals m).cmassVals :=
        List.mem_filterMap.mpr ⟨(eid, .cmass2 ms0), hp, rfl⟩
      obtain ⟨l1, l2, hsp, h1, h2⟩ :=
        split_of_mem_nodupKeys (cmassVals_keys_nodup hnd) hmemc
      have hstep : cmassRestoreStep (eid, ms0) (eid, me1)
          = (eid, .cmass2 ms0) := by
        unfold cmassRestoreStep
        rw [if_pos rfl]
        rcases hshape with rfl | ⟨s, rfl⟩
        · rfl
        · rfl
      rw [hsp, ← hstep]
      apply foldl_entry_single
      · intro kv hkv
        unfold cmassRestoreStep
        rw [if_neg (fun h => h1 kv hkv h.symm)]
      · intro kv hkv
        rw [hstep]
        unfold cmassRestoreStep
        rw [if_neg (fun h => h2 kv hkv h.symm)]
  | cmass3 ms0 =>
      have hme1 : me1 = .cmass3 ms0 := by
        rcases hshape with rfl | ⟨s, rfl⟩
        · rfl
        · rfl
      subst hme1
      rw [noop2 (eid, .cmass3 ms0) rfl ?n5]
      case n5 =>
        intro kv hkv hk
        exact absurd (hval2 kv hkv hk) (by intro h; cases h)
      rw [noop1 (eid, .cmass3 ms0) rfl ?n6]
      case n6 =>
        intro kv hkv hk
        exact absurd (hval1 kv hkv hk) (by intro h; cases h)
      apply noopc (eid, .cmass3 ms0) rfl
      intro kv hkv hk
      rcases hvalc kv hkv hk with h | h <;> cases h
  | cmass4 ms0 =>
      have hme1 : me1 = .cmass4 ms0 := by
        rcases hshape with rfl | ⟨s, rfl⟩
        · rfl
        · rfl
      subst hme1
      rw [noop2 (eid, .cmass4 ms0) rfl ?n7]
      case n7 =>
        intro kv hkv hk
        exact absurd (hval2 kv hkv hk) (by intro h; cases h)
      rw [noop1 (eid, .cmass4 ms0) rfl ?n8]
      case n8 =>
        intro kv hkv hk
        exact absurd (hval1 kv hkv hk) (by intro h; cases h)
      apply noopc (eid, .cmass4 ms0) rfl
      intro kv hkv hk
      rcases hvalc kv hkv hk with h | h <;> cases h

-- ── round trips per entry ──

theorem setRho_scaleMat (s : ℚ) (mat : SMat) :
    ({ scaleMat s mat with rho := mat.rho } : SMat) = mat := by
  rcases mat with ⟨t, rho⟩
  cases rho with
  | none => rfl
  | some r => by_cases h : r = 0 <;> simp [scaleMat, h]

theorem setNsm_scaleProp (s : ℚ) (prop : SProp) :
    ({ scaleProp s prop with nsm := prop.nsm } : SProp) = prop := by
  rcases prop with ⟨t, nsm⟩
  cases nsm with
  | none => rfl
  | some r => by_cases h : r = 0 <;> simp [scaleProp, h]

theorem setNsm_scaleElem (s : ℚ) (e : SElem) :
    ({ scaleElem s e with nsm := e.nsm } : SElem) = e := by
  rcases e with ⟨t, nsm⟩
  cases nsm with
  | none => rfl
  | some r => by_cases h : r = 0 <;> simp [scaleElem, h]

theorem mat_roundtrip_entry (m : SModel) (own : Ownership) (n : Nat)
    (scales : Nat → ℚ) (hnd : (m.materials.map Prod.fst).Nodup)
    {mid : Nat} {mat0 : SMat} (hp : (mid, mat0) ∈ m.materials) :
    (captureOriginals m).matRho.foldl (fun x kv => rhoRestoreStep kv x)
      ((computeGroups m own n).foldl
        (fun x g => matApplyStep (scales g.ifile) g x) (mid, mat0))
      = (mid, mat0) := by
  have hmem : ∀ j, mid ∈ GroupInfo.material_ids (groupFor m own j) →
      j = own.midTo mid ∧
      (RHO_MAT_TYPES.contains mat0.type = true ∧
        optNonzero mat0.rho = true) := by
    intro j hj
    obtain ⟨mat, hmat, hty, hnz, hown⟩ := mem_materialIds.mp hj
    have hme : mat = mat0 := nodupKeys_eq hnd hmat hp
    subst hme
    exact ⟨hown.symm, hty, hnz⟩
  have hact : (RHO_MAT_TYPES.contains mat0.type = true ∧
      optNonzero mat0.rho = true) →
      mid ∈ GroupInfo.material_ids (groupFor m own (own.midTo mid)) := by
    intro ha
    exact mem_materialIds.mpr ⟨mat0, hp, ha.1, ha.2, rfl⟩
  have happly : (computeGroups m own n).foldl
      (fun x g => matApplyStep (scales g.ifile) g x) (mid, mat0)
      = if own.midTo mid < n ∧ ¬ scales (own.midTo mid) = 1 ∧
          (RHO_MAT_TYPES.contains mat0.type = true ∧
            optNonzero mat0.rho = true)
        then (mid, scaleMat (scales (own.midTo mid)) mat0)
        else (mid, mat0) :=
    apply_entry_generic n scales (groupFor m own) (fun j => rfl)
      GroupInfo.material_ids scaleMat mid mat0 (own.midTo mid)
      (RHO_MAT_TYPES.contains mat0.type = true ∧ optNonzero mat0.rho = true)
      hmem hact
  rw [happly]
  by_cases hC : own.midTo mid < n ∧ ¬ scales (own.midTo mid) = 1 ∧
      (RHO_MAT_TYPES.contains mat0.type = true ∧ optNonzero mat0.rho = true)
  · rw [if_pos hC]
    have hres : (captureOriginals m).matRho.foldl
        (fun x kv => rhoRestoreStep kv x)
        (mid, scaleMat (scales (own.midTo mid)) mat0)
        = if decide (mat0.type ∈ RHO_MAT_TYPES) = true
          then (mid, { scaleMat (scales (own.midTo mid)) mat0 with
            rho := mat0.rho })
          else (mid, scaleMat (scales (own.midTo mid)) mat0) :=
      restore_entry_generic m.materials hnd
        (fun b => decide (b.type ∈ RHO_MAT_TYPES)) (fun b => b.rho)
        (fun b v => { b with rho := v }) mid mat0 _ hp
    rw [hres]
    have hty : decide (mat0.type ∈ RHO_MAT_TYPES) = true := by
      rw [decide_eq_true_eq]
      exact List.elem_iff.mp hC.2.2.1
    rw [if_pos hty, setRho_scaleMat]
  · rw [if_neg hC]
    have hres : (captureOriginals m).matRho.foldl
        (fun x kv => rhoRestoreStep kv x) (mid, mat0)
        = if decide (mat0.type ∈ RHO_MAT_TYPES) = true
          then (mid, { mat0 with rho := mat0.rho })
          else (mid, mat0) :=
      restore_entry_generic m.materials hnd
        (fun b => decide (b.type ∈ RHO_MAT_TYPES)) (fun b => b.rho)
        (fun b v => { b with rho := v }) mid mat0 _ hp
    rw [hres]
    by_cases hty : decide (mat0.type ∈ RHO_MAT_TYPES) = true
    · rw [if_pos hty]
    · rw [if_neg hty]

theorem prop_roundtrip_entry (m : SModel) (own : Ownership) (n : Nat)
    (scales : Nat → ℚ) (hnd : (m.properties.map Prod.fst).Nodup)
    {pid : Nat} {prop0 : SProp} (hp : (pid, prop0) ∈ m.properties) :
    (captureOriginals m).propNsm.foldl (fun x kv => nsmRestoreStep kv x)
      ((computeGroups m own n).foldl
        (fun x g => propApplyStep (scales g.ifile) g x) (pid, prop0))
      = (pid, prop0) := by
  have hmem : ∀ j, pid ∈ GroupInfo.property_ids (groupFor m own j) →
      j = own.pidTo pid ∧
      (NSM_PROP_TYPES.contains prop0.type = true ∧
        optNonzero prop0.nsm = true) := by
    intro j hj
    obtain ⟨prop, hprop, hty, hnz, hown⟩ := mem_propertyIds.mp hj
    have hpe : prop = prop0 := nodupKeys_eq hnd hprop hp
    subst hpe
    exact ⟨hown.symm, hty, hnz⟩
  have hact : (NSM_PROP_TYPES.contains prop0.type = true ∧
      optNonzero prop0.nsm = true) →
      pid ∈ GroupInfo.property_ids (groupFor m own (own.pidTo pid)) := by
    intro ha
    exact mem_propertyIds.mpr ⟨prop0, hp, ha.1, ha.2, rfl⟩
  have happly : (computeGroups m own n).foldl
      (fun x g => propApplyStep (scales g.ifile) g x) (pid, prop0)
      = if own.pidTo pid < n ∧ ¬ scales (own.pidTo pid) = 1 ∧
          (NSM_PROP_TYPES.contains prop0.type = true ∧
            optNonzero prop0.nsm = true)
        then (pid, scaleProp (scales (own.pidTo pid)) prop0)
        else (pid, prop0) :=
    apply_entry_generic n scales (groupFor m own) (fun j => rfl)
      GroupInfo.property_ids scaleProp pid prop0 (own.pidTo pid)
      (NSM_PROP_TYPES.contains prop0.type = true ∧
        optNonzero prop0.nsm = true)
      hmem hact
  rw [happly]
  by_cases hC : own.pidTo pid < n ∧ ¬ scales (own.pidTo pid) = 1 ∧
      (NSM_PROP_TYPES.contains prop0.type = true ∧
        optNonzero prop0.nsm = true)
  · rw [if_pos hC]
    have hres : (captureOriginals m).propNsm.foldl
        (fun x kv => nsmRestoreStep kv x)
        (pid, scaleProp (scales (own.pidTo pid)) prop0)
        = if decide (prop0.type ∈ NSM_PROP_TYPES) = true
          then (pid, { scaleProp (scales (own.pidTo pid)) prop0 with
            nsm := prop0.nsm })
          else (pid, scaleProp (scales (own.pidTo pid)) prop0) :=
      restore_entry_generic m.properties hnd
        (fun b => decide (b.type ∈ NSM_PROP_TYPES)) (fun b => b.nsm)
        (fun b v => { b with nsm := v }) pid prop0 _ hp
    rw [hres]
    have hty : decide (prop0.type ∈ NSM_PROP_TYPES) = true := by
      rw [decide_eq_true_eq]
      exact List.elem_iff.mp hC.2.2.1
    rw [if_pos hty, setNsm_scaleProp]
  · rw [if_neg hC]
    have hres : (captureOriginals m).propNsm.foldl
        (fun x kv => nsmRestoreStep kv x) (pid, prop0)
        = if decide (prop0.type ∈ NSM_PROP_TYPES) = true
          then (pid, { prop0 with nsm := prop0.nsm })
          else (pid, prop0) :=
      restore_entry_generic m.properties hnd
        (fun b => decide (b.type ∈ NSM_PROP_TYPES)) (fun b => b.nsm)
        (fun b v => { b with nsm := v }) pid prop0 _ hp
    rw [hres]
    by_cases hty : decide (prop0.type ∈ NSM_PROP_TYPES) = true
    · rw [if_pos hty]
    · rw [if_neg hty]

theorem elem_roundtrip_entry (m : SModel) (own : Ownership) (n : Nat)
    (scales : Nat → ℚ) (hnd : (m.elements.map Prod.fst).Nodup)
    {eid : Nat} {e0 : SElem} (hp : (eid, e0) ∈ m.elements) :
    (captureOriginals m).conrodNsm.foldl (fun x kv => ensmRestoreStep kv x)
      ((computeGroups m own n).foldl
        (fun x g => elemApplyStep (scales g.ifile) g x) (eid, e0))
      = (eid, e0) := by
  have hmem : ∀ j, eid ∈ GroupInfo.conrod_ids (groupFor m own j) →
      j = own.eidTo eid ∧ e0.type = "CONROD" := by
    intro j hj
    obtain ⟨e, he, hty, hown⟩ := mem_conrodIds.mp hj
    have hee : e = e0 := nodupKeys_eq hnd he hp
    subst hee
    exact ⟨hown.symm, hty⟩
  have hact : e0.type = "CONROD" →
      eid ∈ GroupInfo.conrod_ids (groupFor m own (own.eidTo eid)) := by
    intro ha
    exact mem_conrodIds.mpr ⟨e0, hp, ha, rfl⟩
  have happly : (computeGroups m own n).foldl
      (fun x g => elemApplyStep (scales g.ifile) g x) (eid, e0)
      = if own.eidTo eid < n ∧ ¬ scales (own.eidTo eid) = 1 ∧
          e0.type = "CONROD"
        then (eid, scaleElem (scales (own.eidTo eid)) e0)
        else (eid, e0) :=
    apply_entry_generic n scales (groupFor m own) (fun j => rfl)
      GroupInfo.conrod_ids scaleElem eid e0 (own.eidTo eid)
      (e0.type = "CONROD") hmem hact
  rw [happly]
  by_cases hC : own.eidTo eid < n ∧ ¬ scales (own.eidTo eid) = 1 ∧
      e0.type = "CONROD"
  · rw [if_pos hC]
    have hres : (captureOriginals m).conrodNsm.foldl
        (fun x kv => ensmRestoreStep kv x)
        (eid, scaleElem (scales (own.eidTo eid)) e0)
        = if decide (e0.type = "CONROD") = true
          then (eid, { scaleElem (scales (own.eidTo eid)) e0 with
            nsm := e0.nsm })
          else (eid, scaleElem (scales (own.eidTo eid)) e0) :=
      restore_entry_generic m.elements hnd
        (fun b => decide (b.type = "CONROD")) (fun b => b.nsm)
        (fun b v => { b with nsm := v }) eid e0 _ hp
    rw [hres]
    have hty : decide (e0.type = "CONROD") = true := by
      rw [decide_eq_true_eq]
      exact hC.2.2
    rw [if_pos hty, setNsm_scaleElem]
  · rw [if_neg hC]
    have hres : (captureOriginals m).conrodNsm.foldl
        (fun x kv => ensmRestoreStep kv x) (eid, e0)
        = if decide (e0.type = "CONROD") = true
          then (eid, { e0 with nsm := e0.nsm })
          else (eid, e0) :=
      restore_entry_generic m.elements hnd
        (fun b => decide (b.type = "CONROD")) (fun b => b.nsm)
        (fun b v => { b with nsm := v }) eid e0 _ hp
    rw [hres]
    by_cases hty : decide (e0.type = "CONROD") = true
    · rw [if_pos hty]
    · rw [if_neg hty]

theorem mass_roundtrip_entry (m : SModel) (own : Ownership) (n : Nat)
    (scales : Nat → ℚ) (hnd : (m.masses.map Prod.fst).Nodup)
    {eid : Nat} {me0 : SMass} (hp : (eid, me0) ∈ m.masses) :
    (captureOriginals m).cmassVals.foldl (fun x kv => cmassRestoreStep kv x)
      ((captureOriginals m).conm1Vals.foldl
        (fun x kv => conm1RestoreStep kv x)
        ((captureOriginals m).conm2Vals.foldl
          (fun x kv => conm2RestoreStep kv x)
          ((computeGroups m own n).foldl
            (fun x g => massApplyStep (scales g.ifile) g x) (eid, me0))))
      = (eid, me0) := by
  have hmem : ∀ j, eid ∈ GroupInfo.mass_elem_ids (groupFor m own j) →
      j = own.eidTo eid ∧ True := by
    intro j hj
    obtain ⟨me, hmej, hown⟩ := mem_massElemIds.mp hj
    exact ⟨hown.symm, trivial⟩
  have hact : True →
      eid ∈ GroupInfo.mass_elem_ids (groupFor m own (own.eidTo eid)) :=
    fun _ => mem_massElemIds.mpr ⟨me0, hp, rfl⟩
  have happly : (computeGroups m own n).foldl
      (fun x g => massApplyStep (scales g.ifile) g x) (eid, me0)
      = if own.eidTo eid < n ∧ ¬ scales (own.eidTo eid) = 1 ∧ True
        then (eid, scaleMass (scales (own.eidTo eid)) me0)
        else (eid, me0) :=
    apply_entry_generic n scales (groupFor m own) (fun j => rfl)
      GroupInfo.mass_elem_ids scaleMass eid me0 (own.eidTo eid)
      True hmem hact
  rw [happly]
  by_cases hC : own.eidTo eid < n ∧ ¬ scales (own.eidTo eid) = 1 ∧ True
  · rw [if_pos hC]
    exact mass_restore_entry m hnd hp (Or.inr ⟨_, rfl⟩)
  · rw [if_neg hC]
    exact mass_restore_entry m hnd hp (Or.inl rfl)

theorem SModel_ext {s t : SModel} (h1 : s.materials = t.materials)
    (h2 : s.properties = t.properties) (h3 : s.elements = t.elements)
    (h4 : s.masses = t.masses) : s = t := by
  cases s
  cases t
  cases h1
  cases h2
  cases h3
  cases h4
  rfl

/-- C9: `_write_scaled` is atomic with respect to the in-memory model:
`_capture_originals` records every scalable attribute (material rho,
property nsm, CONROD nsm, CONM2 mass and inertia, CONM1 mass matrix,
CMASS1/CMASS2 mass) before `_apply_scale_factors_inplace` runs, and
`_restore_originals` in the `finally` block writes every captured value
back, so after the call every such attribute — indeed every touched
collection — of the loaded model equals its pre-call value (model
dictionaries have unique keys). -/
theorem claim_C9_restore_roundtrip (m : SModel) (own : Ownership)
    (n : Nat) (scales : Nat → ℚ)
    (hm : (m.materials.map Prod.fst).Nodup)
    (hq : (m.properties.map Prod.fst).Nodup)
    (he : (m.elements.map Prod.fst).Nodup)
    (hs : (m.masses.map Prod.fst).Nodup) :
    restoreOriginals (captureOriginals m)
      (applyScaleFactors m (computeGroups m own n) scales) = m := by
  apply SModel_ext
  · rw [restore_materials, applyScale_materials, List.map_map]
    conv_rhs => rw [← List.map_id m.materials]
    apply List.map_congr_left
    intro p hp
    rcases p with ⟨mid, mat0⟩
    exact mat_roundtrip_entry m own n scales hm hp
  · rw [restore_properties, applyScale_properties, List.map_map]
    conv_rhs => rw [← List.map_id m.properties]
    apply List.map_congr_left
    intro p hp
    rcases p with ⟨pid, prop0⟩
    exact prop_roundtrip_entry m own n scales hq hp
  · rw [restore_elements, applyScale_elements, List.map_map]
    conv_rhs => rw [← List.map_id m.elements]
    apply List.map_congr_left
    intro p hp
    rcases p with ⟨eid, e0⟩
    exact elem_roundtrip_entry m own n scales he hp
  · rw [restore_masses, applyScale_masses, List.map_map]
    conv_rhs => rw [← List.map_id m.masses]
    apply List.map_congr_left
    intro p hp
    rcases p with ⟨eid, me0⟩
    exact mass_roundtrip_entry m own n scales hs hp

/-- A concrete two-file model exercising every captured kind. -/
def exModelW : SModel where
  materials := [(1, ⟨"MAT1", some 2⟩), (2, ⟨"MAT10", some 5⟩)]
  properties := [(3, ⟨"PSHELL", some 3⟩)]
  elements := [(4, ⟨"CONROD", some 4⟩), (5, ⟨"CQUAD4", none⟩)]
  masses := [(6, .conm2 5 (some [1, 2, 3])), (7, .conm1 (some [[1], [2]])),
    (8, .cmass1 (some 9)), (9, .cmass4 (some 6))]

def exOwnW : Ownership where
  eidTo := fun i => if i % 2 = 0 then 0 else 1
  midTo := fun _ => 0
  pidTo := fun _ => 1

theorem claim_C9_witness :
    (exModelW.materials.map Prod.fst).Nodup ∧
    (exModelW.properties.map Prod.fst).Nodup ∧
    (exModelW.elements.map Prod.fst).Nodup ∧
    (exModelW.masses.map Prod.fst).Nodup ∧
    restoreOriginals (captureOriginals exModelW)
      (applyScaleFactors exModelW (computeGroups exModelW exOwnW 2)
        (fun i => if i = 0 then 3 else 1/2)) = exModelW :=
  ⟨by decide, by decide, by decide, by decide,
    claim_C9_restore_roundtrip exModelW exOwnW 2
      (fun i => if i = 0 then 3 else 1/2)
      (by decide) (by decide) (by decide) (by decide)⟩

-- ── what the apply pass does to an owned, active entry (C5) ──

theorem scaleMat_eq (s : ℚ) (mat : SMat) (h : optNonzero mat.rho = true) :
    scaleMat s mat = { mat with rho := mat.rho.map (· * s) } := by
  rcases mat with ⟨t, rho⟩
  cases rho with
  | none => simp [optNonzero] at h
  | some r =>
      have hr : r ≠ 0 := bne_iff_ne.mp h
      simp [scaleMat, hr]

theorem scaleProp_eq (s : ℚ) (prop : SProp)
    (h : optNonzero prop.nsm = true) :
    scaleProp s prop = { prop with nsm := prop.nsm.map (· * s) } := by
  rcases prop with ⟨t, nsm⟩
  cases nsm with
  | none => simp [optNonzero] at h
  | some r =>
      have hr : r ≠ 0 := bne_iff_ne.mp h
      simp [scaleProp, hr]

theorem scaleElem_eq (s : ℚ) (e : SElem) (h : optNonzero e.nsm = true) :
    scaleElem s e = { e with nsm := e.nsm.map (· * s) } := by
  rcases e with ⟨t, nsm⟩
  cases nsm with
  | none => simp [optNonzero] at h
  | some r =>
      have hr : r ≠ 0 := bne_iff_ne.mp h
      simp [scaleElem, hr]

theorem applyScale_materials_entry (m : SModel) (own : Ownership) (n : Nat)
    (scales : Nat → ℚ) (hnd : (m.materials.map Prod.fst).Nodup)
    {mid : Nat} {mat : SMat} (hmem : (mid, mat) ∈ m.materials)
    (hlt : own.midTo mid < n) (hne : ¬ scales (own.midTo mid) = 1)
    (hty : RHO_MAT_TYPES.contains mat.type = true)
    (hnz : optNonzero mat.rho = true) :
    (mid, scaleMat (scales (own.midTo mid)) mat)
      ∈ (applyScaleFactors m (computeGroups m own n) scales).materials := by
  rw [applyScale_materials]
  apply List.mem_map.mpr
  refine ⟨(mid, mat), hmem, ?_⟩
  have hmemh : ∀ j, mid ∈ GroupInfo.material_ids (groupFor m own j) →
      j = own.midTo mid ∧
      (RHO_MAT_TYPES.contains mat.type = true ∧
        optNonzero mat.rho = true) := by
    intro j hj
    obtain ⟨mat', hmat', hty', hnz', hown'⟩ := mem_materialIds.mp hj
    have hmm : mat' = mat := nodupKeys_eq hnd hmat' hmem
    subst hmm
    exact ⟨hown'.symm, hty', hnz'⟩
  have hacth : (RHO_MAT_TYPES.contains mat.type = true ∧
      optNonzero mat.rho = true) →
      mid ∈ GroupInfo.material_ids (groupFor m own (own.midTo mid)) :=
    fun ha => mem_materialIds.mpr ⟨mat, hmem, ha.1, ha.2, rfl⟩
  have happly : (computeGroups m own n).foldl
      (fun x g => matApplyStep (scales g.ifile) g x) (mid, mat)
      = if own.midTo mid < n ∧ ¬ scales (own.midTo mid) = 1 ∧
          (RHO_MAT_TYPES.contains mat.type = true ∧
            optNonzero mat.rho = true)
        then (mid, scaleMat (scales (own.midTo mid)) mat)
        else (mid, mat) :=
    apply_entry_generic n scales (groupFor m own) (fun j => rfl)
      GroupInfo.material_ids scaleMat mid mat (own.midTo mid)
      (RHO_MAT_TYPES.contains mat.type = true ∧
        optNonzero mat.rho = true)
      hmemh hacth
  show (computeGroups m own n).foldl
      (fun x g => matApplyStep (scales g.ifile) g x) (mid, mat) = _
  rw [happly, if_pos ⟨hlt, hne, hty, hnz⟩]

theorem applyScale_properties_entry (m : SModel) (own : Ownership)
    (n : Nat) (scales : Nat → ℚ)
    (hnd : (m.properties.map Prod.fst).Nodup)
    {pid : Nat} {prop : SProp} (hmem : (pid, prop) ∈ m.properties)
    (hlt : own.pidTo pid < n) (hne : ¬ scales (own.pidTo pid) = 1)
    (hty : NSM_PROP_TYPES.contains prop.type = true)
    (hnz : optNonzero prop.nsm = true) :
    (pid, scaleProp (scales (own.pidTo pid)) prop)
      ∈ (applyScaleFactors m (computeGroups m own n) scales).properties := by
  rw [applyScale_properties]
  apply List.mem_map.mpr
  refine ⟨(pid, prop), hmem, ?_⟩
  have hmemh : ∀ j, pid ∈ GroupInfo.property_ids (groupFor m own j) →
      j = own.pidTo pid ∧
      (NSM_PROP_TYPES.contains prop.type = true ∧
        optNonzero prop.nsm = true) := by
    intro j hj
    obtain ⟨prop', hprop', hty', hnz', hown'⟩ := mem_propertyIds.mp hj
    have hpp : prop' = prop := nodupKeys_eq hnd hprop' hmem
    subst hpp
    exact ⟨hown'.symm, hty', hnz'⟩
  have hacth : (NSM_PROP_TYPES.contains prop.type = true ∧
      optNonzero prop.nsm = true) →
      pid ∈ GroupInfo.property_ids (groupFor m own (own.pidTo pid)) :=
    fun ha => mem_propertyIds.mpr ⟨prop, hmem, ha.1, ha.2, rfl⟩
  have happly : (computeGroups m own n).foldl
      (fun x g => propApplyStep (scales g.ifile) g x) (pid, prop)
      = if own.pidTo pid < n ∧ ¬ scales (own.pidTo pid) = 1 ∧
          (NSM_PROP_TYPES.contains prop.type = true ∧
            optNonzero prop.nsm = true)
        then (pid, scaleProp (scales (own.pidTo pid)) prop)
        else (pid, prop) :=
    apply_entry_generic n scales (groupFor m own) (fun j => rfl)
      GroupInfo.property_ids scaleProp pid prop (own.pidTo pid)
      (NSM_PROP_TYPES.contains prop.type = true ∧
        optNonzero prop.nsm = true)
      hmemh hacth
  show (computeGroups m own n).foldl
      (fun x g => propApplyStep (scales g.ifile) g x) (pid, prop) = _
  rw [happly, if_pos ⟨hlt, hne, hty, hnz⟩]

theorem applyScale_elements_entry (m : SModel) (own : Ownership) (n : Nat)
    (scales : Nat → ℚ) (hnd : (m.elements.map Prod.fst).Nodup)
    {eid : Nat} {e : SElem} (hmem : (eid, e) ∈ m.elements)
    (hlt : own.eidTo eid < n) (hne : ¬ scales (own.eidTo eid) = 1)
    (hty : e.type = "CONROD") :
    (eid, scaleElem (scales (own.eidTo eid)) e)
      ∈ (applyScaleFactors m (computeGroups m own n) scales).elements := by
  rw [applyScale_elements]
  apply List.mem_map.mpr
  refine ⟨(eid, e), hmem, ?_⟩
  have hmemh : ∀ j, eid ∈ GroupInfo.conrod_ids (groupFor m own j) →
      j = own.eidTo eid ∧ e.type = "CONROD" := by
    intro j hj
    obtain ⟨e', he', hty', hown'⟩ := mem_conrodIds.mp hj
    have hee : e' = e := nodupKeys_eq hnd he' hmem
    subst hee
    exact ⟨hown'.symm, hty'⟩
  have hacth : e.type = "CONROD" →
      eid ∈ GroupInfo.conrod_ids (groupFor m own (own.eidTo eid)) :=
    fun ha => mem_conrodIds.mpr ⟨e, hmem, ha, rfl⟩
  have happly : (computeGroups m own n).foldl
      (fun x g => elemApplyStep (scales g.ifile) g x) (eid, e)
      = if own.eidTo eid < n ∧ ¬ scales (own.eidTo eid) = 1 ∧
          e.type = "CONROD"
        then (eid, scaleElem (scales (own.eidTo eid)) e)
        else (eid, e) :=
    apply_entry_generic n scales (groupFor m own) (fun j => rfl)
      GroupInfo.conrod_ids scaleElem eid e (own.eidTo eid)
      (e.type = "CONROD") hmemh hacth
  show (computeGroups m own n).foldl
      (fun x g => elemApplyStep (scales g.ifile) g x) (eid, e) = _
  rw [happly, if_pos ⟨hlt, hne, hty⟩]

theorem applyScale_masses_entry (m : SModel) (own : Ownership) (n : Nat)
    (scales : Nat → ℚ)
    {eid : Nat} {me : SMass} (hmem : (eid, me) ∈ m.masses)
    (hlt : own.eidTo eid < n) (hne : ¬ scales (own.eidTo eid) = 1) :
    (eid, scaleMass (scales (own.eidTo eid)) me)
      ∈ (applyScaleFactors m (computeGroups m own n) scales).masses := by
  rw [applyScale_masses]
  apply List.mem_map.mpr
  refine ⟨(eid, me), hmem, ?_⟩
  have hmemh : ∀ j, eid ∈ GroupInfo.mass_elem_ids (groupFor m own j) →
      j = own.eidTo eid ∧ True := by
    intro j hj
    obtain ⟨me', hme', hown'⟩ := mem_massElemIds.mp hj
    exact ⟨hown'.symm, trivial⟩
  have hacth : True →
      eid ∈ GroupInfo.mass_elem_ids (groupFor m own (own.eidTo eid)) :=
    fun _ => mem_massElemIds.mpr ⟨me, hmem, rfl⟩
  have happly : (computeGroups m own n).foldl
      (fun x g => massApplyStep (scales g.ifile) g x) (eid, me)
      = if own.eidTo eid < n ∧ ¬ scales (own.eidTo eid) = 1 ∧ True
        then (eid, scaleMass (scales (own.eidTo eid)) me)
        else (eid, me) :=
    apply_entry_generic n scales (groupFor m own) (fun j => rfl)
      GroupInfo.mass_elem_ids scaleMass eid me (own.eidTo eid)
      True hmemh hacth
  show (computeGroups m own n).foldl
      (fun x g => massApplyStep (scales g.ifile) g x) (eid, me) = _
  rw [happly, if_pos ⟨hlt, hne, trivial⟩]

/-- C5: amended.  For an include file `i0` (in range) with scale factor
`s ≠ 1`, `_apply_scale_factors_inplace` multiplies by `s`: the density
of every owned material of a density-declaring kind (when not None and
non-zero), the NSM of every owned property of an NSM-declaring kind
(when not None and non-zero), the NSM of every owned CONROD (when not
None and non-zero), the mass and inertia of every owned CONM2, the mass
matrix of every owned CONM1, and the mass of every owned CMASS1 and
CMASS2 — but NOT the mass of CMASS3 or CMASS4 elements, which the
`elif` chain leaves unchanged, contrary to the claim's "the four CMASS
variants". -/
theorem claim_C5_apply_scale_factors (m : SModel) (own : Ownership)
    (n : Nat) (scales : Nat → ℚ) (i0 : Nat) (s : ℚ)
    (hi : i0 < n) (hs1 : s ≠ 1) (hsv : scales i0 = s)
    (hm : (m.materials.map Prod.fst).Nodup)
    (hq : (m.properties.map Prod.fst).Nodup)
    (he : (m.elements.map Prod.fst).Nodup) :
    (∀ mid mat, (mid, mat) ∈ m.materials → own.midTo mid = i0 →
      RHO_MAT_TYPES.contains mat.type = true →
      optNonzero mat.rho = true →
      (mid, { mat with rho := mat.rho.map (· * s) })
        ∈ (applyScaleFactors m (computeGroups m own n) scales).materials)
    ∧ (∀ pid prop, (pid, prop) ∈ m.properties → own.pidTo pid = i0 →
      NSM_PROP_TYPES.contains prop.type = true →
      optNonzero prop.nsm = true →
      (pid, { prop with nsm := prop.nsm.map (· * s) })
        ∈ (applyScaleFactors m (computeGroups m own n) scales).properties)
    ∧ (∀ eid e, (eid, e) ∈ m.elements → own.eidTo eid = i0 →
      e.type = "CONROD" → optNonzero e.nsm = true →
      (eid, { e with nsm := e.nsm.map (· * s) })
        ∈ (applyScaleFactors m (computeGroups m own n) scales).elements)
    ∧ (∀ eid mass I, (eid, SMass.conm2 mass I) ∈ m.masses →
      own.eidTo eid = i0 →
      (eid, SMass.conm2 (mass * s) (I.map (List.map (· * s))))
        ∈ (applyScaleFactors m (computeGroups m own n) scales).masses)
    ∧ (∀ eid mm, (eid, SMass.conm1 mm) ∈ m.masses →
      own.eidTo eid = i0 →
      (eid, SMass.conm1 (mm.map (List.map (List.map (· * s)))))
        ∈ (applyScaleFactors m (computeGroups m own n) scales).masses)
    ∧ (∀ eid v, (eid, SMass.cmass1 v) ∈ m.masses → own.eidTo eid = i0 →
      (eid, SMass.cmass1 (v.map (· * s)))
        ∈ (applyScaleFactors m (computeGroups m own n) scales).masses)
    ∧ (∀ eid v, (eid, SMass.cmass2 v) ∈ m.masses → own.eidTo eid = i0 →
      (eid, SMass.cmass2 (v.map (· * s)))
        ∈ (applyScaleFactors m (computeGroups m own n) scales).masses)
    ∧ (∀ eid v, (eid, SMass.cmass3 v) ∈ m.masses → own.eidTo eid = i0 →
      (eid, SMass.cmass3 v)
        ∈ (applyScaleFactors m (computeGroups m own n) scales).masses)
    ∧ (∀ eid v, (eid, SMass.cmass4 v) ∈ m.masses → own.eidTo eid = i0 →
      (eid, SMass.cmass4 v)
        ∈ (applyScaleFactors m (computeGroups m own n) scales).masses) := by
  refine ⟨?_, ?_, ?_, ?_, ?_, ?_, ?_, ?_, ?_⟩
  · intro mid mat hmem hown hty hnz
    have hsc : scales (own.midTo mid) = s := by rw [hown, hsv]
    have h2 := applyScale_materials_entry m own n scales hm hmem
      (by rw [hown]; exact hi) (by rw [hsc]; exact hs1) hty hnz
    rw [hsc, scaleMat_eq s mat hnz] at h2
    exact h2
  · intro pid prop hmem hown hty hnz
    have hsc : scales (own.pidTo pid) = s := by rw [hown, hsv]
    have h2 := applyScale_properties_entry m own n scales hq hmem
      (by rw [hown]; exact hi) (by rw [hsc]; exact hs1) hty hnz
    rw [hsc, scaleProp_eq s prop hnz] at h2
    exact h2
  · intro eid e hmem hown hty hnz
    have hsc : scales (own.eidTo eid) = s := by rw [hown, hsv]
    have h2 := applyScale_elements_entry m own n scales he hmem
      (by rw [hown]; exact hi) (by rw [hsc]; exact hs1) hty
    rw [hsc, scaleElem_eq s e hnz] at h2
    exact h2
  · intro eid mass I hmem hown
    have hsc : scales (own.eidTo eid) = s := by rw [hown, hsv]
    have h2 := applyScale_masses_entry m own n scales hmem
      (by rw [hown]; exact hi) (by rw [hsc]; exact hs1)
    rw [hsc] at h2
    exact h2
  · intro eid mm hmem hown
    have hsc : scales (own.eidTo eid) = s := by rw [hown, hsv]
    have h2 := applyScale_masses_entry m own n scales hmem
      (by rw [hown]; exact hi) (by rw [hsc]; exact hs1)
    rw [hsc] at h2
    exact h2
  · intro eid v hmem hown
    have hsc : scales (own.eidTo eid) = s := by rw [hown, hsv]
    have h2 := applyScale_masses_entry m own n scales hmem
      (by rw [hown]; exact hi) (by rw [hsc]; exact hs1)
    rw [hsc] at h2
    exact h2
  · intro eid v hmem hown
    have hsc : scales (own.eidTo eid) = s := by rw [hown, hsv]
    have h2 := applyScale_masses_entry m own n scales hmem
      (by rw [hown]; exact hi) (by rw [hsc]; exact hs1)
    rw [hsc] at h2
    exact h2
  · intro eid v hmem hown
    have hsc : scales (own.eidTo eid) = s := by rw [hown, hsv]
    have h2 := applyScale_masses_entry m own n scales hmem
      (by rw [hown]; exact hi) (by rw [hsc]; exact hs1)
    rw [hsc] at h2
    exact h2
  · intro eid v hmem hown
    have hsc : scales (own.eidTo eid) = s := by rw [hown, hsv]
    have h2 := applyScale_masses_entry m own n scales hmem
      (by rw [hown]; exact hi) (by rw [hsc]; exact hs1)
    rw [hsc] at h2
    exact h2

/-- A model holding a single owned CMASS3 with mass 2. -/
def exModelC5 : SModel where
  materials := []
  properties := []
  elements := []
  masses := [(1, SMass.cmass3 (some 2))]

def exOwnC5 : Ownership where
  eidTo := fun _ => 0
  midTo := fun _ => 0
  pidTo := fun _ => 0

/-- C5 counterexample: file 0 owns CMASS3 eid 1 with mass 2; the scale
factor is 3, yet the apply pass leaves the mass at 2 instead of
2 · 3 = 6: scalar CMASS3/CMASS4 masses are not scaled. -/
theorem claim_C5_counterexample :
    (applyScaleFactors exModelC5 (computeGroups exModelC5 exOwnC5 1)
        (fun _ => 3)).masses
      = [(1, SMass.cmass3 (some 2))]
    ∧ (2 : ℚ) * 3 ≠ 2 := by
  constructor
  · rfl
  · norm_num

/-- A model with every scalable kind owned by file 0. -/
def exModelC5w : SModel where
  materials := [(1, ⟨"MAT1", some 2⟩)]
  properties := [(2, ⟨"PSHELL", some 3⟩)]
  elements := [(3, ⟨"CONROD", some 4⟩)]
  masses := [(4, SMass.conm2 5 (some [1, 2])), (5, SMass.conm1 (some [[7]])),
    (6, SMass.cmass1 (some 9)), (7, SMass.cmass2 (some 10)),
    (8, SMass.cmass3 (some 11)), (9, SMass.cmass4 (some 12))]

theorem claim_C5_witness :
    (0 : Nat) < 1 ∧ (3 : ℚ) ≠ 1 ∧
    (4, SMass.conm2 ((5 : ℚ) * 3) ((some [1, 2]).map (List.map (· * 3))))
      ∈ (applyScaleFactors exModelC5w (computeGroups exModelC5w exOwnC5 1)
          (fun _ => 3)).masses :=
  ⟨Nat.zero_lt_one, by norm_num,
    (claim_C5_apply_scale_factors exModelC5w exOwnC5 1 (fun _ => 3) 0 3
        Nat.zero_lt_one (by norm_num) rfl (by decide) (by decide)
        (by decide)).2.2.2.1 4 5 (some [1, 2]) (by decide) rfl⟩

end Scale

namespace Rewrite

open BdfUtils

/-! `_rewrite_file_with_scaled_cards` and the write loop of
`_write_scaled` (`src/preprocessing/mass_scale.py`).  A file is a list
of newline-free lines; `write_card()` output of a scaled card (produced
by the external pyNastran library) is abstracted as the list of lines
attached to the card's `(name, id)` key in the lookup. -/

/-- `s` is non-empty and its first character is alphabetic
(`stripped[0].isalpha()`; BDF content is ASCII). -/
def headIsAlpha (s : String) : Bool :=
  match s.toList with
  | [] => false
  | c :: _ => c.isAlpha

/-- `first_char in ('+', '*')`. -/
def headIsPlusStar (s : String) : Bool :=
  match s.toList with
  | [] => false
  | c :: _ => c == '+' || c == '*'

/-- Free-field branch of `_extract_card_info`: fields of
`stripped.split(',')`. -/
def extractFree : List String → Option String × Option Int
  | [] => (none, none)
  | f0 :: rest =>
      (some (pyRstripStar (pyUpper (pyStrip f0))),
        match rest with
        | [] => none
        | f1 :: _ => pyInt (pyStrip f1))

/-- Fixed-field branch of `_extract_card_info`: name from
`stripped[:8]`, id from `stripped[8:24]` (large field) or
`stripped[8:16]`. -/
def extractFixed (stripped : String) : Option String × Option Int :=
  (some (pyRstripStar (pyUpper (pyStrip (pySlice stripped 0 8)))),
    if pyEndsStar (pyUpper (pyStrip (pySlice stripped 0 8))) = true
    then pyInt (pyStrip (pySlice stripped 8 24))
    else pyInt (pyStrip (pySlice stripped 8 16)))

/-- `_extract_card_info`. -/
def extractCardInfo (line : String) : Option String × Option Int :=
  if pyStrip line = "" then (none, none)
  else if pyStarts (pyStrip line) "$" then (none, none)
  else if headIsPlusStar (pyStrip line) || !(headIsAlpha (pyStrip line))
  then (none, none)
  else if pyIn (pyStrip line) "," then
    extractFree (pySplitComma (pyStrip line))
  else extractFixed (pyStrip line)

/-- The leading-comment filter applied to `write_card()` output before
it is emitted. -/
def filterLead (ls : List String) : List String :=
  ls.dropWhile (fun cl => pyStarts (pyStrip cl) "$")

/-- State of the rewrite loop: emitted lines, `in_bulk`, `replacing`. -/
structure RwState where
  out : List String
  inBulk : Bool
  replacing : Bool
deriving DecidableEq, Repr

/-- One iteration of the `for line in lines` loop of
`_rewrite_file_with_scaled_cards`. -/
def rewriteLine (lookup : List ((String × Int) × List String))
    (st : RwState) (line : String) : RwState :=
  if st.inBulk = false then
    { out := st.out ++ [line],
      inBulk := pyStarts (pyUpper (pyStrip line)) "BEGIN"
        && pyIn (pyUpper (pyStrip line)) "BULK",
      replacing := st.replacing }
  else if pyStarts (pyUpper (pyStrip line)) "ENDDATA" = true then
    { out := st.out ++ [line], inBulk := st.inBulk, replacing := false }
  else if pyStarts (pyUpper (pyStrip line)) "INCLUDE" = true then
    { out := st.out ++ [line], inBulk := st.inBulk, replacing := false }
  else if pyStrip line = "" ∨ pyStarts (pyStrip line) "$" = true then
    if st.replacing = true then st
    else { out := st.out ++ [line], inBulk := st.inBulk,
           replacing := st.replacing }
  else if headIsAlpha (pyStrip line) = true then
    match extractCardInfo line with
    | (some name, some i) =>
        if name ≠ "" then
          match List.lookup (name, i) lookup with
          | some card =>
              { out := st.out ++ filterLead card, inBulk := st.inBulk,
                replacing := true }
          | none =>
              { out := st.out ++ [line], inBulk := st.inBulk,
                replacing := false }
        else
          { out := st.out ++ [line], inBulk := st.inBulk,
            replacing := false }
    | _ =>
        { out := st.out ++ [line], inBulk := st.inBulk, replacing := false }
  else
    if st.replacing = true then st
    else { out := st.out ++ [line], inBulk := st.inBulk,
           replacing := st.replacing }

/-- `_rewrite_file_with_scaled_cards`: include files start inside bulk
data, the main file before it. -/
def rewriteFile (lookup : List ((String × Int) × List String))
    (isMain : Bool) (lines : List String) : List String :=
  (lines.foldl (rewriteLine lookup)
    { out := [], inBulk := !isMain, replacing := false }).out

/-- One group of the `_write_scaled` loop: its include-file index and
whether an output destination is mapped for it. -/
structure WGroup where
  ifile : Nat
  hasDst : Bool
deriving DecidableEq, Repr

/-- The groups `_write_scaled` actually rewrites: destination present
and `scales.get(ifile, 1.0) != 1.0` (others are skipped, their files
untouched). -/
def writtenGroups (gs : List WGroup) (scales : Nat → ℚ) : List WGroup :=
  gs.filter (fun g => g.hasDst && scales g.ifile != 1)

end Rewrite

/-- C6: amended.  `_write_scaled` skips every file whose scale factor is
1.0 (it is not rewritten, so it stays byte-for-byte identical), and the
rewrite loop emits verbatim: every pre-BEGIN-BULK line, ENDDATA and
INCLUDE lines, comments and blanks outside a replacement, unmatched
primary cards, and continuations outside a replacement; a primary line
matching the scaled-card lookup is replaced by the card's serialized
lines (leading comment stripped) and starts a replacement.  Contrary to
the claim, while a replacement is active the loop swallows not only the
replaced card's continuation lines but also comment and blank lines,
which are dropped rather than emitted verbatim. -/
theorem claim_C6_rewrite (lookup : List ((String × Int) × List String))
    (gs : List Rewrite.WGroup) (scales : Nat → ℚ)
    (st : Rewrite.RwState) (line : String) :
    (∀ g ∈ gs, scales g.ifile = 1 → g ∉ Rewrite.writtenGroups gs scales)
    ∧ (st.inBulk = false → Rewrite.rewriteLine lookup st line
        = { out := st.out ++ [line],
            inBulk := BdfUtils.pyStarts
                (BdfUtils.pyUpper (BdfUtils.pyStrip line)) "BEGIN"
              && BdfUtils.pyIn
                (BdfUtils.pyUpper (BdfUtils.pyStrip line)) "BULK",
            replacing := st.replacing })
    ∧ (st.inBulk = true →
        BdfUtils.pyStarts (BdfUtils.pyUpper (BdfUtils.pyStrip line))
          "ENDDATA" = true →
        Rewrite.rewriteLine lookup st line
          = { out := st.out ++ [line], inBulk := st.inBulk,
              replacing := false })
    ∧ (st.inBulk = true →
        BdfUtils.pyStarts (BdfUtils.pyUpper (BdfUtils.pyStrip line))
          "ENDDATA" = false →
        BdfUtils.pyStarts (BdfUtils.pyUpper (BdfUtils.pyStrip line))
          "INCLUDE" = true →
        Rewrite.rewriteLine lookup st line
          = { out := st.out ++ [line], inBulk := st.inBulk,
              replacing := false })
    ∧ (st.inBulk = true →
        BdfUtils.pyStarts (BdfUtils.pyUpper (BdfUtils.pyStrip line))
          "ENDDATA" = false →
        BdfUtils.pyStarts (BdfUtils.pyUpper (BdfUtils.pyStrip line))
          "INCLUDE" = false →
        (BdfUtils.pyStrip line = "" ∨
          BdfUtils.pyStarts (BdfUtils.pyStrip line) "$" = true) →
        st.replacing = false →
        Rewrite.rewriteLine lookup st line
          = { out := st.out ++ [line], inBulk := st.inBulk,
              replacing := st.replacing })
    ∧ (st.inBulk = true →
        BdfUtils.pyStarts (BdfUtils.pyUpper (BdfUtils.pyStrip line))
          "ENDDATA" = false →
        BdfUtils.pyStarts (BdfUtils.pyUpper (BdfUtils.pyStrip line))
          "INCLUDE" = false →
        (BdfUtils.pyStrip line = "" ∨
          BdfUtils.pyStarts (BdfUtils.pyStrip line) "$" = true) →
        st.replacing = true →
        Rewrite.rewriteLine lookup st line = st)
    ∧ (∀ name i card, st.inBulk = true →
        BdfUtils.pyStarts (BdfUtils.pyUpper (BdfUtils.pyStrip line))
          "ENDDATA" = false →
        BdfUtils.pyStarts (BdfUtils.pyUpper (BdfUtils.pyStrip line))
          "INCLUDE" = false →
        ¬ (BdfUtils.pyStrip line = "" ∨
          BdfUtils.pyStarts (BdfUtils.pyStrip line) "$" = true) →
        Rewrite.headIsAlpha (BdfUtils.pyStrip line) = true →
        Rewrite.extractCardInfo line = (some name, some i) →
        name ≠ "" →
        List.lookup (name, i) lookup = some card →
        Rewrite.rewriteLine lookup st line
          = { out := st.out ++ Rewrite.filterLead card,
              inBulk := st.inBulk, replacing := true })
    ∧ (∀ name i, st.inBulk = true →
        BdfUtils.pyStarts (BdfUtils.pyUpper (BdfUtils.pyStrip line))
          "ENDDATA" = false →
        BdfUtils.pyStarts (BdfUtils.pyUpper (BdfUtils.pyStrip line))
          "INCLUDE" = false →
        ¬ (BdfUtils.pyStrip line = "" ∨
          BdfUtils.pyStarts (BdfUtils.pyStrip line) "$" = true) →
        Rewrite.headIsAlpha (BdfUtils.pyStrip line) = true →
        Rewrite.extractCardInfo line = (some name, some i) →
        List.lookup (name, i) lookup = none →
        Rewrite.rewriteLine lookup st line
          = { out := st.out ++ [line], inBulk := st.inBulk,
              replacing := false })
    ∧ (st.inBulk = true →
        BdfUtils.pyStarts (BdfUtils.pyUpper (BdfUtils.pyStrip line))
          "ENDDATA" = false →
        BdfUtils.pyStarts (BdfUtils.pyUpper (BdfUtils.pyStrip line))
          "INCLUDE" = false →
        ¬ (BdfUtils.pyStrip line = "" ∨
          BdfUtils.pyStarts (BdfUtils.pyStrip line) "$" = true) →
        Rewrite.headIsAlpha (BdfUtils.pyStrip line) = false →
        st.replacing = false →
        Rewrite.rewriteLine lookup st line
          = { out := st.out ++ [line], inBulk := st.inBulk,
              replacing := st.replacing })
    ∧ (st.inBulk = true →
        BdfUtils.pyStarts (BdfUtils.pyUpper (BdfUtils.pyStrip line))
          "ENDDATA" = false →
        BdfUtils.pyStarts (BdfUtils.pyUpper (BdfUtils.pyStrip line))
          "INCLUDE" = false →
        ¬ (BdfUtils.pyStrip line = "" ∨
          BdfUtils.pyStarts (BdfUtils.pyStrip line) "$" = true) →
        Rewrite.headIsAlpha (BdfUtils.pyStrip line) = false →
        st.replacing = true →
        Rewrite.rewriteLine lookup st line = st) := by
  refine ⟨?_, ?_, ?_, ?_, ?_, ?_, ?_, ?_, ?_, ?_⟩
  · intro g hg h1 hmem
    have hpred := (List.mem_filter.mp hmem).2
    rw [Bool.and_eq_true] at hpred
    exact absurd h1 (bne_iff_ne.mp hpred.2)
  · intro h1
    simp [Rewrite.rewriteLine, h1]
  · intro h1 hE
    simp [Rewrite.rewriteLine, h1, hE]
  · intro h1 hE hI
    simp [Rewrite.rewriteLine, h1, hE, hI]
  · intro h1 hE hI hc hr
    simp [Rewrite.rewriteLine, h1, hE, hI, hc, hr]
  · intro h1 hE hI hc hr
    simp [Rewrite.rewriteLine, h1, hE, hI, hc, hr]
  · intro name i card h1 hE hI hc hA heq hname hlk
    simp [Rewrite.rewriteLine, h1, hE, hI, hc, hA, heq, hname, hlk]
  · intro name i h1 hE hI hc hA heq hlk
    by_cases hname : name = ""
    · simp [Rewrite.rewriteLine, h1, hE, hI, hc, hA, heq, hname]
    · simp [Rewrite.rewriteLine, h1, hE, hI, hc, hA, heq, hname, hlk]
  · intro h1 hE hI hc hA hr
    simp [Rewrite.rewriteLine, h1, hE, hI, hc, hA, hr]
  · intro h1 hE hI hc hA hr
    simp [Rewrite.rewriteLine, h1, hE, hI, hc, hA, hr]

namespace Rewrite

/-- The scaled-card lookup of the C6 example: CONM2 4 was scaled and
serializes to one replacement line. -/
def exLookupC6 : List ((String × Int) × List String) :=
  [(("CONM2", 4), ["CONM2-SCALED"])]

end Rewrite

/-- C6 counterexample: the comment line between the replaced CONM2 card
and the next card is swallowed by the rewrite, not emitted verbatim. -/
theorem claim_C6_counterexample :
    Rewrite.rewriteFile Rewrite.exLookupC6 false
        ["CONM2,4,1", "$ keep me", "GRID,1"]
      = ["CONM2-SCALED", "GRID,1"]
    ∧ "$ keep me" ∉ Rewrite.rewriteFile Rewrite.exLookupC6 false
        ["CONM2,4,1", "$ keep me", "GRID,1"] := by decide

def exWG : Rewrite.WGroup := { ifile := 0, hasDst := true }

/-- C6 witness: a group with factor 1.0 is skipped, and a comment line
inside an active replacement is dropped. -/
theorem claim_C6_witness :
    exWG ∉ Rewrite.writtenGroups [exWG] (fun _ => 1) ∧
    Rewrite.rewriteLine Rewrite.exLookupC6
        { out := ["X"], inBulk := true, replacing := true } "$ c"
      = { out := ["X"], inBulk := true, replacing := true } :=
  ⟨(claim_C6_rewrite Rewrite.exLookupC6 [exWG] (fun _ => 1)
      { out := ["X"], inBulk := true, replacing := true } "$ c").1
      exWG (List.mem_singleton.mpr rfl) rfl,
    (claim_C6_rewrite Rewrite.exLookupC6 [exWG] (fun _ => 1)
      { out := ["X"], inBulk := true, replacing := true }
      "$ c").2.2.2.2.2.1 rfl (by decide) (by decide) (by decide) rfl⟩

namespace Partition

/-! `partition_model`, `merge_parts` and the bulk-emission part of
`write_partition` (`src/preprocessing/partition_bdf.py`).  Python sets
are embedded as duplicate-free lists in insertion order, dicts as
association lists; ids are `Nat`.  pyNastran card objects are reduced
to the attributes the partitioner reads.  Contact-surface handling
(`_assign_contact_to_joints`) is outside the embedded model (models
without contact cards). -/

/-- A structural element: its `type`, raw `node_ids` entries (which may
be `None`), and optional property id. -/
structure PElem where
  type : String
  nodes : List (Option Nat)
  pid : Option Nat
deriving DecidableEq, Repr

/-- A rigid element as read by `_get_rigid_nodes` and the RBE2
helpers. -/
inductive PRigid
  | rbe2 (gn : Option Nat) (gmi : List Nat)
  | rbe3 (ref : Option Nat) (gijs : List (List Nat))
  | rbar (ga gb : Option Nat)
  | other
deriving DecidableEq, Repr

/-- A mass element as read by `_get_mass_nodes`. -/
inductive PMass
  | conm2 (nid : Nat)
  | conm1 (nid : Option Nat)
  | cmass (g1 g2 : Option Nat)
deriving DecidableEq, Repr

/-- The model collections the partitioner reads. -/
structure PModel where
  elements : List (Nat × PElem)
  rigid_elements : List (Nat × PRigid)
  masses : List (Nat × PMass)
  nodes : List Nat
deriving DecidableEq, Repr

/-- `set.add`: append if absent. -/
def insSet (x : Nat) (s : List Nat) : List Nat :=
  if x ∈ s then s else s ++ [x]

/-- `set.update`: fold `insSet`. -/
def unionSet (s t : List Nat) : List Nat :=
  t.foldl (fun acc x => insSet x acc) s

/-- `set(l)`. -/
def listToSet (l : List Nat) : List Nat := unionSet [] l

/-- `_get_element_nodes`: positive, non-`None` node ids of a structural
element, as a set. -/
def getElementNodes (e : PElem) : List Nat :=
  listToSet ((e.nodes.filterMap id).filter (fun n => 0 < n))

/-- `_rbe2_independent_node`. -/
def rbe2IndependentNode : PRigid → Option Nat
  | .rbe2 gn _ => gn
  | _ => none

/-- `_rbe2_dependent_nodes`. -/
def rbe2DependentNodes : PRigid → List Nat
  | .rbe2 _ gmi => gmi
  | _ => []

/-- `_get_rigid_nodes`. -/
def getRigidNodes : PRigid → List Nat
  | .rbe2 gn gmi =>
      listToSet ((match gn with | some n => [n] | none => []) ++ gmi)
  | .rbe3 ref gijs =>
      listToSet ((match ref with
        | some n => if 0 < n then [n] else []
        | none => []) ++ (gijs.flatten.filter (fun n => 0 < n)))
  | .rbar ga gb =>
      listToSet ((match ga with
        | some n => if 0 < n then [n] else []
        | none => []) ++ (match gb with
        | some n => if 0 < n then [n] else []
        | none => []))
  | .other => []

/-- `_get_mass_nodes`. -/
def getMassNodes : PMass → List Nat
  | .conm2 nid => if 0 < nid then [nid] else []
  | .conm1 o =>
      match o with
      | some n => if 0 < n then [n] else []
      | none => []
  | .cmass g1 g2 =>
      listToSet ((match g1 with
        | some n => if 0 < n then [n] else []
        | none => []) ++ (match g2 with
        | some n => if 0 < n then [n] else []
        | none => []))

/-- `_cbush_nodes`: `(node_ids[0], node_ids[1])` with `None` for short
lists. -/
def cbushNodes (e : PElem) : Option Nat × Option Nat :=
  ((e.nodes.getD 0 none), (e.nodes.getD 1 none))

/-- `_get_element_pid` (the `model.masses` fallback is not modelled:
the partitioner only calls this on structural eids). -/
def getElementPid (m : PModel) (eid : Nat) : Option Nat :=
  match m.elements.lookup eid with
  | some e =>
      match e.pid with
      | some p => if 0 < p then some p else none
      | none => none
  | none => none

/-- `elem_to_nodes.get(eid, set())`. -/
def elemToNodes (m : PModel) (eid : Nat) : List Nat :=
  match m.elements.lookup eid with
  | some e => getElementNodes e
  | none => []

/-- `node_to_elems.get(nid, set())`: eids of elements touching `nid`. -/
def nodeToElems (m : PModel) (nid : Nat) : List Nat :=
  (m.elements.filter (fun p => nid ∈ getElementNodes p.2)).map Prod.fst

/-- `rbe2_by_ind_node`, last write winning (front-prepended entries,
first-match lookup). -/
def rbe2ByInd (m : PModel) : List (Nat × (Nat × PRigid)) :=
  m.rigid_elements.foldl (fun acc p =>
    match p.2 with
    | .rbe2 gn gmi =>
        match gn with
        | some ind => (ind, (p.1, .rbe2 gn gmi)) :: acc
        | none => acc
    | _ => acc) []

/-- An RBE2—CBUSH—RBE2 boundary chain. -/
structure Chain where
  cbush_eid : Nat
  ga : Nat
  gb : Nat
  rbe2_a_eid : Nat
  a_dep : List Nat
  rbe2_b_eid : Nat
  b_dep : List Nat
deriving DecidableEq, Repr

/-- Step 2 of `partition_model`: the boundary chains. -/
def buildChains (m : PModel) : List Chain :=
  m.elements.foldl (fun acc p =>
    if p.2.type = "CBUSH" then
      match cbushNodes p.2 with
      | (some ga, some gb) =>
          if gb = 0 then acc
          else
            match (rbe2ByInd m).lookup ga, (rbe2ByInd m).lookup gb with
            | some a, some b =>
                acc ++ [⟨p.1, ga, gb, a.1, rbe2DependentNodes a.2,
                  b.1, rbe2DependentNodes b.2⟩]
            | _, _ => acc
      | _ => acc
    else acc) []

/-- `wall_eids`. -/
def wallEids (m : PModel) : List Nat :=
  listToSet ((buildChains m).flatMap
    (fun c => [c.cbush_eid, c.rbe2_a_eid, c.rbe2_b_eid]))

/-- `wall_nodes`. -/
def wallNodes (m : PModel) : List Nat :=
  listToSet ((buildChains m).flatMap (fun c => [c.ga, c.gb]))

/-- The BFS of step 3, fuel-indexed: pops `queue`, growing `visited`
and `component` in lock step. -/
def bfs (m : PModel) (wallE wallN : List Nat) :
    Nat → List Nat → List Nat → List Nat → List Nat × List Nat
  | 0, visited, _, comp => (visited, comp)
  | _ + 1, visited, [], comp => (visited, comp)
  | fuel + 1, visited, eid :: queue, comp =>
      if eid ∈ visited ∨ eid ∈ wallE then
        bfs m wallE wallN fuel visited queue comp
      else
        bfs m wallE wallN fuel (visited ++ [eid])
          (queue ++ ((elemToNodes m eid).filter (fun nid => nid ∉ wallN)).flatMap
            (fun nid => (nodeToElems m nid).filter
              (fun e2 => e2 ∉ visited ++ [eid] ∧ e2 ∉ wallE)))
          (comp ++ [eid])

/-- Fuel bound: the tiny models of this file finish their queues well
inside it; the invariants below hold for every fuel value. -/
def bfsFuel (m : PModel) : Nat :=
  (m.elements.length + 1) *
    (((m.elements.map (fun p => (getElementNodes p.2).length)).sum + 1) *
      (m.elements.length + 1) + 1)

/-- Step 3's outer loop over sorted seeds: returns final visited set
and the list of non-empty components. -/
def floodLoop (m : PModel) (wallE wallN : List Nat) (seeds : List Nat) :
    List Nat × List (List Nat) :=
  seeds.foldl (fun acc seed =>
    if seed ∈ acc.1 then acc
    else
      match bfs m wallE wallN (bfsFuel m) acc.1 [seed] [] with
      | (v, comp) => if comp = [] then (v, acc.2) else (v, acc.2 ++ [comp]))
    ([], [])

/-- `sorted(all_eids)`: element keys outside the wall. -/
def allSeeds (m : PModel) : List Nat :=
  (((m.elements.map Prod.fst).filter (fun e => e ∉ wallEids m)).insertionSort
    (· ≤ ·))

/-- `raw_parts`. -/
def rawParts (m : PModel) : List (List Nat) :=
  (floodLoop m (wallEids m) (wallNodes m) (allSeeds m)).2

/-- A `Part` (the user-facing `name` only affects file names and is
not modelled). -/
structure Part where
  part_id : Nat
  element_ids : List Nat
  node_ids : List Nat
  property_ids : List Nat
deriving DecidableEq, Repr

/-- Step 4 for one component: property ids, mesh nodes, then the
chain-dependent-node augmentation in chain order. -/
def buildPart (m : PModel) (i : Nat) (eids : List Nat) : Part :=
  { part_id := i
    element_ids := eids
    property_ids := listToSet (eids.filterMap (getElementPid m))
    node_ids :=
      (buildChains m).foldl (fun acc c =>
        match (if c.a_dep.any (fun n => n ∈ acc) then unionSet acc c.a_dep
          else acc) with
        | acc1 =>
            if c.b_dep.any (fun n => n ∈ acc1) then unionSet acc1 c.b_dep
            else acc1)
        (eids.foldl (fun acc eid => unionSet acc (elemToNodes m eid)) []) }

/-- The parts before rigid/mass assignment. -/
def basicParts (m : PModel) : List Part :=
  (rawParts m).enum.map (fun q => buildPart m (q.1 + 1) q.2)

/-- `node_to_part`, last write winning. -/
def nodeToPart (parts : List Part) (nid : Nat) : Option Nat :=
  ((parts.flatMap (fun p => p.node_ids.map (fun n => (n, p.part_id)))).reverse).lookup
    nid

/-- One vote (`votes[pid] += 1`). -/
def bumpVote (votes : List (Nat × Nat)) (pid : Nat) : List (Nat × Nat) :=
  if (votes.lookup pid).isSome then
    votes.map (fun q => if q.1 = pid then (q.1, q.2 + 1) else q)
  else votes ++ [(pid, 1)]

/-- `max(votes, key=votes.get)`: first key reaching the maximum, in
insertion order. -/
def argmaxFirst (votes : List (Nat × Nat)) : Option Nat :=
  (votes.foldl (fun best q =>
    match best with
    | none => some q
    | some b => if q.2 > b.2 then some q else some b) none).map Prod.fst

/-- `_find_part_for_nodes`. -/
def findPartForNodes (n2p : Nat → Option Nat) (node_list : List Nat) :
    Option Nat :=
  argmaxFirst (node_list.foldl (fun acc nid =>
    match n2p nid with
    | some pid => bumpVote acc pid
    | none => acc) [])

/-- `part_by_id[owner].element_ids.add(eid)`. -/
def addElemToPart (parts : List Part) (pid eid : Nat) : List Part :=
  parts.map (fun p =>
    if p.part_id = pid then
      { p with element_ids := insSet eid p.element_ids }
    else p)

/-- Rigid- and mass-element assignment by node voting (`node_to_part`
is the lookup built from the pre-assignment parts). -/
def assignedParts (m : PModel) : List Part :=
  m.masses.foldl (fun ps q =>
    match findPartForNodes (nodeToPart (basicParts m))
        (getMassNodes q.2) with
    | some o => addElemToPart ps o q.1
    | none => ps)
    (m.rigid_elements.foldl (fun ps q =>
      if q.1 ∈ wallEids m then ps
      else
        match findPartForNodes (nodeToPart (basicParts m))
            (getRigidNodes q.2) with
        | some o => addElemToPart ps o q.1
        | none => ps)
      (basicParts m))

/-- A joint between two parts. -/
structure Joint where
  part_a_id : Nat
  part_b_id : Nat
  chains : List Chain
  pbush_pids : List Nat
deriving DecidableEq, Repr

/-- `joint.chains.append(chain)` plus the PBUSH-pid collection from
the chain's CBUSH. -/
def extendJoint (m : PModel) (c : Chain) (j : Joint) : Joint :=
  { j with
    chains := j.chains ++ [c],
    pbush_pids :=
      match m.elements.lookup c.cbush_eid with
      | some _ =>
          match getElementPid m c.cbush_eid with
          | some pid => insSet pid j.pbush_pids
          | none => j.pbush_pids
      | none => j.pbush_pids }

/-- A freshly created joint holding one chain. -/
def newJoint (m : PModel) (ka kb : Nat) (c : Chain) : Joint :=
  { part_a_id := ka, part_b_id := kb, chains := [c],
    pbush_pids :=
      match m.elements.lookup c.cbush_eid with
      | some _ =>
          match getElementPid m c.cbush_eid with
          | some pid => [pid]
          | none => []
      | none => [] }

/-- Add a chain (and the CBUSH's PBUSH pid) to the joint keyed
`(min, max)` of the two part ids, creating it if missing. -/
def addChainToMap (m : PModel) (jm : List ((Nat × Nat) × Joint))
    (pa pb : Nat) (c : Chain) : List ((Nat × Nat) × Joint) :=
  if (jm.lookup (min pa pb, max pa pb)).isSome then
    jm.map (fun q =>
      if q.1 = (min pa pb, max pa pb) then (q.1, extendJoint m c q.2)
      else q)
  else
    jm ++ [((min pa pb, max pa pb),
      newJoint m (min pa pb) (max pa pb) c)]

/-- Step 5: the joint map. -/
def jointMap (m : PModel) : List ((Nat × Nat) × Joint) :=
  (buildChains m).foldl (fun jm c =>
    match findPartForNodes (nodeToPart (basicParts m)) c.a_dep,
        findPartForNodes (nodeToPart (basicParts m)) c.b_dep with
    | some pa, some pb => if pa = pb then jm else addChainToMap m jm pa pb c
    | _, _ => jm) []

/-- Sorting key order for joints. -/
def jointLe (a b : Joint) : Prop :=
  a.part_a_id < b.part_a_id ∨
    (a.part_a_id = b.part_a_id ∧ a.part_b_id ≤ b.part_b_id)

instance : DecidableRel jointLe := fun a b => by
  unfold jointLe
  infer_instance

instance : IsTotal Joint jointLe where
  total a b := by
    unfold jointLe
    omega

instance : IsTrans Joint jointLe where
  trans a b c hab hbc := by
    unfold jointLe at hab hbc ⊢
    omega

/-- The sorted joint list of the result. -/
def partitionJoints (m : PModel) : List Joint :=
  ((jointMap m).map Prod.snd).insertionSort jointLe

/-- The parts of the result. -/
def partitionParts (m : PModel) : List Part := assignedParts m

-- ── write_partition: emitted node/element ids ──

/-- GRID ids written into a part file: the part's nodes present in
`model.nodes`, in sorted order. -/
def partFileNodes (m : PModel) (p : Part) : List Nat :=
  (p.node_ids.insertionSort (· ≤ ·)).filter (fun nid => nid ∈ m.nodes)

/-- Element ids written into a part file: structural elements and
interior rigids from `element_ids`, plus every mass element whose
(non-empty) node set lies inside the part's nodes. -/
def partFileElems (m : PModel) (p : Part) : List Nat :=
  ((p.element_ids.insertionSort (· ≤ ·)).filter
      (fun eid => (m.elements.lookup eid).isSome))
  ++ ((p.element_ids.insertionSort (· ≤ ·)).filter
      (fun eid => (m.rigid_elements.lookup eid).isSome))
  ++ (((m.masses.map Prod.fst).insertionSort (· ≤ ·)).filter
      (fun eid =>
        match m.masses.lookup eid with
        | some me => getMassNodes me ≠ [] ∧
            (getMassNodes me).all (fun n => n ∈ p.node_ids)
        | none => False))

/-- Element ids written into a joint file: the chains' CBUSHes (those
present in `model.elements`) and their RBE2s (those present in
`model.rigid_elements`).  Joint files contain no GRID cards. -/
def jointFileElems (m : PModel) (j : Joint) : List Nat :=
  (((j.chains.map (fun c => c.cbush_eid)).insertionSort (· ≤ ·)).filter
      (fun e => (m.elements.lookup e).isSome))
  ++ ((listToSet (j.chains.flatMap
        (fun c => [c.rbe2_a_eid, c.rbe2_b_eid]))).insertionSort
      (· ≤ ·)).filter (fun e => (m.rigid_elements.lookup e).isSome)

-- ── set-as-list lemmas ──

theorem mem_insSet {y x : Nat} {s : List Nat} :
    y ∈ insSet x s ↔ y = x ∨ y ∈ s := by
  unfold insSet
  by_cases h : x ∈ s
  · rw [if_pos h]
    constructor
    · exact Or.inr
    · rintro (rfl | hy)
      · exact h
      · exact hy
  · rw [if_neg h, List.mem_append, List.mem_singleton]
    tauto

theorem insSet_nodup {x : Nat} {s : List Nat} (h : s.Nodup) :
    (insSet x s).Nodup := by
  unfold insSet
  by_cases hx : x ∈ s
  · rw [if_pos hx]; exact h
  · rw [if_neg hx]
    refine List.Nodup.append h (List.nodup_singleton x) ?_
    intro a ha hax
    rw [List.mem_singleton] at hax
    subst hax
    exact hx ha

theorem mem_unionSet {y : Nat} {s t : List Nat} :
    y ∈ unionSet s t ↔ y ∈ s ∨ y ∈ t := by
  unfold unionSet
  induction t generalizing s with
  | nil => simp
  | cons a t ih =>
      rw [List.foldl_cons, ih, mem_insSet, List.mem_cons]
      tauto

theorem unionSet_nodup {s t : List Nat} (h : s.Nodup) :
    (unionSet s t).Nodup := by
  unfold unionSet
  induction t generalizing s with
  | nil => exact h
  | cons a t ih => exact ih (insSet_nodup h)

theorem mem_listToSet {y : Nat} {l : List Nat} :
    y ∈ listToSet l ↔ y ∈ l := by
  unfold listToSet
  rw [mem_unionSet]
  simp

theorem listToSet_nodup (l : List Nat) : (listToSet l).Nodup :=
  unionSet_nodup List.nodup_nil

theorem lookup_isSome_mem {β : Type} (l : List (Nat × β)) (k : Nat) :
    (l.lookup k).isSome ↔ k ∈ l.map Prod.fst := by
  induction l with
  | nil => simp [List.lookup]
  | cons p t ih =>
      rw [List.lookup, List.map_cons, List.mem_cons]
      by_cases h : k = p.1
      · have : (k == p.1) = true := beq_iff_eq.mpr h
        rw [this]
        simp [h]
      · have : (k == p.1) = false := beq_eq_false_iff_ne.mpr h
        rw [this]
        simp [h, ih]

theorem lookup_eq_none_not_mem {β : Type} {l : List (Nat × β)} {k : Nat}
    (h : k ∉ l.map Prod.fst) : l.lookup k = none := by
  cases hl : l.lookup k with
  | none => rfl
  | some v =>
      exact absurd ((lookup_isSome_mem l k).mp (by rw [hl]; rfl)) h

theorem mem_insertionSort {l : List Nat} {x : Nat} :
    x ∈ l.insertionSort (· ≤ ·) ↔ x ∈ l :=
  (List.perm_insertionSort (· ≤ ·) l).mem_iff

-- ── flood-fill invariants ──

theorem nodeToElems_subset_keys (m : PModel) (nid : Nat) :
    ∀ e ∈ nodeToElems m nid, e ∈ m.elements.map Prod.fst := by
  intro e he
  unfold nodeToElems at he
  obtain ⟨p, hp, rfl⟩ := List.mem_map.mp he
  exact List.mem_map.mpr ⟨p, (List.mem_filter.mp hp).1, rfl⟩

/-- The BFS appends one block of fresh, non-wall element ids to both
`visited` and `component`. -/
theorem bfs_delta (m : PModel) (wallE wallN : List Nat) :
    ∀ fuel (v q c : List Nat),
    (∀ e ∈ q, e ∈ m.elements.map Prod.fst) →
    ∃ d, bfs m wallE wallN fuel v q c = (v ++ d, c ++ d) ∧ d.Nodup ∧
      ∀ e ∈ d, e ∉ v ∧ e ∉ wallE ∧ e ∈ m.elements.map Prod.fst := by
  intro fuel
  induction fuel with
  | zero =>
      intro v q c hq
      exact ⟨[], by simp [bfs], List.nodup_nil, by simp⟩
  | succ fuel ih =>
      intro v q c hq
      cases q with
      | nil => exact ⟨[], by simp [bfs], List.nodup_nil, by simp⟩
      | cons eid rest =>
          by_cases h : eid ∈ v ∨ eid ∈ wallE
          · obtain ⟨d, hd, hnd, hprop⟩ := ih v rest c
              (fun e he => hq e (List.mem_cons_of_mem _ he))
            refine ⟨d, ?_, hnd, hprop⟩
            rw [show bfs m wallE wallN (fuel + 1) v (eid :: rest) c
              = bfs m wallE wallN fuel v rest c from by
                rw [bfs, if_pos h]]
            exact hd
          · push_neg at h
            have hq2 : ∀ e ∈ rest ++ ((elemToNodes m eid).filter
                  (fun nid => nid ∉ wallN)).flatMap
                (fun nid => (nodeToElems m nid).filter
                  (fun e2 => e2 ∉ v ++ [eid] ∧ e2 ∉ wallE)),
                e ∈ m.elements.map Prod.fst := by
              intro e he
              rw [List.mem_append] at he
              rcases he with he | he
              · exact hq e (List.mem_cons_of_mem _ he)
              · obtain ⟨nid, hnid, he2⟩ := List.mem_flatMap.mp he
                exact nodeToElems_subset_keys m nid e
                  (List.mem_of_mem_filter he2)
            obtain ⟨d, hd, hnd, hprop⟩ := ih (v ++ [eid])
              (rest ++ ((elemToNodes m eid).filter
                  (fun nid => nid ∉ wallN)).flatMap
                (fun nid => (nodeToElems m nid).filter
                  (fun e2 => e2 ∉ v ++ [eid] ∧ e2 ∉ wallE)))
              (c ++ [eid]) hq2
            refine ⟨eid :: d, ?_, ?_, ?_⟩
            · rw [show bfs m wallE wallN (fuel + 1) v (eid :: rest) c
                = bfs m wallE wallN fuel (v ++ [eid])
                  (rest ++ ((elemToNodes m eid).filter
                      (fun nid => nid ∉ wallN)).flatMap
                    (fun nid => (nodeToElems m nid).filter
                      (fun e2 => e2 ∉ v ++ [eid] ∧ e2 ∉ wallE)))
                  (c ++ [eid]) from by
                  rw [bfs, if_neg (by tauto)]]
              rw [hd, List.append_assoc, List.append_assoc]
              rfl
            · refine List.Pairwise.cons ?_ hnd
              intro e he
              have := (hprop e he).1
              intro heq
              subst heq
              exact this (List.mem_append_right v (List.mem_singleton.mpr rfl))
            · intro e he
              rw [List.mem_cons] at he
              rcases he with rfl | he
              · exact ⟨h.1, h.2, hq e (List.mem_cons_self _ _)⟩
              · have ⟨h1, h2, h3⟩ := hprop e he
                exact ⟨fun hv => h1 (List.mem_append_left _ hv), h2, h3⟩

/-- The seed loop: visited is exactly the concatenation of the
components, stays duplicate-free, consists of non-wall element keys,
and contains every processed seed. -/
theorem floodLoop_inv (m : PModel) (wallE wallN : List Nat) :
    ∀ (seeds : List Nat) (acc : List Nat × List (List Nat)),
    acc.1 = acc.2.flatten → acc.1.Nodup →
    (∀ e ∈ acc.1, e ∉ wallE ∧ e ∈ m.elements.map Prod.fst) →
    (∀ s ∈ seeds, s ∈ m.elements.map Prod.fst ∧ s ∉ wallE) →
    (seeds.foldl (fun acc seed =>
        if seed ∈ acc.1 then acc
        else
          match bfs m wallE wallN (bfsFuel m) acc.1 [seed] [] with
          | (v, comp) =>
              if comp = [] then (v, acc.2) else (v, acc.2 ++ [comp]))
      acc).1
      = (seeds.foldl (fun acc seed =>
        if seed ∈ acc.1 then acc
        else
          match bfs m wallE wallN (bfsFuel m) acc.1 [seed] [] with
          | (v, comp) =>
              if comp = [] then (v, acc.2) else (v, acc.2 ++ [comp]))
      acc).2.flatten
    ∧ (seeds.foldl (fun acc seed =>
        if seed ∈ acc.1 then acc
        else
          match bfs m wallE wallN (bfsFuel m) acc.1 [seed] [] with
          | (v, comp) =>
              if comp = [] then (v, acc.2) else (v, acc.2 ++ [comp]))
      acc).1.Nodup
    ∧ (∀ e ∈ (seeds.foldl (fun acc seed =>
        if seed ∈ acc.1 then acc
        else
          match bfs m wallE wallN (bfsFuel m) acc.1 [seed] [] with
          | (v, comp) =>
              if comp = [] then (v, acc.2) else (v, acc.2 ++ [comp]))
      acc).1, e ∉ wallE ∧ e ∈ m.elements.map Prod.fst)
    ∧ (∀ s ∈ seeds, s ∈ (seeds.foldl (fun acc seed =>
        if seed ∈ acc.1 then acc
        else
          match bfs m wallE wallN (bfsFuel m) acc.1 [seed] [] with
          | (v, comp) =>
              if comp = [] then (v, acc.2) else (v, acc.2 ++ [comp]))
      acc).1)
    ∧ (∀ e ∈ acc.1, e ∈ (seeds.foldl (fun acc seed =>
        if seed ∈ acc.1 then acc
        else
          match bfs m wallE wallN (bfsFuel m) acc.1 [seed] [] with
          | (v, comp) =>
              if comp = [] then (v, acc.2) else (v, acc.2 ++ [comp]))
      acc).1) := by
  intro seeds
  induction seeds with
  | nil =>
      intro acc h1 h2 h3 _
      exact ⟨h1, h2, h3, by simp, fun e he => he⟩
  | cons s seeds ih =>
      intro acc h1 h2 h3 hs
      rw [List.foldl_cons]
      by_cases hin : s ∈ acc.1
      · rw [if_pos hin]
        obtain ⟨g1, g2, g3, g4, g5⟩ := ih acc h1 h2 h3
          (fun t ht => hs t (List.mem_cons_of_mem _ ht))
        exact ⟨g1, g2, g3,
          fun t ht => by
            rw [List.mem_cons] at ht
            rcases ht with rfl | ht
            · exact g5 t hin
            · exact g4 t ht,
          g5⟩
      · rw [if_neg hin]
        obtain ⟨hkey, hwall⟩ := hs s (List.mem_cons_self _ _)
        have hfuel : ∃ f, bfsFuel m = f + 1 := by
          have : 0 < bfsFuel m := by
            unfold bfsFuel
            positivity
          exact ⟨bfsFuel m - 1, by omega⟩
        obtain ⟨f, hf⟩ := hfuel
        obtain ⟨d, hd, hnd, hprop⟩ := bfs_delta m wallE wallN f
          (acc.1 ++ [s])
          (((elemToNodes m s).filter (fun nid => nid ∉ wallN)).flatMap
            (fun nid => (nodeToElems m nid).filter
              (fun e2 => e2 ∉ acc.1 ++ [s] ∧ e2 ∉ wallE)))
          [s]
          (fun e he => by
            obtain ⟨nid, hnid, he2⟩ := List.mem_flatMap.mp he
            exact nodeToElems_subset_keys m nid e
              (List.mem_of_mem_filter he2))
        have hrun : bfs m wallE wallN (bfsFuel m) acc.1 [s] []
            = (acc.1 ++ s :: d, s :: d) := by
          rw [hf]
          rw [show bfs m wallE wallN (f + 1) acc.1 [s] []
            = bfs m wallE wallN f (acc.1 ++ [s])
              (([] : List Nat) ++ ((elemToNodes m s).filter
                  (fun nid => nid ∉ wallN)).flatMap
                (fun nid => (nodeToElems m nid).filter
                  (fun e2 => e2 ∉ acc.1 ++ [s] ∧ e2 ∉ wallE)))
              (([] : List Nat) ++ [s]) from by
              rw [bfs, if_neg (by tauto)]]
          rw [List.nil_append, List.nil_append, hd]
          rw [List.append_assoc]
          rfl
        have hne : ¬ (s :: d) = [] := by simp
        have hstep : (match bfs m wallE wallN (bfsFuel m) acc.1 [s] [] with
            | (v, comp) =>
                if comp = [] then (v, acc.2) else (v, acc.2 ++ [comp]))
            = (acc.1 ++ s :: d, acc.2 ++ [s :: d]) := by
          rw [hrun]
          exact if_neg hne
        rw [hstep]
        have hfresh : ∀ e ∈ s :: d, e ∉ acc.1 := by
          intro e he
          rw [List.mem_cons] at he
          rcases he with rfl | he
          · exact hin
          · exact fun hv => (hprop e he).1 (List.mem_append_left _ hv)
        have hmem2 : ∀ e ∈ s :: d,
            e ∉ wallE ∧ e ∈ m.elements.map Prod.fst := by
          intro e he
          rw [List.mem_cons] at he
          rcases he with rfl | he
          · exact ⟨hwall, hkey⟩
          · exact ⟨(hprop e he).2.1, (hprop e he).2.2⟩
        have h1' : acc.1 ++ s :: d = (acc.2 ++ [s :: d]).flatten := by
          rw [List.flatten_append, ← h1]
          simp
        have h2' : (acc.1 ++ s :: d).Nodup := by
          refine List.Nodup.append h2 ?_ ?_
          · refine List.Pairwise.cons ?_ hnd
            intro e he heq
            subst heq
            exact (hprop s he).1
              (List.mem_append_right _ (List.mem_singleton.mpr rfl))
          · intro a ha had
            exact hfresh a had ha
        have h3' : ∀ e ∈ acc.1 ++ s :: d,
            e ∉ wallE ∧ e ∈ m.elements.map Prod.fst := by
          intro e he
          rw [List.mem_append] at he
          rcases he with he | he
          · exact h3 e he
          · exact hmem2 e he
        obtain ⟨g1, g2, g3, g4, g5⟩ := ih (acc.1 ++ s :: d, acc.2 ++ [s :: d])
          h1' h2' h3' (fun t ht => hs t (List.mem_cons_of_mem _ ht))
        refine ⟨g1, g2, g3, ?_, ?_⟩
        · intro t ht
          rw [List.mem_cons] at ht
          rcases ht with rfl | ht
          · exact g5 t (List.mem_append_right _ (List.mem_cons_self _ _))
          · exact g4 t ht
        · intro e he
          exact g5 e (List.mem_append_left _ he)

theorem countP_eq_one_of_nodup_flatten {e : Nat} :
    ∀ {ls : List (List Nat)}, ls.flatten.Nodup → e ∈ ls.flatten →
    ls.countP (fun l => decide (e ∈ l)) = 1 := by
  intro ls
  induction ls with
  | nil => intro _ h; simp at h
  | cons l rest ih =>
      intro hnd hmem
      rw [List.flatten_cons] at hnd hmem
      obtain ⟨hl, hrest, hdisj⟩ := List.nodup_append.mp hnd
      rw [List.countP_cons]
      rw [List.mem_append] at hmem
      rcases hmem with hmem | hmem
      · have hnotrest : e ∉ rest.flatten := fun hr => hdisj hmem hr
        have hzero : rest.countP (fun l => decide (e ∈ l)) = 0 := by
          rw [List.countP_eq_zero]
          intro l' hl' hdl'
          exact hnotrest (List.mem_flatten.mpr ⟨l', hl', of_decide_eq_true hdl'⟩)
        rw [hzero]
        simp [hmem]
      · have hnl : e ∉ l := fun hel => hdisj hel hmem
        rw [ih hrest hmem]
        simp [hnl]

/-- Every non-wall structural element id lies in exactly one raw
component, and raw components hold only non-wall structural element
ids. -/
theorem rawParts_partition (m : PModel) :
    (∀ eid ∈ m.elements.map Prod.fst, eid ∉ wallEids m →
      (rawParts m).countP (fun comp => decide (eid ∈ comp)) = 1)
    ∧ (∀ comp ∈ rawParts m, ∀ e ∈ comp,
        e ∈ m.elements.map Prod.fst ∧ e ∉ wallEids m) := by
  have hs : ∀ s ∈ allSeeds m,
      s ∈ m.elements.map Prod.fst ∧ s ∉ wallEids m := by
    intro s hsm
    unfold allSeeds at hsm
    rw [mem_insertionSort, List.mem_filter] at hsm
    exact ⟨hsm.1, of_decide_eq_true hsm.2⟩
  obtain ⟨g1, g2, g3, g4, _⟩ := floodLoop_inv m (wallEids m) (wallNodes m)
    (allSeeds m) ([], []) rfl List.nodup_nil (by simp) hs
  constructor
  · intro eid hkey hwall
    have hseed : eid ∈ allSeeds m := by
      unfold allSeeds
      rw [mem_insertionSort, List.mem_filter]
      exact ⟨hkey, decide_eq_true hwall⟩
    have hmem : eid ∈ (rawParts m).flatten := by
      have := g4 eid hseed
      rw [g1] at this
      exact this
    have hnd : (rawParts m).flatten.Nodup := by
      rw [← show _ = (rawParts m).flatten from g1]
      exact g2
    exact countP_eq_one_of_nodup_flatten hnd hmem
  · intro comp hcomp e he
    have hmem : e ∈ (rawParts m).flatten := List.mem_flatten.mpr ⟨comp, hcomp, he⟩
    rw [← show _ = (rawParts m).flatten from g1] at hmem
    exact ⟨(g3 e hmem).2, (g3 e hmem).1⟩

-- ── from components to parts and files ──

theorem countP_congr_own {α : Type} {p q : α → Bool} :
    ∀ {l : List α}, (∀ x ∈ l, p x = q x) → l.countP p = l.countP q := by
  intro l
  induction l with
  | nil => intro _; rfl
  | cons a t ih =>
      intro h
      rw [List.countP_cons, List.countP_cons, h a (List.mem_cons_self _ _),
        ih (fun x hx => h x (List.mem_cons_of_mem _ hx))]

theorem addElemToPart_countP (eid : Nat) (ps : List Part) (o e' : Nat)
    (hne : e' ≠ eid) :
    (addElemToPart ps o e').countP (fun p => decide (eid ∈ p.element_ids))
      = ps.countP (fun p => decide (eid ∈ p.element_ids)) := by
  unfold addElemToPart
  rw [List.countP_map]
  apply countP_congr_own
  intro p hp
  show decide (eid ∈ (if p.part_id = o then
    { p with element_ids := insSet e' p.element_ids } else p).element_ids)
    = decide (eid ∈ p.element_ids)
  by_cases h : p.part_id = o
  · rw [if_pos h]
    apply decide_eq_decide.mpr
    show eid ∈ insSet e' p.element_ids ↔ eid ∈ p.element_ids
    rw [mem_insSet]
    constructor
    · rintro (rfl | hm)
      · exact absurd rfl hne
      · exact hm
    · exact Or.inr
  · rw [if_neg h]

theorem addElemToPart_not_mem (eid : Nat) (ps : List Part) (o e' : Nat)
    (hne : e' ≠ eid) (h : ∀ p ∈ ps, eid ∉ p.element_ids) :
    ∀ p ∈ addElemToPart ps o e', eid ∉ p.element_ids := by
  intro p hp
  unfold addElemToPart at hp
  obtain ⟨p0, hp0, rfl⟩ := List.mem_map.mp hp
  by_cases hcase : p0.part_id = o
  · rw [if_pos hcase]
    show eid ∉ insSet e' p0.element_ids
    rw [mem_insSet]
    rintro (rfl | hm)
    · exact hne rfl
    · exact h p0 hp0 hm
  · rw [if_neg hcase]
    exact h p0 hp0

/-- A fold whose steps only ever insert foreign eids preserves both the
membership count of `eid` and its absence. -/
theorem foldAdd_generic {γ : Type} (eid : Nat) (key : γ → Nat)
    (step : List Part → γ → List Part)
    (hstep : ∀ ps q, step ps q = ps ∨
      ∃ o, step ps q = addElemToPart ps o (key q)) :
    ∀ (l : List γ), (∀ q ∈ l, key q ≠ eid) → ∀ ps0,
    ((l.foldl step ps0).countP (fun p => decide (eid ∈ p.element_ids))
      = ps0.countP (fun p => decide (eid ∈ p.element_ids)))
    ∧ ((∀ p ∈ ps0, eid ∉ p.element_ids) →
        ∀ p ∈ l.foldl step ps0, eid ∉ p.element_ids) := by
  intro l
  induction l with
  | nil => intro _ ps0; exact ⟨rfl, fun h => h⟩
  | cons q t ih =>
      intro hk ps0
      rw [List.foldl_cons]
      obtain ⟨ihc, ihm⟩ := ih (fun q' hq' => hk q' (List.mem_cons_of_mem _ hq'))
        (step ps0 q)
      rcases hstep ps0 q with heq | ⟨o, heq⟩
      · rw [heq] at ihc ihm ⊢
        exact ⟨ihc, ihm⟩
      · rw [heq] at ihc ihm ⊢
        refine ⟨?_, ?_⟩
        · rw [ihc, addElemToPart_countP eid ps0 o (key q)
            (hk q (List.mem_cons_self _ _))]
        · intro h
          exact ihm (addElemToPart_not_mem eid ps0 o (key q)
            (hk q (List.mem_cons_self _ _)) h)

theorem assignedParts_countP (m : PModel) (eid : Nat)
    (hdr : eid ∉ m.rigid_elements.map Prod.fst)
    (hdm : eid ∉ m.masses.map Prod.fst) :
    (assignedParts m).countP (fun p => decide (eid ∈ p.element_ids))
      = (basicParts m).countP (fun p => decide (eid ∈ p.element_ids)) := by
  unfold assignedParts
  have hkr : ∀ q ∈ m.rigid_elements, (q : Nat × PRigid).1 ≠ eid := by
    intro q hq heq
    exact hdr (heq ▸ List.mem_map.mpr ⟨q, hq, rfl⟩)
  have hkm : ∀ q ∈ m.masses, (q : Nat × PMass).1 ≠ eid := by
    intro q hq heq
    exact hdm (heq ▸ List.mem_map.mpr ⟨q, hq, rfl⟩)
  have hstepR : ∀ (ps : List Part) (q : Nat × PRigid),
      (if q.1 ∈ wallEids m then ps
        else
          match findPartForNodes (nodeToPart (basicParts m))
              (getRigidNodes q.2) with
          | some o => addElemToPart ps o q.1
          | none => ps) = ps ∨
      ∃ o, (if q.1 ∈ wallEids m then ps
        else
          match findPartForNodes (nodeToPart (basicParts m))
              (getRigidNodes q.2) with
          | some o => addElemToPart ps o q.1
          | none => ps) = addElemToPart ps o q.1 := by
    intro ps q
    by_cases hw : q.1 ∈ wallEids m
    · exact Or.inl (if_pos hw)
    · rw [if_neg hw]
      cases hf : findPartForNodes (nodeToPart (basicParts m))
          (getRigidNodes q.2) with
      | none => exact Or.inl rfl
      | some o => exact Or.inr ⟨o, rfl⟩
  have hstepM : ∀ (ps : List Part) (q : Nat × PMass),
      (match findPartForNodes (nodeToPart (basicParts m))
          (getMassNodes q.2) with
        | some o => addElemToPart ps o q.1
        | none => ps) = ps ∨
      ∃ o, (match findPartForNodes (nodeToPart (basicParts m))
          (getMassNodes q.2) with
        | some o => addElemToPart ps o q.1
        | none => ps) = addElemToPart ps o q.1 := by
    intro ps q
    cases hf : findPartForNodes (nodeToPart (basicParts m))
        (getMassNodes q.2) with
    | none => exact Or.inl rfl
    | some o => exact Or.inr ⟨o, rfl⟩
  rw [(foldAdd_generic eid Prod.fst _ hstepM m.masses hkm _).1,
    (foldAdd_generic eid Prod.fst _ hstepR m.rigid_elements hkr _).1]

theorem assignedParts_not_mem (m : PModel) (eid : Nat)
    (hdr : eid ∉ m.rigid_elements.map Prod.fst)
    (hdm : eid ∉ m.masses.map Prod.fst)
    (hb : ∀ p ∈ basicParts m, eid ∉ p.element_ids) :
    ∀ p ∈ assignedParts m, eid ∉ p.element_ids := by
  unfold assignedParts
  have hkr : ∀ q ∈ m.rigid_elements, (q : Nat × PRigid).1 ≠ eid := by
    intro q hq heq
    exact hdr (heq ▸ List.mem_map.mpr ⟨q, hq, rfl⟩)
  have hkm : ∀ q ∈ m.masses, (q : Nat × PMass).1 ≠ eid := by
    intro q hq heq
    exact hdm (heq ▸ List.mem_map.mpr ⟨q, hq, rfl⟩)
  have hstepR : ∀ (ps : List Part) (q : Nat × PRigid),
      (if q.1 ∈ wallEids m then ps
        else
          match findPartForNodes (nodeToPart (basicParts m))
              (getRigidNodes q.2) with
          | some o => addElemToPart ps o q.1
          | none => ps) = ps ∨
      ∃ o, (if q.1 ∈ wallEids m then ps
        else
          match findPartForNodes (nodeToPart (basicParts m))
              (getRigidNodes q.2) with
          | some o => addElemToPart ps o q.1
          | none => ps) = addElemToPart ps o q.1 := by
    intro ps q
    by_cases hw : q.1 ∈ wallEids m
    · exact Or.inl (if_pos hw)
    · rw [if_neg hw]
      cases hf : findPartForNodes (nodeToPart (basicParts m))
          (getRigidNodes q.2) with
      | none => exact Or.inl rfl
      | some o => exact Or.inr ⟨o, rfl⟩
  have hstepM : ∀ (ps : List Part) (q : Nat × PMass),
      (match findPartForNodes (nodeToPart (basicParts m))
          (getMassNodes q.2) with
        | some o => addElemToPart ps o q.1
        | none => ps) = ps ∨
      ∃ o, (match findPartForNodes (nodeToPart (basicParts m))
          (getMassNodes q.2) with
        | some o => addElemToPart ps o q.1
        | none => ps) = addElemToPart ps o q.1 := by
    intro ps q
    cases hf : findPartForNodes (nodeToPart (basicParts m))
        (getMassNodes q.2) with
    | none => exact Or.inl rfl
    | some o => exact Or.inr ⟨o, rfl⟩
  exact (foldAdd_generic eid Prod.fst _ hstepM m.masses hkm _).2
    ((foldAdd_generic eid Prod.fst _ hstepR m.rigid_elements hkr _).2 hb)

theorem basicParts_countP (m : PModel) (eid : Nat) :
    (basicParts m).countP (fun p => decide (eid ∈ p.element_ids))
      = (rawParts m).countP (fun comp => decide (eid ∈ comp)) := by
  unfold basicParts
  rw [List.countP_map]
  have h2 : (rawParts m).enum.countP
      (fun q => decide (eid ∈ q.2)) = (rawParts m).countP
      (fun comp => decide (eid ∈ comp)) := by
    conv_rhs => rw [← List.enum_map_snd (rawParts m)]
    rw [List.countP_map]
    apply countP_congr_own
    intro q hq
    rfl
  rw [← h2]
  apply countP_congr_own
  intro q hq
  rfl

theorem basicParts_elem_mem (m : PModel) (p : Part) (hp : p ∈ basicParts m) :
    ∃ comp ∈ rawParts m, p.element_ids = comp := by
  unfold basicParts at hp
  obtain ⟨q, hq, rfl⟩ := List.mem_map.mp hp
  refine ⟨q.2, ?_, rfl⟩
  have := List.enum_map_snd (rawParts m)
  rw [← this]
  exact List.mem_map.mpr ⟨q, hq, rfl⟩

theorem mem_partFileNodes {m : PModel} {p : Part} {nid : Nat} :
    nid ∈ partFileNodes m p ↔ nid ∈ p.node_ids ∧ nid ∈ m.nodes := by
  unfold partFileNodes
  rw [List.mem_filter, mem_insertionSort]
  constructor
  · intro ⟨h1, h2⟩
    exact ⟨h1, of_decide_eq_true h2⟩
  · intro ⟨h1, h2⟩
    exact ⟨h1, decide_eq_true h2⟩

theorem mem_partFileElems_structural {m : PModel} {p : Part} {eid : Nat}
    (hkey : eid ∈ m.elements.map Prod.fst)
    (hdr : eid ∉ m.rigid_elements.map Prod.fst)
    (hdm : eid ∉ m.masses.map Prod.fst) :
    eid ∈ partFileElems m p ↔ eid ∈ p.element_ids := by
  unfold partFileElems
  rw [List.mem_append, List.mem_append]
  constructor
  · rintro ((h | h) | h)
    · rw [List.mem_filter, mem_insertionSort] at h
      exact h.1
    · rw [List.mem_filter] at h
      exact absurd ((lookup_isSome_mem _ _).mp h.2) hdr
    · rw [List.mem_filter, mem_insertionSort] at h
      exact absurd h.1 hdm
  · intro h
    refine Or.inl (Or.inl ?_)
    rw [List.mem_filter, mem_insertionSort]
    exact ⟨h, (lookup_isSome_mem _ _).mpr hkey⟩

theorem not_mem_partFileElems {m : PModel} {p : Part} {eid : Nat}
    (hel : eid ∉ p.element_ids)
    (hdm : eid ∉ m.masses.map Prod.fst) :
    eid ∉ partFileElems m p := by
  unfold partFileElems
  rw [List.mem_append, List.mem_append]
  rintro ((h | h) | h)
  · rw [List.mem_filter, mem_insertionSort] at h
    exact hel h.1
  · rw [List.mem_filter, mem_insertionSort] at h
    exact hel h.1
  · rw [List.mem_filter, mem_insertionSort] at h
    exact hdm h.1

-- ── joint-map invariants ──

theorem addChainToMap_chains (m : PModel) (jm : List ((Nat × Nat) × Joint))
    (pa pb : Nat) (c : Chain) (q : (Nat × Nat) × Joint)
    (hq : q ∈ addChainToMap m jm pa pb c) (c' : Chain)
    (hc' : c' ∈ q.2.chains) :
    c' = c ∨ ∃ q0 ∈ jm, c' ∈ (q0 : (Nat × Nat) × Joint).2.chains := by
  unfold addChainToMap at hq
  by_cases hlk : ((jm.lookup (min pa pb, max pa pb)).isSome : Prop)
  · rw [if_pos hlk] at hq
    obtain ⟨q0, hq0, rfl⟩ := List.mem_map.mp hq
    by_cases hkey : q0.1 = (min pa pb, max pa pb)
    · rw [if_pos hkey] at hc'
      have : c' ∈ q0.2.chains ++ [c] := hc'
      rw [List.mem_append, List.mem_singleton] at this
      rcases this with h | h
      · exact Or.inr ⟨q0, hq0, h⟩
      · exact Or.inl h
    · rw [if_neg hkey] at hc'
      exact Or.inr ⟨q0, hq0, hc'⟩
  · rw [if_neg hlk] at hq
    rw [List.mem_append, List.mem_singleton] at hq
    rcases hq with hq | hq
    · exact Or.inr ⟨q, hq, hc'⟩
    · subst hq
      have hc2 : c' ∈ [c] := hc'
      rw [List.mem_singleton] at hc2
      exact Or.inl hc2

theorem jointMap_chains_from_build (m : PModel) :
    ∀ q ∈ jointMap m, ∀ c ∈ (q : (Nat × Nat) × Joint).2.chains,
      c ∈ buildChains m := by
  unfold jointMap
  have main : ∀ (cs : List Chain) (jm0 : List ((Nat × Nat) × Joint)),
      (∀ q ∈ jm0, ∀ c ∈ (q : (Nat × Nat) × Joint).2.chains,
        c ∈ buildChains m) →
      (∀ c ∈ cs, c ∈ buildChains m) →
      ∀ q ∈ cs.foldl (fun jm c =>
        match findPartForNodes (nodeToPart (basicParts m)) c.a_dep,
            findPartForNodes (nodeToPart (basicParts m)) c.b_dep with
        | some pa, some pb =>
            if pa = pb then jm else addChainToMap m jm pa pb c
        | _, _ => jm) jm0,
      ∀ c ∈ (q : (Nat × Nat) × Joint).2.chains, c ∈ buildChains m := by
    intro cs
    induction cs with
    | nil =>
        intro jm0 h0 _ q hq
        exact h0 q hq
    | cons c t ih =>
        intro jm0 h0 hcs
        rw [List.foldl_cons]
        apply ih
        · intro q hq c' hc'
          cases hA : findPartForNodes (nodeToPart (basicParts m)) c.a_dep with
          | none =>
              rw [hA] at hq
              exact h0 q hq c' hc'
          | some pa =>
              cases hB : findPartForNodes (nodeToPart (basicParts m))
                  c.b_dep with
              | none =>
                  rw [hA, hB] at hq
                  exact h0 q hq c' hc'
              | some pb =>
                  rw [hA, hB] at hq
                  have hq2 : q ∈ (if pa = pb then jm0
                      else addChainToMap m jm0 pa pb c) := hq
                  by_cases hpp : pa = pb
                  · rw [if_pos hpp] at hq2
                    exact h0 q hq2 c' hc'
                  · rw [if_neg hpp] at hq2
                    rcases addChainToMap_chains m jm0 pa pb c q hq2 c' hc' with
                      rfl | ⟨q0, hq0, hcq0⟩
                    · exact hcs c' (List.mem_cons_self _ _)
                    · exact h0 q0 hq0 c' hcq0
        · intro c' hc'
          exact hcs c' (List.mem_cons_of_mem _ hc')
  intro q hq
  exact main (buildChains m) [] (by simp) (fun c hc => hc) q hq

theorem chain_wall_eids {m : PModel} {c : Chain} (hc : c ∈ buildChains m) :
    c.cbush_eid ∈ wallEids m ∧ c.rbe2_a_eid ∈ wallEids m ∧
      c.rbe2_b_eid ∈ wallEids m := by
  unfold wallEids
  refine ⟨?_, ?_, ?_⟩
  · rw [mem_listToSet]
    refine List.mem_flatMap.mpr ⟨c, hc, ?_⟩
    simp
  · rw [mem_listToSet]
    refine List.mem_flatMap.mpr ⟨c, hc, ?_⟩
    simp
  · rw [mem_listToSet]
    refine List.mem_flatMap.mpr ⟨c, hc, ?_⟩
    simp

theorem mem_partitionJoints {m : PModel} {j : Joint} :
    j ∈ partitionJoints m ↔ ∃ q ∈ jointMap m, (q : (Nat × Nat) × Joint).2 = j := by
  unfold partitionJoints
  rw [(List.perm_insertionSort jointLe ((jointMap m).map Prod.snd)).mem_iff]
  rw [List.mem_map]

theorem nonwall_not_in_jointFile {m : PModel} {eid : Nat}
    (hkey : eid ∈ m.elements.map Prod.fst)
    (hwall : eid ∉ wallEids m)
    (hdr : eid ∉ m.rigid_elements.map Prod.fst) :
    ∀ j ∈ partitionJoints m, eid ∉ jointFileElems m j := by
  intro j hj hmem
  obtain ⟨q, hq, rfl⟩ := mem_partitionJoints.mp hj
  unfold jointFileElems at hmem
  rw [List.mem_append] at hmem
  rcases hmem with h | h
  · rw [List.mem_filter, mem_insertionSort, List.mem_map] at h
    obtain ⟨⟨c, hc, hce⟩, _⟩ := h
    have hcb := jointMap_chains_from_build m q hq c hc
    exact hwall (hce ▸ (chain_wall_eids hcb).1)
  · rw [List.mem_filter] at h
    exact hdr ((lookup_isSome_mem _ _).mp h.2)

theorem basicParts_wall_not_mem (m : PModel) {eid : Nat}
    (hwall : eid ∈ wallEids m) :
    ∀ p ∈ basicParts m, eid ∉ p.element_ids := by
  intro p hp hmem
  obtain ⟨comp, hcomp, heq⟩ := basicParts_elem_mem m p hp
  rw [heq] at hmem
  exact ((rawParts_partition m).2 comp hcomp eid hmem).2 hwall

/-- C2: amended.  Provided element, rigid-element and mass eids do not
collide (distinct Nastran id spaces), every structural element outside
the boundary wall is written into exactly one part file and into no
joint file, and a part file's GRID cards are exactly the part's
node_ids that exist in the model.  The original claim fails for nodes:
joint files and shared.bdf contain no GRID cards, and a wall node
(a CBUSH endpoint) that no part's mesh or dependent-node augmentation
reaches belongs to no part's node_ids, so it is emitted in no file at
all; mass elements can likewise be duplicated or dropped. -/
theorem claim_C2_write_partition (m : PModel)
    (hdr : ∀ e ∈ m.elements.map Prod.fst, e ∉ m.rigid_elements.map Prod.fst)
    (hdm : ∀ e ∈ m.elements.map Prod.fst, e ∉ m.masses.map Prod.fst) :
    (∀ eid ∈ m.elements.map Prod.fst, eid ∉ wallEids m →
      (partitionParts m).countP
        (fun p => decide (eid ∈ partFileElems m p)) = 1
      ∧ ∀ j ∈ partitionJoints m, eid ∉ jointFileElems m j)
    ∧ (∀ p ∈ partitionParts m, ∀ nid,
        nid ∈ partFileNodes m p ↔ nid ∈ p.node_ids ∧ nid ∈ m.nodes) := by
  constructor
  · intro eid hkey hwall
    constructor
    · have hcong : (partitionParts m).countP
          (fun p => decide (eid ∈ partFileElems m p))
          = (partitionParts m).countP
          (fun p => decide (eid ∈ p.element_ids)) := by
        apply countP_congr_own
        intro p hp
        apply decide_eq_decide.mpr
        exact mem_partFileElems_structural hkey (hdr eid hkey) (hdm eid hkey)
      rw [hcong]
      show (assignedParts m).countP _ = 1
      rw [assignedParts_countP m eid (hdr eid hkey) (hdm eid hkey),
        basicParts_countP m eid]
      exact (rawParts_partition m).1 eid hkey hwall
    · exact nonwall_not_in_jointFile hkey hwall (hdr eid hkey)
  · intro p hp nid
    exact mem_partFileNodes

/-- Counterexample model: two one-element meshes joined through an
RBE2—CBUSH—RBE2 chain on wall nodes 3 and 4. -/
def exPM : PModel where
  elements :=
    [(1, { type := "CTRIA3", nodes := [some 1], pid := none }),
     (2, { type := "CTRIA3", nodes := [some 2], pid := none }),
     (10, { type := "CBUSH", nodes := [some 3, some 4], pid := none })]
  rigid_elements :=
    [(20, .rbe2 (some 3) [1]), (21, .rbe2 (some 4) [2])]
  masses := []
  nodes := [1, 2, 3, 4]

/-- C2 counterexample: wall node 3 exists in the model but is written
into no part file (and joint files and shared.bdf carry no GRID
cards), so it does not appear in exactly one emitted file. -/
theorem claim_C2_counterexample :
    3 ∈ exPM.nodes ∧
    (partitionParts exPM).countP
      (fun p => decide (3 ∈ partFileNodes exPM p)) = 0 := by decide

/-- C2 witness: in the same model, structural element 1 (not a wall
element) lands in exactly one part file. -/
theorem claim_C2_witness :
    (∀ e ∈ exPM.elements.map Prod.fst,
      e ∉ exPM.rigid_elements.map Prod.fst) ∧
    (∀ e ∈ exPM.elements.map Prod.fst, e ∉ exPM.masses.map Prod.fst) ∧
    (partitionParts exPM).countP
      (fun p => decide (1 ∈ partFileElems exPM p)) = 1 :=
  ⟨by decide, by decide,
    ((claim_C2_write_partition exPM (by decide) (by decide)).1 1
      (by decide) (by decide)).1⟩

-- ── cbush occurrence count across joints (C3) ──

theorem lookup_isSome_mem_gen {α β : Type} [BEq α] [LawfulBEq α]
    (l : List (α × β)) (k : α) :
    (l.lookup k).isSome ↔ k ∈ l.map Prod.fst := by
  induction l with
  | nil => simp [List.lookup]
  | cons p t ih =>
      rw [List.lookup, List.map_cons, List.mem_cons]
      by_cases h : k = p.1
      · have hb : (k == p.1) = true := beq_iff_eq.mpr h
        rw [hb]
        simp [h]
      · have hb : (k == p.1) = false := beq_eq_false_iff_ne.mpr h
        rw [hb]
        simp [h, ih]

theorem countP_key_one {jm : List ((Nat × Nat) × Joint)} {K : Nat × Nat}
    (hnd : (jm.map Prod.fst).Nodup) (hK : K ∈ jm.map Prod.fst) :
    jm.countP (fun q => decide (q.1 = K)) = 1 := by
  induction jm with
  | nil => simp at hK
  | cons q t ih =>
      rw [List.map_cons] at hnd hK
      have hnd' := List.nodup_cons.mp hnd
      rw [List.countP_cons]
      rcases List.mem_cons.mp hK with h | h
      · have hq : (decide (q.1 = K) : Bool) = true := decide_eq_true h.symm
        have hz : t.countP (fun q' => decide (q'.1 = K)) = 0 := by
          rw [List.countP_eq_zero]
          intro a ha hda
          have ha1 : a.1 = K := of_decide_eq_true hda
          apply hnd'.1
          rw [← show a.1 = q.1 from ha1.trans h]
          exact List.mem_map.mpr ⟨a, ha, rfl⟩
        rw [hz, hq]
        simp
      · have hne : q.1 ≠ K := by
          intro he
          exact hnd'.1 (he ▸ h)
        have hq : (decide (q.1 = K) : Bool) = false := decide_eq_false hne
        rw [ih hnd'.2 h, hq]
        simp

theorem addChainToMap_keys (m : PModel) (jm : List ((Nat × Nat) × Joint))
    (pa pb : Nat) (c : Chain) (hnd : (jm.map Prod.fst).Nodup) :
    ((addChainToMap m jm pa pb c).map Prod.fst).Nodup := by
  unfold addChainToMap
  by_cases hlk : ((jm.lookup (min pa pb, max pa pb)).isSome : Prop)
  · rw [if_pos hlk]
    have hkeys : (jm.map (fun q =>
        if q.1 = (min pa pb, max pa pb) then (q.1, extendJoint m c q.2)
        else q)).map Prod.fst = jm.map Prod.fst := by
      rw [List.map_map]
      apply List.map_congr_left
      intro q hq
      show Prod.fst (if q.1 = (min pa pb, max pa pb)
        then (q.1, extendJoint m c q.2) else q) = q.1
      by_cases hkey : q.1 = (min pa pb, max pa pb)
      · rw [if_pos hkey]
      · rw [if_neg hkey]
    rw [hkeys]
    exact hnd
  · rw [if_neg hlk, List.map_append]
    refine List.Nodup.append hnd (List.nodup_singleton _) ?_
    intro k hk hk2
    rw [List.map_cons, List.map_nil, List.mem_singleton] at hk2
    subst hk2
    exact hlk ((lookup_isSome_mem_gen _ _).mpr hk)

theorem addChainToMap_cnt_foreign (m : PModel)
    (jm : List ((Nat × Nat) × Joint)) (pa pb : Nat) (c : Chain)
    (ceid : Nat) (hne : c.cbush_eid ≠ ceid) :
    (addChainToMap m jm pa pb c).countP
      (fun q => decide (ceid ∈ q.2.chains.map (fun c' => c'.cbush_eid)))
    = jm.countP
      (fun q => decide (ceid ∈ q.2.chains.map (fun c' => c'.cbush_eid))) := by
  unfold addChainToMap
  by_cases hlk : ((jm.lookup (min pa pb, max pa pb)).isSome : Prop)
  · rw [if_pos hlk, List.countP_map]
    apply countP_congr_own
    intro q hq
    show decide (ceid ∈ (if q.1 = (min pa pb, max pa pb)
        then (q.1, extendJoint m c q.2) else q).2.chains.map
        (fun c' => c'.cbush_eid))
      = decide (ceid ∈ q.2.chains.map (fun c' => c'.cbush_eid))
    by_cases hkey : q.1 = (min pa pb, max pa pb)
    · rw [if_pos hkey]
      apply decide_eq_decide.mpr
      show ceid ∈ (q.2.chains ++ [c]).map (fun c' => c'.cbush_eid) ↔ _
      rw [List.map_append, List.mem_append, List.map_cons, List.map_nil,
        List.mem_singleton]
      constructor
      · rintro (h | h)
        · exact h
        · exact absurd h.symm hne
      · exact Or.inl
    · rw [if_neg hkey]
  · rw [if_neg hlk, List.countP_append]
    have h0 : List.countP
        (fun q => decide (ceid ∈ q.2.chains.map (fun c' => c'.cbush_eid)))
        [((min pa pb, max pa pb), newJoint m (min pa pb) (max pa pb) c)]
        = 0 := by
      rw [List.countP_eq_zero]
      intro a ha hda
      rw [List.mem_singleton] at ha
      subst ha
      have hmm : ceid ∈ [c].map (fun c' => c'.cbush_eid) :=
        of_decide_eq_true hda
      rw [List.map_cons, List.map_nil, List.mem_singleton] at hmm
      exact hne hmm.symm
    rw [h0, Nat.add_zero]

theorem addChainToMap_cnt_self (m : PModel)
    (jm : List ((Nat × Nat) × Joint)) (pa pb : Nat) (c0 : Chain)
    (hz : ∀ q ∈ jm,
      c0.cbush_eid ∉ (q : (Nat × Nat) × Joint).2.chains.map
        (fun c' => c'.cbush_eid))
    (hnd : (jm.map Prod.fst).Nodup) :
    (addChainToMap m jm pa pb c0).countP
      (fun q => decide (c0.cbush_eid ∈ q.2.chains.map
        (fun c' => c'.cbush_eid))) = 1 := by
  unfold addChainToMap
  by_cases hlk : ((jm.lookup (min pa pb, max pa pb)).isSome : Prop)
  · rw [if_pos hlk, List.countP_map]
    have hcong : jm.countP ((fun q =>
        decide (c0.cbush_eid ∈ q.2.chains.map (fun c' => c'.cbush_eid)))
        ∘ (fun q => if q.1 = (min pa pb, max pa pb)
          then (q.1, extendJoint m c0 q.2) else q))
        = jm.countP (fun q => decide (q.1 = (min pa pb, max pa pb))) := by
      apply countP_congr_own
      intro q hq
      show decide (c0.cbush_eid ∈ (if q.1 = (min pa pb, max pa pb)
          then (q.1, extendJoint m c0 q.2) else q).2.chains.map
          (fun c' => c'.cbush_eid))
        = decide (q.1 = (min pa pb, max pa pb))
      by_cases hkey : q.1 = (min pa pb, max pa pb)
      · rw [if_pos hkey]
        have l1 : decide (c0.cbush_eid ∈
            (q.2.chains ++ [c0]).map (fun c' => c'.cbush_eid)) = true := by
          apply decide_eq_true
          rw [List.map_append]
          exact List.mem_append_right _ (by
            rw [List.map_cons, List.map_nil]
            exact List.mem_singleton.mpr rfl)
        rw [show decide (c0.cbush_eid ∈
            ((q.1, extendJoint m c0 q.2) : (Nat × Nat) × Joint).2.chains.map
            (fun c' => c'.cbush_eid)) = decide (c0.cbush_eid ∈
            (q.2.chains ++ [c0]).map (fun c' => c'.cbush_eid)) from rfl,
          l1, decide_eq_true hkey]
      · rw [if_neg hkey, decide_eq_false (hz q hq), decide_eq_false hkey]
    rw [hcong]
    exact countP_key_one hnd ((lookup_isSome_mem_gen _ _).mp hlk)
  · rw [if_neg hlk, List.countP_append]
    have hz0 : jm.countP (fun q => decide (c0.cbush_eid ∈
        q.2.chains.map (fun c' => c'.cbush_eid))) = 0 := by
      rw [List.countP_eq_zero]
      intro a ha hda
      exact hz a ha (of_decide_eq_true hda)
    have h1 : List.countP
        (fun q => decide (c0.cbush_eid ∈ q.2.chains.map
          (fun c' => c'.cbush_eid)))
        [((min pa pb, max pa pb), newJoint m (min pa pb) (max pa pb) c0)]
        = 1 := by
      rw [List.countP_cons]
      have hmc : decide (c0.cbush_eid ∈ [c0].map (fun c' => c'.cbush_eid))
          = true := by
        apply decide_eq_true
        rw [List.map_cons, List.map_nil]
        exact List.mem_singleton.mpr rfl
      have hmc2 : decide (c0.cbush_eid ∈ List.map (fun c' => c'.cbush_eid)
          ((min pa pb, max pa pb),
            newJoint m (min pa pb) (max pa pb) c0).2.chains) = true := hmc
      rw [List.countP_nil, hmc2]
      simp
    rw [hz0, h1]

/-- Folding foreign chains (different CBUSH eid) through the joint map
preserves both the occurrence count of `ceid` and key uniqueness. -/
theorem jointFold_preserve (m : PModel) (ceid : Nat) :
    ∀ (cs : List Chain) (jm : List ((Nat × Nat) × Joint)),
    (∀ c ∈ cs, c.cbush_eid ≠ ceid) → (jm.map Prod.fst).Nodup →
    ((cs.foldl (fun jm c =>
        match findPartForNodes (nodeToPart (basicParts m)) c.a_dep,
            findPartForNodes (nodeToPart (basicParts m)) c.b_dep with
        | some pa, some pb =>
            if pa = pb then jm else addChainToMap m jm pa pb c
        | _, _ => jm) jm).countP
      (fun q => decide (ceid ∈ q.2.chains.map (fun c' => c'.cbush_eid)))
      = jm.countP
      (fun q => decide (ceid ∈ q.2.chains.map (fun c' => c'.cbush_eid))))
    ∧ ((cs.foldl (fun jm c =>
        match findPartForNodes (nodeToPart (basicParts m)) c.a_dep,
            findPartForNodes (nodeToPart (basicParts m)) c.b_dep with
        | some pa, some pb =>
            if pa = pb then jm else addChainToMap m jm pa pb c
        | _, _ => jm) jm).map Prod.fst).Nodup := by
  intro cs
  induction cs with
  | nil => intro jm _ hnd; exact ⟨rfl, hnd⟩
  | cons c t ih =>
      intro jm hfor hnd
      rw [List.foldl_cons]
      have hfor' : ∀ c' ∈ t, c'.cbush_eid ≠ ceid :=
        fun c' hc' => hfor c' (List.mem_cons_of_mem _ hc')
      have hstep : (match findPartForNodes (nodeToPart (basicParts m))
            c.a_dep, findPartForNodes (nodeToPart (basicParts m)) c.b_dep with
          | some pa, some pb =>
              if pa = pb then jm else addChainToMap m jm pa pb c
          | _, _ => jm) = jm ∨
          ∃ pa pb, (match findPartForNodes (nodeToPart (basicParts m))
            c.a_dep, findPartForNodes (nodeToPart (basicParts m)) c.b_dep with
          | some pa, some pb =>
              if pa = pb then jm else addChainToMap m jm pa pb c
          | _, _ => jm) = addChainToMap m jm pa pb c := by
        cases hA : findPartForNodes (nodeToPart (basicParts m)) c.a_dep with
        | none => exact Or.inl rfl
        | some pa =>
            cases hB : findPartForNodes (nodeToPart (basicParts m))
                c.b_dep with
            | none => exact Or.inl rfl
            | some pb =>
                by_cases hpp : pa = pb
                · exact Or.inl (if_pos hpp)
                · exact Or.inr ⟨pa, pb, if_neg hpp⟩
      rcases hstep with heq | ⟨pa, pb, heq⟩
      · rw [heq]
        exact ih jm hfor' hnd
      · rw [heq]
        obtain ⟨ihc, ihn⟩ := ih (addChainToMap m jm pa pb c) hfor'
          (addChainToMap_keys m jm pa pb c hnd)
        refine ⟨?_, ihn⟩
        rw [ihc, addChainToMap_cnt_foreign m jm pa pb c ceid
          (hfor c (List.mem_cons_self _ _))]

/-- The fold of `buildChains` appends chains whose CBUSH eids trace a
sub-sequence of the element keys. -/
theorem buildChains_step_shape (m : PModel) (acc : List Chain)
    (p : Nat × PElem) :
    (if p.2.type = "CBUSH" then
      match cbushNodes p.2 with
      | (some ga, some gb) =>
          if gb = 0 then acc
          else
            match (rbe2ByInd m).lookup ga, (rbe2ByInd m).lookup gb with
            | some a, some b =>
                acc ++ [⟨p.1, ga, gb, a.1, rbe2DependentNodes a.2,
                  b.1, rbe2DependentNodes b.2⟩]
            | _, _ => acc
      | _ => acc
    else acc) = acc ∨
    ∃ ch : Chain, (if p.2.type = "CBUSH" then
      match cbushNodes p.2 with
      | (some ga, some gb) =>
          if gb = 0 then acc
          else
            match (rbe2ByInd m).lookup ga, (rbe2ByInd m).lookup gb with
            | some a, some b =>
                acc ++ [⟨p.1, ga, gb, a.1, rbe2DependentNodes a.2,
                  b.1, rbe2DependentNodes b.2⟩]
            | _, _ => acc
      | _ => acc
    else acc) = acc ++ [ch] ∧ ch.cbush_eid = p.1 := by
  by_cases hty : p.2.type = "CBUSH"
  · rw [if_pos hty]
    split
    all_goals try exact Or.inl rfl
    split
    all_goals try exact Or.inl rfl
    split
    all_goals try exact Or.inl rfl
    exact Or.inr ⟨_, rfl, rfl⟩
  · rw [if_neg hty]
    exact Or.inl rfl

theorem buildChains_tail (m : PModel) :
    ∀ (l : List (Nat × PElem)) (acc : List Chain),
    ∃ tail, l.foldl (fun acc p =>
      if p.2.type = "CBUSH" then
        match cbushNodes p.2 with
        | (some ga, some gb) =>
            if gb = 0 then acc
            else
              match (rbe2ByInd m).lookup ga, (rbe2ByInd m).lookup gb with
              | some a, some b =>
                  acc ++ [⟨p.1, ga, gb, a.1, rbe2DependentNodes a.2,
                    b.1, rbe2DependentNodes b.2⟩]
              | _, _ => acc
        | _ => acc
      else acc) acc = acc ++ tail ∧
      (tail.map (fun c => c.cbush_eid)).Sublist (l.map Prod.fst) := by
  intro l
  induction l with
  | nil => intro acc; exact ⟨[], by simp, by simp⟩
  | cons p t ih =>
      intro acc
      rw [List.foldl_cons]
      rcases buildChains_step_shape m acc p with heq | ⟨ch, heq, hch⟩
      · rw [heq]
        obtain ⟨tail, h1, h2⟩ := ih acc
        exact ⟨tail, h1, List.Sublist.cons p.1 h2⟩
      · rw [heq]
        obtain ⟨tail, h1, h2⟩ := ih (acc ++ [ch])
        refine ⟨ch :: tail, ?_, ?_⟩
        · rw [h1, List.append_assoc]
          rfl
        · rw [List.map_cons, hch, List.map_cons]
          exact List.Sublist.cons₂ p.1 h2

theorem buildChains_cbush_sublist (m : PModel) :
    ((buildChains m).map (fun c => c.cbush_eid)).Sublist
      (m.elements.map Prod.fst) := by
  obtain ⟨tail, h1, h2⟩ := buildChains_tail m m.elements []
  have : buildChains m = tail := by
    unfold buildChains
    rw [h1]
    rfl
  rw [this]
  exact h2

theorem chain_cbush_key {m : PModel} {c : Chain}
    (hc : c ∈ buildChains m) : c.cbush_eid ∈ m.elements.map Prod.fst :=
  (buildChains_cbush_sublist m).subset
    (List.mem_map.mpr ⟨c, hc, rfl⟩)

/-- How often a chain's CBUSH eid occurs across the joint map: once
when its two sides vote to distinct parts, never otherwise. -/
theorem jointMap_count (m : PModel)
    (hnodup : ((buildChains m).map (fun c => c.cbush_eid)).Nodup)
    {c0 : Chain} (hc0 : c0 ∈ buildChains m) :
    (jointMap m).countP
      (fun q => decide (c0.cbush_eid ∈ q.2.chains.map
        (fun c' => c'.cbush_eid)))
    = (match findPartForNodes (nodeToPart (basicParts m)) c0.a_dep,
        findPartForNodes (nodeToPart (basicParts m)) c0.b_dep with
      | some pa, some pb => if pa = pb then 0 else 1
      | _, _ => 0) := by
  obtain ⟨pre, post, hsplit⟩ := List.append_of_mem hc0
  unfold jointMap
  rw [hsplit, List.foldl_append, List.foldl_cons]
  have hforeign : ∀ c' ∈ pre ++ post, c'.cbush_eid ≠ c0.cbush_eid := by
    have hnd2 := hnodup
    rw [hsplit, List.map_append, List.map_cons] at hnd2
    obtain ⟨hp, hcp, hdisj⟩ := List.nodup_append.mp hnd2
    intro c' hc' heq
    rw [List.mem_append] at hc'
    rcases hc' with hc' | hc'
    · exact hdisj (heq ▸ List.mem_map.mpr ⟨c', hc', rfl⟩)
        (List.mem_cons_self _ _)
    · have hc3 := List.nodup_cons.mp hcp
      exact hc3.1 (heq ▸ List.mem_map.mpr ⟨c', hc', rfl⟩)
  have hpre := jointFold_preserve m c0.cbush_eid pre []
    (fun c' hc' => hforeign c' (List.mem_append_left _ hc'))
    List.nodup_nil
  have hzero : (pre.foldl (fun jm c =>
        match findPartForNodes (nodeToPart (basicParts m)) c.a_dep,
            findPartForNodes (nodeToPart (basicParts m)) c.b_dep with
        | some pa, some pb =>
            if pa = pb then jm else addChainToMap m jm pa pb c
        | _, _ => jm) []).countP
      (fun q => decide (c0.cbush_eid ∈ q.2.chains.map
        (fun c' => c'.cbush_eid))) = 0 := by
    rw [hpre.1]
    rfl
  have hnodupk := hpre.2
  cases hA : findPartForNodes (nodeToPart (basicParts m)) c0.a_dep with
  | none =>
      have hpost := jointFold_preserve m c0.cbush_eid post _
        (fun c' hc' => hforeign c' (List.mem_append_right _ hc'))
        hnodupk
      rw [hpost.1]
      exact hzero
  | some pa =>
      cases hB : findPartForNodes (nodeToPart (basicParts m)) c0.b_dep with
      | none =>
          have hpost := jointFold_preserve m c0.cbush_eid post _
            (fun c' hc' => hforeign c' (List.mem_append_right _ hc'))
            hnodupk
          rw [hpost.1]
          exact hzero
      | some pb =>
          show (post.foldl (fun jm c =>
        match findPartForNodes (nodeToPart (basicParts m)) c.a_dep,
            findPartForNodes (nodeToPart (basicParts m)) c.b_dep with
        | some pa, some pb =>
            if pa = pb then jm else addChainToMap m jm pa pb c
        | _, _ => jm)
              (if pa = pb then (pre.foldl (fun jm c =>
        match findPartForNodes (nodeToPart (basicParts m)) c.a_dep,
            findPartForNodes (nodeToPart (basicParts m)) c.b_dep with
        | some pa, some pb =>
            if pa = pb then jm else addChainToMap m jm pa pb c
        | _, _ => jm) [])
                else addChainToMap m (pre.foldl (fun jm c =>
        match findPartForNodes (nodeToPart (basicParts m)) c.a_dep,
            findPartForNodes (nodeToPart (basicParts m)) c.b_dep with
        | some pa, some pb =>
            if pa = pb then jm else addChainToMap m jm pa pb c
        | _, _ => jm) []) pa pb c0)).countP
              (fun q => decide (c0.cbush_eid ∈ q.2.chains.map
                (fun c' => c'.cbush_eid)))
            = (if pa = pb then 0 else 1)
          by_cases hpp : pa = pb
          · simp only [if_pos hpp]
            have hpost := jointFold_preserve m c0.cbush_eid post _
              (fun c' hc' => hforeign c' (List.mem_append_right _ hc'))
              hnodupk
            rw [hpost.1]
            exact hzero
          · simp only [if_neg hpp]
            have hself := addChainToMap_cnt_self m (pre.foldl (fun jm c =>
        match findPartForNodes (nodeToPart (basicParts m)) c.a_dep,
            findPartForNodes (nodeToPart (basicParts m)) c.b_dep with
        | some pa, some pb =>
            if pa = pb then jm else addChainToMap m jm pa pb c
        | _, _ => jm) []) pa pb c0
              (by
                intro q hq hmem
                have hz2 := hzero
                rw [List.countP_eq_zero] at hz2
                exact hz2 q hq (decide_eq_true hmem))
              hnodupk
            have hpost := jointFold_preserve m c0.cbush_eid post _
              (fun c' hc' => hforeign c' (List.mem_append_right _ hc'))
              (addChainToMap_keys m (pre.foldl (fun jm c =>
        match findPartForNodes (nodeToPart (basicParts m)) c.a_dep,
            findPartForNodes (nodeToPart (basicParts m)) c.b_dep with
        | some pa, some pb =>
            if pa = pb then jm else addChainToMap m jm pa pb c
        | _, _ => jm) []) pa pb c0 hnodupk)
            rw [hpost.1]
            exact hself

theorem mem_jointFileElems_cbush {m : PModel} {j : Joint} {ceid : Nat}
    (hkey : ceid ∈ m.elements.map Prod.fst)
    (hdr : ceid ∉ m.rigid_elements.map Prod.fst) :
    ceid ∈ jointFileElems m j ↔
      ceid ∈ j.chains.map (fun c => c.cbush_eid) := by
  unfold jointFileElems
  rw [List.mem_append]
  constructor
  · rintro (h | h)
    · rw [List.mem_filter, mem_insertionSort] at h
      exact h.1
    · rw [List.mem_filter] at h
      exact absurd ((lookup_isSome_mem _ _).mp h.2) hdr
  · intro h
    left
    rw [List.mem_filter, mem_insertionSort]
    exact ⟨h, (lookup_isSome_mem _ _).mpr hkey⟩

/-- C3: amended.  A CBUSH whose live endpoints are both independent
nodes of RBE2s (i.e. one that yields a boundary chain) joins the wall
set and is never written into a part file; it is written into exactly
one joint file when the two RBE2s' dependent nodes vote to two distinct
parts, and into NO file at all when both sides land in the same part
(or a side cannot be assigned) — in that case the chain is dropped with
a warning rather than emitted. -/
theorem claim_C3_cbush_joint (m : PModel)
    (hnd : (m.elements.map Prod.fst).Nodup)
    (hdr : ∀ e ∈ m.elements.map Prod.fst,
      e ∉ m.rigid_elements.map Prod.fst)
    (hdm : ∀ e ∈ m.elements.map Prod.fst, e ∉ m.masses.map Prod.fst)
    (c : Chain) (hc : c ∈ buildChains m) :
    c.cbush_eid ∈ wallEids m
    ∧ (∀ p ∈ partitionParts m, c.cbush_eid ∉ partFileElems m p)
    ∧ ((partitionJoints m).countP
        (fun j => decide (c.cbush_eid ∈ jointFileElems m j))
      = (match findPartForNodes (nodeToPart (basicParts m)) c.a_dep,
          findPartForNodes (nodeToPart (basicParts m)) c.b_dep with
        | some pa, some pb => if pa = pb then 0 else 1
        | _, _ => 0)) := by
  have hkey : c.cbush_eid ∈ m.elements.map Prod.fst := chain_cbush_key hc
  have hwall := (chain_wall_eids hc).1
  refine ⟨hwall, ?_, ?_⟩
  · intro p hp
    apply not_mem_partFileElems ?hel (hdm _ hkey)
    case hel =>
      exact assignedParts_not_mem m c.cbush_eid (hdr _ hkey) (hdm _ hkey)
        (basicParts_wall_not_mem m hwall) p hp
  · have hcong : (partitionJoints m).countP
        (fun j => decide (c.cbush_eid ∈ jointFileElems m j))
        = (partitionJoints m).countP
        (fun j => decide (c.cbush_eid ∈ j.chains.map
          (fun c' => c'.cbush_eid))) := by
      apply countP_congr_own
      intro j hj
      apply decide_eq_decide.mpr
      exact mem_jointFileElems_cbush hkey (hdr _ hkey)
    rw [hcong]
    have hperm : (partitionJoints m).countP
        (fun j => decide (c.cbush_eid ∈ j.chains.map
          (fun c' => c'.cbush_eid)))
        = ((jointMap m).map Prod.snd).countP
        (fun j => decide (c.cbush_eid ∈ j.chains.map
          (fun c' => c'.cbush_eid))) := by
      unfold partitionJoints
      exact (List.perm_insertionSort jointLe _).countP_eq _
    rw [hperm, List.countP_map]
    have hnodupc : ((buildChains m).map (fun c' => c'.cbush_eid)).Nodup :=
      hnd.sublist (buildChains_cbush_sublist m)
    have := jointMap_count m hnodupc hc
    rw [← this]
    apply countP_congr_own
    intro q hq
    rfl

/-- Counterexample model for C3: one triangle holding both dependent
node sets, so the chain's two sides vote to the same part. -/
def exPM3 : PModel where
  elements :=
    [(1, { type := "CTRIA3", nodes := [some 1, some 2], pid := none }),
     (10, { type := "CBUSH", nodes := [some 3, some 4], pid := none })]
  rigid_elements :=
    [(20, .rbe2 (some 3) [1]), (21, .rbe2 (some 4) [2])]
  masses := []
  nodes := [1, 2, 3, 4]

/-- C3 counterexample: CBUSH 10 satisfies the claim's hypotheses (live
GB, both endpoints independent nodes of RBE2s — it forms the single
boundary chain), yet both sides land in part 1, no joint is created,
and the CBUSH appears in no joint file and no part file. -/
theorem claim_C3_counterexample :
    (buildChains exPM3).map (fun c => c.cbush_eid) = [10]
    ∧ partitionJoints exPM3 = []
    ∧ (partitionParts exPM3).countP
        (fun p => decide (10 ∈ partFileElems exPM3 p)) = 0 := by decide

/-- C3 witness: in the two-part model the chain's CBUSH 10 is in the
wall, in no part file, and in exactly one joint file. -/
theorem claim_C3_witness :
    (exPM.elements.map Prod.fst).Nodup ∧
    (partitionJoints exPM).countP
      (fun j => decide (10 ∈ jointFileElems exPM j)) = 1 :=
  ⟨by decide,
    ((claim_C3_cbush_joint exPM (by decide) (by decide) (by decide)
      ⟨10, 3, 4, 20, [1], 21, [2]⟩ (by decide)).2.2).trans (by decide)⟩

-- ── merge_parts (C4) ──

/-- A `PartitionResult` as `merge_parts` sees it. -/
structure PResult where
  parts : List Part
  joints : List Joint
deriving DecidableEq, Repr

/-- `min(merging, key=lambda p: p.part_id)`: first part attaining the
minimal id. -/
def minByPartId (ps : List Part) : Option Part :=
  ps.foldl (fun best p =>
    match best with
    | none => some p
    | some b => if p.part_id < b.part_id then some p else some b) none

/-- The merged `Part`: union of the merging parts' contents, then the
absorbed joints' chain elements, chain nodes and PBUSH pids. -/
def mergedPart (res : PResult) (ids : List Nat) (base : Part) : Part :=
  (res.joints.filter (fun j =>
      j.part_a_id ∈ listToSet ids ∧ j.part_b_id ∈ listToSet ids)).foldl
    (fun acc j =>
      match j.chains.foldl (fun a c =>
        { a with
          element_ids := insSet c.rbe2_b_eid (insSet c.rbe2_a_eid
            (insSet c.cbush_eid a.element_ids))
          node_ids := unionSet (unionSet (insSet c.gb (insSet c.ga
            a.node_ids)) c.a_dep) c.b_dep }) acc with
      | acc2 =>
          { acc2 with
            property_ids := unionSet acc2.property_ids j.pbush_pids })
    ((res.parts.filter (fun p => p.part_id ∈ listToSet ids)).foldl
      (fun acc p =>
        { acc with
          element_ids := unionSet acc.element_ids p.element_ids
          node_ids := unionSet acc.node_ids p.node_ids
          property_ids := unionSet acc.property_ids p.property_ids })
      { part_id := base.part_id, element_ids := [], node_ids := []
        property_ids := [] })

/-- Re-key a remaining joint: sides in the merge set become the merged
id, then the pair is swapped if needed so that `part_a < part_b`. -/
def rekeyJoint (bid : Nat) (st : List Nat) (j : Joint) : Joint :=
  if (if j.part_a_id ∈ st then bid else j.part_a_id)
      > (if j.part_b_id ∈ st then bid else j.part_b_id) then
    { j with
      part_a_id := if j.part_b_id ∈ st then bid else j.part_b_id
      part_b_id := if j.part_a_id ∈ st then bid else j.part_a_id }
  else
    { j with
      part_a_id := if j.part_a_id ∈ st then bid else j.part_a_id
      part_b_id := if j.part_b_id ∈ st then bid else j.part_b_id }

/-- Sorting order for parts (`key=lambda p: p.part_id`). -/
def partLe (a b : Part) : Prop := a.part_id ≤ b.part_id

instance : DecidableRel partLe := fun a b => by
  unfold partLe
  infer_instance

instance : IsTotal Part partLe where
  total a b := by
    unfold partLe
    omega

instance : IsTrans Part partLe where
  trans a b c hab hbc := by
    unfold partLe at hab hbc ⊢
    omega

/-- `merge_parts`. -/
def mergeParts (res : PResult) (ids : List Nat) : PResult :=
  if (listToSet ids).length < 2 then res
  else if (res.parts.filter
      (fun p => p.part_id ∈ listToSet ids)).length < 2 then res
  else
    match minByPartId (res.parts.filter
        (fun p => p.part_id ∈ listToSet ids)) with
    | none => res
    | some base =>
        { parts := ((res.parts.filter
              (fun p => p.part_id ∉ listToSet ids))
            ++ [mergedPart res ids base]).insertionSort partLe
          joints := ((res.joints.filter (fun j =>
              ¬(j.part_a_id ∈ listToSet ids ∧
                j.part_b_id ∈ listToSet ids))).map
            (rekeyJoint base.part_id (listToSet ids))).insertionSort
            jointLe }

theorem minByPartId_aux :
    ∀ (l : List Part) (b0 : Part),
    ∃ b, l.foldl (fun best p =>
        match best with
        | none => some p
        | some b => if p.part_id < b.part_id then some p else some b)
      (some b0) = some b
      ∧ (b = b0 ∨ b ∈ l) ∧ b.part_id ≤ b0.part_id
      ∧ ∀ p ∈ l, b.part_id ≤ p.part_id := by
  intro l
  induction l with
  | nil => intro b0; exact ⟨b0, rfl, Or.inl rfl, Nat.le_refl _, by simp⟩
  | cons p t ih =>
      intro b0
      rw [List.foldl_cons]
      by_cases hlt : p.part_id < b0.part_id
      · obtain ⟨b, hb, hmem, hle, hall⟩ := ih p
        refine ⟨b, ?_, ?_, ?_, ?_⟩
        · rw [show (match some b0 with
            | none => some p
            | some b => if p.part_id < b.part_id then some p else some b)
            = some p from if_pos hlt]
          exact hb
        · rcases hmem with rfl | hm
          · exact Or.inr (List.mem_cons_self _ _)
          · exact Or.inr (List.mem_cons_of_mem _ hm)
        · omega
        · intro p' hp'
          rcases List.mem_cons.mp hp' with rfl | hp'
          · exact hle
          · exact hall p' hp'
      · obtain ⟨b, hb, hmem, hle, hall⟩ := ih b0
        refine ⟨b, ?_, ?_, hle, ?_⟩
        · rw [show (match some b0 with
            | none => some p
            | some b => if p.part_id < b.part_id then some p else some b)
            = some b0 from if_neg hlt]
          exact hb
        · rcases hmem with rfl | hm
          · exact Or.inl rfl
          · exact Or.inr (List.mem_cons_of_mem _ hm)
        · intro p' hp'
          rcases List.mem_cons.mp hp' with rfl | hp'
          · omega
          · exact hall p' hp'

theorem minByPartId_spec (l : List Part) (hne : l ≠ []) :
    ∃ b, minByPartId l = some b ∧ b ∈ l ∧
      ∀ p ∈ l, b.part_id ≤ p.part_id := by
  cases l with
  | nil => exact absurd rfl hne
  | cons x xs =>
      obtain ⟨b, hb, hmem, hle, hall⟩ := minByPartId_aux xs x
      refine ⟨b, ?_, ?_, ?_⟩
      · unfold minByPartId
        rw [List.foldl_cons]
        exact hb
      · rcases hmem with rfl | hm
        · exact List.mem_cons_self _ _
        · exact List.mem_cons_of_mem _ hm
      · intro p hp
        rcases List.mem_cons.mp hp with rfl | hp
        · exact hle
        · exact hall p hp

theorem mergeFold_parts_mono (merging : List Part) :
    ∀ (acc : Part),
    ((merging.foldl (fun acc p =>
        { acc with
          element_ids := unionSet acc.element_ids p.element_ids
          node_ids := unionSet acc.node_ids p.node_ids
          property_ids := unionSet acc.property_ids p.property_ids })
      acc).part_id = acc.part_id)
    ∧ (∀ x, (x ∈ acc.element_ids → x ∈ (merging.foldl (fun acc p =>
        { acc with
          element_ids := unionSet acc.element_ids p.element_ids
          node_ids := unionSet acc.node_ids p.node_ids
          property_ids := unionSet acc.property_ids p.property_ids })
      acc).element_ids)
      ∧ (x ∈ acc.node_ids → x ∈ (merging.foldl (fun acc p =>
        { acc with
          element_ids := unionSet acc.element_ids p.element_ids
          node_ids := unionSet acc.node_ids p.node_ids
          property_ids := unionSet acc.property_ids p.property_ids })
      acc).node_ids)
      ∧ (x ∈ acc.property_ids → x ∈ (merging.foldl (fun acc p =>
        { acc with
          element_ids := unionSet acc.element_ids p.element_ids
          node_ids := unionSet acc.node_ids p.node_ids
          property_ids := unionSet acc.property_ids p.property_ids })
      acc).property_ids))
    ∧ (∀ p' ∈ merging, ∀ x,
      (x ∈ p'.element_ids → x ∈ (merging.foldl (fun acc p =>
        { acc with
          element_ids := unionSet acc.element_ids p.element_ids
          node_ids := unionSet acc.node_ids p.node_ids
          property_ids := unionSet acc.property_ids p.property_ids })
      acc).element_ids)
      ∧ (x ∈ p'.node_ids → x ∈ (merging.foldl (fun acc p =>
        { acc with
          element_ids := unionSet acc.element_ids p.element_ids
          node_ids := unionSet acc.node_ids p.node_ids
          property_ids := unionSet acc.property_ids p.property_ids })
      acc).node_ids)
      ∧ (x ∈ p'.property_ids → x ∈ (merging.foldl (fun acc p =>
        { acc with
          element_ids := unionSet acc.element_ids p.element_ids
          node_ids := unionSet acc.node_ids p.node_ids
          property_ids := unionSet acc.property_ids p.property_ids })
      acc).property_ids)) := by
  induction merging with
  | nil =>
      intro acc
      exact ⟨rfl, fun x => ⟨id, id, id⟩, by simp⟩
  | cons p t ih =>
      intro acc
      rw [List.foldl_cons]
      obtain ⟨ihid, ihacc, ihall⟩ := ih
        { acc with
          element_ids := unionSet acc.element_ids p.element_ids
          node_ids := unionSet acc.node_ids p.node_ids
          property_ids := unionSet acc.property_ids p.property_ids }
      refine ⟨ihid, ?_, ?_⟩
      · intro x
        refine ⟨?_, ?_, ?_⟩
        · intro hx
          exact (ihacc x).1 (mem_unionSet.mpr (Or.inl hx))
        · intro hx
          exact (ihacc x).2.1 (mem_unionSet.mpr (Or.inl hx))
        · intro hx
          exact (ihacc x).2.2 (mem_unionSet.mpr (Or.inl hx))
      · intro p' hp' x
        rcases List.mem_cons.mp hp' with rfl | hp'
        · refine ⟨?_, ?_, ?_⟩
          · intro hx
            exact (ihacc x).1 (mem_unionSet.mpr (Or.inr hx))
          · intro hx
            exact (ihacc x).2.1 (mem_unionSet.mpr (Or.inr hx))
          · intro hx
            exact (ihacc x).2.2 (mem_unionSet.mpr (Or.inr hx))
        · exact ihall p' hp' x

theorem chainsFold_mono (cs : List Chain) :
    ∀ (acc : Part),
    ((cs.foldl (fun a c =>
        { a with
          element_ids := insSet c.rbe2_b_eid (insSet c.rbe2_a_eid
            (insSet c.cbush_eid a.element_ids))
          node_ids := unionSet (unionSet (insSet c.gb (insSet c.ga
            a.node_ids)) c.a_dep) c.b_dep }) acc).part_id = acc.part_id)
    ∧ ((cs.foldl (fun a c =>
        { a with
          element_ids := insSet c.rbe2_b_eid (insSet c.rbe2_a_eid
            (insSet c.cbush_eid a.element_ids))
          node_ids := unionSet (unionSet (insSet c.gb (insSet c.ga
            a.node_ids)) c.a_dep) c.b_dep }) acc).property_ids
      = acc.property_ids)
    ∧ (∀ x, (x ∈ acc.element_ids → x ∈ (cs.foldl (fun a c =>
        { a with
          element_ids := insSet c.rbe2_b_eid (insSet c.rbe2_a_eid
            (insSet c.cbush_eid a.element_ids))
          node_ids := unionSet (unionSet (insSet c.gb (insSet c.ga
            a.node_ids)) c.a_dep) c.b_dep }) acc).element_ids)
      ∧ (x ∈ acc.node_ids → x ∈ (cs.foldl (fun a c =>
        { a with
          element_ids := insSet c.rbe2_b_eid (insSet c.rbe2_a_eid
            (insSet c.cbush_eid a.element_ids))
          node_ids := unionSet (unionSet (insSet c.gb (insSet c.ga
            a.node_ids)) c.a_dep) c.b_dep }) acc).node_ids))
    ∧ (∀ c ∈ cs,
        c.cbush_eid ∈ (cs.foldl (fun a c =>
          { a with
            element_ids := insSet c.rbe2_b_eid (insSet c.rbe2_a_eid
              (insSet c.cbush_eid a.element_ids))
            node_ids := unionSet (unionSet (insSet c.gb (insSet c.ga
              a.node_ids)) c.a_dep) c.b_dep }) acc).element_ids
        ∧ c.rbe2_a_eid ∈ (cs.foldl (fun a c =>
          { a with
            element_ids := insSet c.rbe2_b_eid (insSet c.rbe2_a_eid
              (insSet c.cbush_eid a.element_ids))
            node_ids := unionSet (unionSet (insSet c.gb (insSet c.ga
              a.node_ids)) c.a_dep) c.b_dep }) acc).element_ids
        ∧ c.rbe2_b_eid ∈ (cs.foldl (fun a c =>
          { a with
            element_ids := insSet c.rbe2_b_eid (insSet c.rbe2_a_eid
              (insSet c.cbush_eid a.element_ids))
            node_ids := unionSet (unionSet (insSet c.gb (insSet c.ga
              a.node_ids)) c.a_dep) c.b_dep }) acc).element_ids
        ∧ c.ga ∈ (cs.foldl (fun a c =>
          { a with
            element_ids := insSet c.rbe2_b_eid (insSet c.rbe2_a_eid
              (insSet c.cbush_eid a.element_ids))
            node_ids := unionSet (unionSet (insSet c.gb (insSet c.ga
              a.node_ids)) c.a_dep) c.b_dep }) acc).node_ids
        ∧ c.gb ∈ (cs.foldl (fun a c =>
          { a with
            element_ids := insSet c.rbe2_b_eid (insSet c.rbe2_a_eid
              (insSet c.cbush_eid a.element_ids))
            node_ids := unionSet (unionSet (insSet c.gb (insSet c.ga
              a.node_ids)) c.a_dep) c.b_dep }) acc).node_ids) := by
  induction cs with
  | nil =>
      intro acc
      exact ⟨rfl, rfl, fun x => ⟨id, id⟩, by simp⟩
  | cons c t ih =>
      intro acc
      rw [List.foldl_cons]
      obtain ⟨ihid, ihprop, ihacc, ihall⟩ := ih
        { acc with
          element_ids := insSet c.rbe2_b_eid (insSet c.rbe2_a_eid
            (insSet c.cbush_eid acc.element_ids))
          node_ids := unionSet (unionSet (insSet c.gb (insSet c.ga
            acc.node_ids)) c.a_dep) c.b_dep }
      have hel : ∀ x, x ∈ acc.element_ids →
          x ∈ insSet c.rbe2_b_eid (insSet c.rbe2_a_eid
            (insSet c.cbush_eid acc.element_ids)) := by
        intro x hx
        exact mem_insSet.mpr (Or.inr (mem_insSet.mpr (Or.inr
          (mem_insSet.mpr (Or.inr hx)))))
      have hnd : ∀ x, x ∈ acc.node_ids →
          x ∈ unionSet (unionSet (insSet c.gb (insSet c.ga
            acc.node_ids)) c.a_dep) c.b_dep := by
        intro x hx
        exact mem_unionSet.mpr (Or.inl (mem_unionSet.mpr (Or.inl
          (mem_insSet.mpr (Or.inr (mem_insSet.mpr (Or.inr hx)))))))
      refine ⟨ihid, ihprop, ?_, ?_⟩
      · intro x
        exact ⟨fun hx => (ihacc x).1 (hel x hx),
          fun hx => (ihacc x).2 (hnd x hx)⟩
      · intro c' hc'
        rcases List.mem_cons.mp hc' with rfl | hc'
        · refine ⟨?_, ?_, ?_, ?_, ?_⟩
          · exact (ihacc _).1 (mem_insSet.mpr (Or.inr (mem_insSet.mpr
              (Or.inr (mem_insSet.mpr (Or.inl rfl))))))
          · exact (ihacc _).1 (mem_insSet.mpr (Or.inr (mem_insSet.mpr
              (Or.inl rfl))))
          · exact (ihacc _).1 (mem_insSet.mpr (Or.inl rfl))
          · exact (ihacc _).2 (mem_unionSet.mpr (Or.inl (mem_unionSet.mpr
              (Or.inl (mem_insSet.mpr (Or.inr (mem_insSet.mpr
                (Or.inl rfl))))))))
          · exact (ihacc _).2 (mem_unionSet.mpr (Or.inl (mem_unionSet.mpr
              (Or.inl (mem_insSet.mpr (Or.inl rfl))))))
        · exact ihall c' hc'

theorem jointsFold_mono (js : List Joint) :
    ∀ (acc : Part),
    ((js.foldl (fun acc j =>
        match j.chains.foldl (fun a c =>
          { a with
            element_ids := insSet c.rbe2_b_eid (insSet c.rbe2_a_eid
              (insSet c.cbush_eid a.element_ids))
            node_ids := unionSet (unionSet (insSet c.gb (insSet c.ga
              a.node_ids)) c.a_dep) c.b_dep }) acc with
        | acc2 =>
            { acc2 with
              property_ids := unionSet acc2.property_ids j.pbush_pids })
      acc).part_id = acc.part_id)
    ∧ (∀ x, (x ∈ acc.element_ids → x ∈ (js.foldl (fun acc j =>
        match j.chains.foldl (fun a c =>
          { a with
            element_ids := insSet c.rbe2_b_eid (insSet c.rbe2_a_eid
              (insSet c.cbush_eid a.element_ids))
            node_ids := unionSet (unionSet (insSet c.gb (insSet c.ga
              a.node_ids)) c.a_dep) c.b_dep }) acc with
        | acc2 =>
            { acc2 with
              property_ids := unionSet acc2.property_ids j.pbush_pids })
      acc).element_ids)
      ∧ (x ∈ acc.node_ids → x ∈ (js.foldl (fun acc j =>
        match j.chains.foldl (fun a c =>
          { a with
            element_ids := insSet c.rbe2_b_eid (insSet c.rbe2_a_eid
              (insSet c.cbush_eid a.element_ids))
            node_ids := unionSet (unionSet (insSet c.gb (insSet c.ga
              a.node_ids)) c.a_dep) c.b_dep }) acc with
        | acc2 =>
            { acc2 with
              property_ids := unionSet acc2.property_ids j.pbush_pids })
      acc).node_ids)
      ∧ (x ∈ acc.property_ids → x ∈ (js.foldl (fun acc j =>
        match j.chains.foldl (fun a c =>
          { a with
            element_ids := insSet c.rbe2_b_eid (insSet c.rbe2_a_eid
              (insSet c.cbush_eid a.element_ids))
            node_ids := unionSet (unionSet (insSet c.gb (insSet c.ga
              a.node_ids)) c.a_dep) c.b_dep }) acc with
        | acc2 =>
            { acc2 with
              property_ids := unionSet acc2.property_ids j.pbush_pids })
      acc).property_ids))
    ∧ (∀ j ∈ js,
        (∀ c ∈ j.chains,
          c.cbush_eid ∈ (js.foldl (fun acc j =>
            match j.chains.foldl (fun a c =>
              { a with
                element_ids := insSet c.rbe2_b_eid (insSet c.rbe2_a_eid
                  (insSet c.cbush_eid a.element_ids))
                node_ids := unionSet (unionSet (insSet c.gb (insSet c.ga
                  a.node_ids)) c.a_dep) c.b_dep }) acc with
            | acc2 =>
                { acc2 with
                  property_ids := unionSet acc2.property_ids
                    j.pbush_pids }) acc).element_ids
          ∧ c.rbe2_a_eid ∈ (js.foldl (fun acc j =>
            match j.chains.foldl (fun a c =>
              { a with
                element_ids := insSet c.rbe2_b_eid (insSet c.rbe2_a_eid
                  (insSet c.cbush_eid a.element_ids))
                node_ids := unionSet (unionSet (insSet c.gb (insSet c.ga
                  a.node_ids)) c.a_dep) c.b_dep }) acc with
            | acc2 =>
                { acc2 with
                  property_ids := unionSet acc2.property_ids
                    j.pbush_pids }) acc).element_ids
          ∧ c.rbe2_b_eid ∈ (js.foldl (fun acc j =>
            match j.chains.foldl (fun a c =>
              { a with
                element_ids := insSet c.rbe2_b_eid (insSet c.rbe2_a_eid
                  (insSet c.cbush_eid a.element_ids))
                node_ids := unionSet (unionSet (insSet c.gb (insSet c.ga
                  a.node_ids)) c.a_dep) c.b_dep }) acc with
            | acc2 =>
                { acc2 with
                  property_ids := unionSet acc2.property_ids
                    j.pbush_pids }) acc).element_ids
          ∧ c.ga ∈ (js.foldl (fun acc j =>
            match j.chains.foldl (fun a c =>
              { a with
                element_ids := insSet c.rbe2_b_eid (insSet c.rbe2_a_eid
                  (insSet c.cbush_eid a.element_ids))
                node_ids := unionSet (unionSet (insSet c.gb (insSet c.ga
                  a.node_ids)) c.a_dep) c.b_dep }) acc with
            | acc2 =>
                { acc2 with
                  property_ids := unionSet acc2.property_ids
                    j.pbush_pids }) acc).node_ids
          ∧ c.gb ∈ (js.foldl (fun acc j =>
            match j.chains.foldl (fun a c =>
              { a with
                element_ids := insSet c.rbe2_b_eid (insSet c.rbe2_a_eid
                  (insSet c.cbush_eid a.element_ids))
                node_ids := unionSet (unionSet (insSet c.gb (insSet c.ga
                  a.node_ids)) c.a_dep) c.b_dep }) acc with
            | acc2 =>
                { acc2 with
                  property_ids := unionSet acc2.property_ids
                    j.pbush_pids }) acc).node_ids)
        ∧ (∀ pid ∈ j.pbush_pids, pid ∈ (js.foldl (fun acc j =>
            match j.chains.foldl (fun a c =>
              { a with
                element_ids := insSet c.rbe2_b_eid (insSet c.rbe2_a_eid
                  (insSet c.cbush_eid a.element_ids))
                node_ids := unionSet (unionSet (insSet c.gb (insSet c.ga
                  a.node_ids)) c.a_dep) c.b_dep }) acc with
            | acc2 =>
                { acc2 with
                  property_ids := unionSet acc2.property_ids
                    j.pbush_pids }) acc).property_ids)) := by
  induction js with
  | nil =>
      intro acc
      exact ⟨rfl, fun x => ⟨id, id, id⟩, by simp⟩
  | cons j t ih =>
      intro acc
      rw [List.foldl_cons]
      obtain ⟨cid, cprop, cacc, call⟩ := chainsFold_mono j.chains acc
      obtain ⟨ihid, ihacc, ihall⟩ := ih
        { j.chains.foldl (fun a c =>
            { a with
              element_ids := insSet c.rbe2_b_eid (insSet c.rbe2_a_eid
                (insSet c.cbush_eid a.element_ids))
              node_ids := unionSet (unionSet (insSet c.gb (insSet c.ga
                a.node_ids)) c.a_dep) c.b_dep }) acc with
          property_ids := unionSet (j.chains.foldl (fun a c =>
            { a with
              element_ids := insSet c.rbe2_b_eid (insSet c.rbe2_a_eid
                (insSet c.cbush_eid a.element_ids))
              node_ids := unionSet (unionSet (insSet c.gb (insSet c.ga
                a.node_ids)) c.a_dep) c.b_dep }) acc).property_ids
            j.pbush_pids }
      refine ⟨by rw [ihid]; exact cid, ?_, ?_⟩
      · intro x
        refine ⟨?_, ?_, ?_⟩
        · intro hx
          exact (ihacc x).1 ((cacc x).1 hx)
        · intro hx
          exact (ihacc x).2.1 ((cacc x).2 hx)
        · intro hx
          apply (ihacc x).2.2
          show x ∈ unionSet _ j.pbush_pids
          rw [cprop] at *
          exact mem_unionSet.mpr (Or.inl (by rw [cprop]; exact hx))
      · intro j' hj'
        rcases List.mem_cons.mp hj' with rfl | hj'
        · constructor
          · intro c hc
            obtain ⟨h1, h2, h3, h4, h5⟩ := call c hc
            exact ⟨(ihacc _).1 h1, (ihacc _).1 h2, (ihacc _).1 h3,
              (ihacc _).2.1 h4, (ihacc _).2.1 h5⟩
          · intro pid hpid
            apply (ihacc pid).2.2
            show pid ∈ unionSet _ j'.pbush_pids
            exact mem_unionSet.mpr (Or.inr hpid)
        · exact ihall j' hj'

theorem rekeyJoint_sides (bid : Nat) (st : List Nat) (j : Joint) :
    ((rekeyJoint bid st j).part_a_id, (rekeyJoint bid st j).part_b_id)
      = (min (if j.part_a_id ∈ st then bid else j.part_a_id)
          (if j.part_b_id ∈ st then bid else j.part_b_id),
        max (if j.part_a_id ∈ st then bid else j.part_a_id)
          (if j.part_b_id ∈ st then bid else j.part_b_id))
    ∧ (rekeyJoint bid st j).chains = j.chains
    ∧ (rekeyJoint bid st j).pbush_pids = j.pbush_pids := by
  unfold rekeyJoint
  by_cases hgt : (if j.part_a_id ∈ st then bid else j.part_a_id)
      > (if j.part_b_id ∈ st then bid else j.part_b_id)
  · rw [if_pos hgt]
    refine ⟨?_, rfl, rfl⟩
    show ((if j.part_b_id ∈ st then bid else j.part_b_id),
      (if j.part_a_id ∈ st then bid else j.part_a_id)) = _
    rw [min_eq_right (le_of_lt hgt), max_eq_left (le_of_lt hgt)]
  · rw [if_neg hgt]
    have hle := Nat.le_of_not_lt hgt
    refine ⟨?_, rfl, rfl⟩
    show ((if j.part_a_id ∈ st then bid else j.part_a_id),
      (if j.part_b_id ∈ st then bid else j.part_b_id)) = _
    rw [min_eq_left hle, max_eq_right hle]

theorem rekeyJoint_spec (bid : Nat) (st : List Nat) (j : Joint)
    (hbid : bid ∈ st)
    (hnb : ¬(j.part_a_id ∈ st ∧ j.part_b_id ∈ st))
    (hab : j.part_a_id < j.part_b_id) :
    ¬((rekeyJoint bid st j).part_a_id ∈ st ∧
      (rekeyJoint bid st j).part_b_id ∈ st)
    ∧ (rekeyJoint bid st j).part_a_id < (rekeyJoint bid st j).part_b_id := by
  obtain ⟨hsides, _, _⟩ := rekeyJoint_sides bid st j
  have ha : (rekeyJoint bid st j).part_a_id
      = min (if j.part_a_id ∈ st then bid else j.part_a_id)
        (if j.part_b_id ∈ st then bid else j.part_b_id) :=
    congrArg Prod.fst hsides
  have hb : (rekeyJoint bid st j).part_b_id
      = max (if j.part_a_id ∈ st then bid else j.part_a_id)
        (if j.part_b_id ∈ st then bid else j.part_b_id) :=
    congrArg Prod.snd hsides
  by_cases haS : j.part_a_id ∈ st
  · have hbS : j.part_b_id ∉ st := fun h => hnb ⟨haS, h⟩
    rw [if_pos haS, if_neg hbS] at ha hb
    have hne : bid ≠ j.part_b_id := fun h => hbS (h ▸ hbid)
    constructor
    · rintro ⟨h1, h2⟩
      rcases Nat.lt_or_ge bid j.part_b_id with hlt | hge
      · rw [hb, max_eq_right (le_of_lt hlt)] at h2
        exact hbS h2
      · have hgt : j.part_b_id < bid := lt_of_le_of_ne hge (Ne.symm hne)
        rw [ha, min_eq_right (le_of_lt hgt)] at h1
        exact hbS h1
    · rw [ha, hb]
      exact min_lt_max.mpr hne
  · by_cases hbS : j.part_b_id ∈ st
    · rw [if_neg haS, if_pos hbS] at ha hb
      have hne : j.part_a_id ≠ bid := fun h => haS (h ▸ hbid)
      constructor
      · rintro ⟨h1, h2⟩
        rcases Nat.lt_or_ge j.part_a_id bid with hlt | hge
        · rw [ha, min_eq_left (le_of_lt hlt)] at h1
          exact haS h1
        · have hgt : bid < j.part_a_id := lt_of_le_of_ne hge (Ne.symm hne)
          rw [hb, max_eq_left (le_of_lt hgt)] at h2
          exact haS h2
      · rw [ha, hb]
        exact min_lt_max.mpr hne
    · rw [if_neg haS, if_neg hbS] at ha hb
      constructor
      · rintro ⟨h1, h2⟩
        rw [ha, min_eq_left (le_of_lt hab)] at h1
        exact haS h1
      · rw [ha, hb, min_eq_left (le_of_lt hab),
          max_eq_right (le_of_lt hab)]
        exact hab

/-- C4: for a merge set naming at least two existing parts, merge_parts
fuses the named parts' element, node and property ids into the part
with the lowest id among them, migrates the chain elements, chain nodes
and PBUSH pids of every joint whose both sides are merged, leaves no
joint with both sides in the set, keeps every other joint (re-keyed to
the merged id with part_a < part_b restored). -/
theorem claim_C4_merge_parts (res : PResult) (S : List Nat)
    (hS2 : 2 ≤ (listToSet S).length)
    (hM2 : 2 ≤ (res.parts.filter
        (fun p => p.part_id ∈ listToSet S)).length)
    (hab : ∀ j ∈ res.joints, j.part_a_id < j.part_b_id) :
    ∃ base,
      minByPartId (res.parts.filter
        (fun p => p.part_id ∈ listToSet S)) = some base
      ∧ base ∈ res.parts
      ∧ base.part_id ∈ listToSet S
      ∧ (∀ p' ∈ res.parts, p'.part_id ∈ listToSet S →
          base.part_id ≤ p'.part_id)
      ∧ mergedPart res S base ∈ (mergeParts res S).parts
      ∧ (mergedPart res S base).part_id = base.part_id
      ∧ (∀ p' ∈ res.parts, p'.part_id ∈ listToSet S → ∀ x,
          (x ∈ p'.element_ids →
            x ∈ (mergedPart res S base).element_ids)
          ∧ (x ∈ p'.node_ids → x ∈ (mergedPart res S base).node_ids)
          ∧ (x ∈ p'.property_ids →
            x ∈ (mergedPart res S base).property_ids))
      ∧ (∀ j ∈ res.joints, j.part_a_id ∈ listToSet S →
          j.part_b_id ∈ listToSet S →
          (∀ c ∈ j.chains,
            c.cbush_eid ∈ (mergedPart res S base).element_ids
            ∧ c.rbe2_a_eid ∈ (mergedPart res S base).element_ids
            ∧ c.rbe2_b_eid ∈ (mergedPart res S base).element_ids
            ∧ c.ga ∈ (mergedPart res S base).node_ids
            ∧ c.gb ∈ (mergedPart res S base).node_ids)
          ∧ (∀ pid ∈ j.pbush_pids,
              pid ∈ (mergedPart res S base).property_ids))
      ∧ (∀ j' ∈ (mergeParts res S).joints,
          ¬(j'.part_a_id ∈ listToSet S ∧ j'.part_b_id ∈ listToSet S)
          ∧ j'.part_a_id < j'.part_b_id)
      ∧ (∀ j ∈ res.joints,
          ¬(j.part_a_id ∈ listToSet S ∧ j.part_b_id ∈ listToSet S) →
          rekeyJoint base.part_id (listToSet S) j
            ∈ (mergeParts res S).joints) := by
  have hfne : res.parts.filter (fun p => p.part_id ∈ listToSet S)
      ≠ [] := by
    intro h
    rw [h] at hM2
    simp at hM2
  obtain ⟨base, hbase, hbmem, hbmin⟩ := minByPartId_spec _ hfne
  have hbin := List.mem_filter.mp hbmem
  have hbset : base.part_id ∈ listToSet S := of_decide_eq_true hbin.2
  have hMP : mergeParts res S =
      { parts := ((res.parts.filter
            (fun p => p.part_id ∉ listToSet S))
          ++ [mergedPart res S base]).insertionSort partLe
        joints := ((res.joints.filter (fun j =>
            ¬(j.part_a_id ∈ listToSet S ∧
              j.part_b_id ∈ listToSet S))).map
          (rekeyJoint base.part_id (listToSet S))).insertionSort
          jointLe } := by
    unfold mergeParts
    rw [if_neg (by omega), if_neg (by omega), hbase]
  refine ⟨base, hbase, hbin.1, hbset, ?_, ?_, ?_, ?_, ?_, ?_, ?_⟩
  · intro p' hp' hset
    exact hbmin p' (List.mem_filter.mpr ⟨hp', decide_eq_true hset⟩)
  · rw [hMP]
    show mergedPart res S base ∈ List.insertionSort partLe _
    rw [(List.perm_insertionSort partLe _).mem_iff]
    exact List.mem_append_right _ (List.mem_singleton.mpr rfl)
  · unfold mergedPart
    rw [(jointsFold_mono _ _).1, (mergeFold_parts_mono _ _).1]
  · intro p' hp' hset x
    have hpf : p' ∈ res.parts.filter
        (fun p => p.part_id ∈ listToSet S) :=
      List.mem_filter.mpr ⟨hp', decide_eq_true hset⟩
    obtain ⟨_, hacc, _⟩ := jointsFold_mono
      (res.joints.filter (fun j =>
        j.part_a_id ∈ listToSet S ∧ j.part_b_id ∈ listToSet S))
      ((res.parts.filter (fun p => p.part_id ∈ listToSet S)).foldl
        (fun acc p =>
          { acc with
            element_ids := unionSet acc.element_ids p.element_ids
            node_ids := unionSet acc.node_ids p.node_ids
            property_ids := unionSet acc.property_ids p.property_ids })
        { part_id := base.part_id, element_ids := [], node_ids := []
          property_ids := [] })
    obtain ⟨_, _, hall⟩ := mergeFold_parts_mono
      (res.parts.filter (fun p => p.part_id ∈ listToSet S))
      { part_id := base.part_id, element_ids := [], node_ids := []
        property_ids := [] }
    refine ⟨?_, ?_, ?_⟩
    · intro hx
      exact (hacc x).1 ((hall p' hpf x).1 hx)
    · intro hx
      exact (hacc x).2.1 ((hall p' hpf x).2.1 hx)
    · intro hx
      exact (hacc x).2.2 ((hall p' hpf x).2.2 hx)
  · intro j hj hjaS hjbS
    have hjf : j ∈ res.joints.filter (fun j =>
        j.part_a_id ∈ listToSet S ∧ j.part_b_id ∈ listToSet S) :=
      List.mem_filter.mpr ⟨hj, decide_eq_true ⟨hjaS, hjbS⟩⟩
    obtain ⟨_, _, hjall⟩ := jointsFold_mono
      (res.joints.filter (fun j =>
        j.part_a_id ∈ listToSet S ∧ j.part_b_id ∈ listToSet S))
      ((res.parts.filter (fun p => p.part_id ∈ listToSet S)).foldl
        (fun acc p =>
          { acc with
            element_ids := unionSet acc.element_ids p.element_ids
            node_ids := unionSet acc.node_ids p.node_ids
            property_ids := unionSet acc.property_ids p.property_ids })
        { part_id := base.part_id, element_ids := [], node_ids := []
          property_ids := [] })
    exact hjall j hjf
  · intro j' hj'
    rw [hMP] at hj'
    have hj2 : j' ∈ (res.joints.filter (fun j =>
        ¬(j.part_a_id ∈ listToSet S ∧
          j.part_b_id ∈ listToSet S))).map
        (rekeyJoint base.part_id (listToSet S)) := by
      have := (List.perm_insertionSort jointLe
        ((res.joints.filter (fun j =>
            ¬(j.part_a_id ∈ listToSet S ∧
              j.part_b_id ∈ listToSet S))).map
          (rekeyJoint base.part_id (listToSet S)))).mem_iff.mp hj'
      exact this
    obtain ⟨j0, hj0, rfl⟩ := List.mem_map.mp hj2
    have hj0f := List.mem_filter.mp hj0
    have hnb : ¬(j0.part_a_id ∈ listToSet S ∧
        j0.part_b_id ∈ listToSet S) := of_decide_eq_true hj0f.2
    exact rekeyJoint_spec base.part_id (listToSet S) j0 hbset hnb
      (hab j0 hj0f.1)
  · intro j hj hnb
    rw [hMP]
    show _ ∈ List.insertionSort jointLe _
    rw [(List.perm_insertionSort jointLe _).mem_iff]
    apply List.mem_map.mpr
    exact ⟨j, List.mem_filter.mpr ⟨hj, decide_eq_true hnb⟩, rfl⟩

/-- A three-part result with one absorbable joint (1–2) and one
re-keyable joint (2–3). -/
def exRes : PResult where
  parts :=
    [{ part_id := 1, element_ids := [1], node_ids := [1],
       property_ids := [11] },
     { part_id := 2, element_ids := [2], node_ids := [2],
       property_ids := [12] },
     { part_id := 3, element_ids := [3], node_ids := [3],
       property_ids := [13] }]
  joints :=
    [{ part_a_id := 1, part_b_id := 2,
       chains := [⟨100, 5, 6, 101, [1], 102, [2]⟩], pbush_pids := [50] },
     { part_a_id := 2, part_b_id := 3,
       chains := [⟨200, 7, 8, 201, [2], 202, [3]⟩], pbush_pids := [51] }]

/-- C4 witness: merging parts 1 and 2 of the example leaves no joint
with both sides in the merge set. -/
theorem claim_C4_witness :
    (∀ j ∈ exRes.joints, j.part_a_id < j.part_b_id) ∧
    ∀ j' ∈ (mergeParts exRes [1, 2]).joints,
      ¬(j'.part_a_id ∈ listToSet [1, 2] ∧
        j'.part_b_id ∈ listToSet [1, 2]) :=
  ⟨by decide, by
    obtain ⟨base, -, -, -, -, -, -, -, -, hjoints, -⟩ :=
      claim_C4_merge_parts exRes [1, 2] (by decide) (by decide)
        (by decide)
    intro j' hj'
    exact (hjoints j' hj').1⟩

end Partition

